import Mathlib

/-!
Contact-Management-System: the CSV interchange engine.

A shallow embedding of `src/src/csv.c` (field codec, record reader, record
writer, import pipeline) together with the parts of `contacts.c`, `db.c` and
`util.c` that the import pipeline calls, and of `contacts_stats`
(`contacts.c`), `util_parse_long` and `util_due_days` (`util.c`).

Conventions of the embedding.

* A byte is a natural number (0..255 in the program).  A `FILE*` opened for
  reading is the list of bytes that are still unread; `fgetc` takes the head,
  `ungetc` of the byte just read puts it back, and once `fgetc` has returned
  EOF it returns EOF again.  A `FILE*` opened for writing is the list of bytes
  written to it.
* A C string argument is the list of bytes found at the pointer; the string
  ends at the first NUL byte or at the end of the list (`cstr`).
* In `csv_read_record` and `import_loop`, `malloc`/`realloc` succeed, so the
  `-1` result of the reader never arises (the branch of the importer that
  handles it is kept); `csv_read_record_alloc` and `import_loop_alloc` are the
  same functions with allocations that may fail.
* The counters `imported`, `failed` (C `int`) are natural numbers: they are
  bounded by the number of bytes of the stream.
* SQLite is outside the repository: the store is a list of rows with an
  optional transaction snapshot, and the possible failure of each SQLite
  statement is given by the store's `faults`.  `strtod`, the comparison of
  doubles and the `"%.2f"` conversion are parameters (`FloatLib`), and so are
  `sscanf` on a date, `mktime` (`TimeLib`), the value of `time(NULL)` and
  `strtol`; `c_strtol` is `strtol` as the C standard describes it.
* The counters of `ContactStats` (C `int`) are natural numbers: they are
  bounded by the number of rows of the table.
-/

namespace ContactCsv

/-- A byte of a stream or of a C string. -/
abbrev Byte := Nat

/-- A run of bytes: a stream, a buffer, or the memory found at a `char*`. -/
abbrev Bytes := List Byte

/-- The C string at a pointer: the bytes before the first NUL. -/
def cstr : Bytes → Bytes
  | [] => []
  | c :: p => if c = 0 then [] else c :: cstr p

/-! ## Field codec: `csv_write_field` (csv.c 9-32) -/

/-- First loop of `csv_write_field` (csv.c 11-16): does the string hold one of
`,` (44), `"` (34), `\n` (10), `\r` (13)? -/
def need_quote : Bytes → Bool
  | [] => false
  | c :: p =>
    if c = 0 then false
    else if c = 44 ∨ c = 34 ∨ c = 10 ∨ c = 13 then true
    else need_quote p

/-- Second loop of `csv_write_field` (csv.c 22-30): every `"` is written twice,
every other byte once. -/
def write_escaped : Bytes → Bytes
  | [] => []
  | c :: p =>
    if c = 0 then []
    else if c = 34 then 34 :: 34 :: write_escaped p
    else c :: write_escaped p

/-- The bytes `csv_write_field(out, s)` appends to `out`. -/
def csv_write_field (s : Bytes) : Bytes :=
  if need_quote s = false then cstr s
  else [34] ++ write_escaped s ++ [34]

/-- Body of the row loop of `csv_write_contacts` (csv.c 56-67) for six
strings: the six fields, each through `csv_write_field`, with `,` between
them and `\n` at the end. -/
def csv_write_row (f0 f1 f2 f3 f4 f5 : Bytes) : Bytes :=
  csv_write_field f0 ++ [44] ++ csv_write_field f1 ++ [44] ++ csv_write_field f2 ++ [44]
    ++ csv_write_field f3 ++ [44] ++ csv_write_field f4 ++ [44] ++ csv_write_field f5 ++ [10]

/-! ## Record reader: `csv_read_record` (csv.c 73-167) -/

/-- How the `while` loop of `csv_read_record` was left: `fgetc` returned EOF,
the `field >= field_count` break (csv.c 89-91), the `\n` break (csv.c 102-104)
or the `\r` break (csv.c 105-111). -/
inductive LoopExit where
  | eof
  | limit
  | lf
  | cr
  deriving DecidableEq, Repr

/-- The locals of `csv_read_record` when its `while` loop is left: the fields
stored so far (`fields[0..field-1]`, so `field = fields.length`), the
accumulator (`buf[0..len-1]`) and the unread part of the stream. -/
structure ReadLoop where
  exit : LoopExit
  fields : List Bytes
  buf : Bytes
  rest : Bytes
  deriving DecidableEq, Repr

/-- The `while ((c = fgetc(in)) != EOF)` loop of `csv_read_record`
(csv.c 88-146), one byte per step, from the locals `fields`, `in_quotes`,
`buf`. -/
def read_loop (field_count : Nat) : Bytes → List Bytes → Bool → Bytes → ReadLoop
  | [], fields, _, buf => ⟨.eof, fields, buf, []⟩
  | c :: rest, fields, in_quotes, buf =>
    if field_count ≤ fields.length then ⟨.limit, fields, buf, rest⟩
    else if in_quotes = false ∧ (c = 44 ∨ c = 10 ∨ c = 13) then
      if c = 10 then ⟨.lf, fields ++ [buf], [], rest⟩
      else if c = 13 then
        match rest with
        | [] => ⟨.cr, fields ++ [buf], [], []⟩
        | next :: rest' =>
          if next ≠ 10 then ⟨.cr, fields ++ [buf], [], next :: rest'⟩
          else ⟨.cr, fields ++ [buf], [], rest'⟩
      else read_loop field_count rest (fields ++ [buf]) in_quotes []
    else if c = 34 ∧ in_quotes = true then
      match rest with
      | [] => read_loop field_count [] fields false buf
      | next :: rest' =>
        if next = 34 then read_loop field_count rest' fields in_quotes (buf ++ [34])
        else read_loop field_count (next :: rest') fields false buf
    else if c = 34 ∧ buf.length = 0 then read_loop field_count rest fields true buf
    else read_loop field_count rest fields in_quotes (buf ++ [c])

/-- What one call of `csv_read_record` gives: the returned count, the non-null
prefix `fields[0..count-1]` of the field array (the other entries are NULL),
and the unread part of the stream. -/
structure ReadResult where
  count : Int
  fields : List Bytes
  rest : Bytes
  deriving DecidableEq, Repr

/-- The function `csv_read_record(in, fields, field_count)` for non-null `in`
and `fields` (csv.c 73-167) when its allocations succeed;
`csv_read_record_alloc` is the function with allocations that may fail. -/
def csv_read_record (in_ : Bytes) (field_count : Nat) : ReadResult :=
  if field_count = 0 then ⟨0, [], in_⟩
  else
    let st := read_loop field_count in_ [] false []
    if 0 < st.buf.length ∨ 0 < st.fields.length then
      if st.fields.length < field_count then
        ⟨((st.fields.length + 1 : Nat) : Int), st.fields ++ [st.buf], st.rest⟩
      else ⟨(st.fields.length : Int), st.fields, st.rest⟩
    else ⟨0, [], st.rest⟩

/-- The records the reader yields by repeated calls of
`csv_read_record(in, fields, 6)` until it returns 0, at most `fuel` of them;
`csv_read_all` gives enough fuel for the whole stream. -/
def csv_records : Nat → Bytes → List ReadResult
  | 0, _ => []
  | fuel + 1, in_ =>
    if (csv_read_record in_ 6).count = 0 then []
    else csv_read_record in_ 6 :: csv_records fuel (csv_read_record in_ 6).rest

/-- All records of a stream, in order. -/
def csv_read_all (in_ : Bytes) : List ReadResult :=
  csv_records (in_.length + 1) in_

/-! ## Numbers: `util_parse_double` (util.c 80-95) -/

/-- A `double`, as its IEEE-754 binary64 bit pattern; arithmetic on doubles is
not modelled. -/
abbrev Double := Nat

/-- The floating-point services of the C library the program calls, taken as
parameters. -/
structure FloatLib where
  /-- The call `strtod(s, &end)`: the value, the offset `end - s`, and whether
  `errno` was set. -/
  strtod : Bytes → Double × Nat × Bool
  /-- The comparison `a < b` on doubles. -/
  lt : Double → Double → Bool
  /-- The text `printf` makes of a double under `"%.2f"`. -/
  fmt2f : Double → Bytes

/-- The double `0.0`. -/
def DBL_ZERO : Double := 0

/-- The double `1e12`. -/
def DBL_1E12 : Double := 0x426D1A94A2000000

/-- The double `-1e12`. -/
def DBL_NEG_1E12 : Double := 0xC26D1A94A2000000

/-- The function `util_parse_double(s, out, min, max)` for non-null `s`, `out`:
`some v` when it returns 1 and stores `v`, `none` when it returns 0 and leaves
`*out` alone. -/
def util_parse_double (L : FloatLib) (s : Bytes) (min max : Double) : Option Double :=
  if (L.strtod (cstr s)).2.2 = true ∨ (L.strtod (cstr s)).2.1 = 0
      ∨ (cstr s).getD (L.strtod (cstr s)).2.1 0 ≠ 0 then none
  else if L.lt (L.strtod (cstr s)).1 min = true ∨ L.lt max (L.strtod (cstr s)).1 = true then none
  else some (L.strtod (cstr s)).1

/-! ## Contacts and the store (contacts.h, contacts.c 29-55, db.c 73-92) -/

/-- The struct `Contact` (contacts.h 19-27); each `char[N]` member is given by
the C string it holds. -/
structure Contact where
  id : Int
  name : Bytes
  phone : Bytes
  address : Bytes
  email : Bytes
  due_amount : Double
  due_date : Bytes
  deriving DecidableEq, Repr

/-- The call `snprintf(dst, size, "%s", src)`: the C string left in `dst`. -/
def snprintf_s (size : Nat) (src : Bytes) : Bytes :=
  (cstr src).take (size - 1)

/-- A row of table `contacts` (db.c 51-59) without its rowid; a text column
may be NULL. -/
structure Row where
  name : Option Bytes
  phone : Option Bytes
  address : Option Bytes
  email : Option Bytes
  due_amount : Double
  due_date : Option Bytes
  deriving DecidableEq, Repr

/-- A call the import pipeline makes on the store. -/
inductive SinkCall where
  | begin_
  | add (c : Contact)
  | commit
  | rollback
  deriving DecidableEq, Repr

/-- The store behind a `Db*`.  `handle`: `db->handle` is non-null.  `rows`:
table `contacts` as the connection sees it, in rowid order.  `txn`: inside a
transaction, the table as it was at `BEGIN`.  `faults`: the environment; for
each SQLite statement still to come, whether it fails (I/O error, lock, full
disk); when the list is used up no statement fails.  `log`: the calls made on
the store so far, oldest first. -/
structure Db where
  handle : Bool
  rows : List Row
  txn : Option (List Row)
  faults : List Bool
  log : List SinkCall
  deriving DecidableEq, Repr

/-- One SQLite statement meets the environment: whether it may run, and the
store with that fault used up. -/
def sqlite_attempt (db : Db) : Bool × Db :=
  match db.faults with
  | [] => (true, db)
  | f :: fs => (!f, { db with faults := fs })

/-- The function `db_begin` (db.c 73-78): `BEGIN;` fails inside a transaction. -/
def db_begin (db : Db) : Bool × Db :=
  let db1 := { db with log := db.log ++ [SinkCall.begin_] }
  if db1.handle = false then (false, db1)
  else if (sqlite_attempt db1).1 = false then (false, (sqlite_attempt db1).2)
  else
    match (sqlite_attempt db1).2.txn with
    | some _ => (false, (sqlite_attempt db1).2)
    | none => (true, { (sqlite_attempt db1).2 with txn := some (sqlite_attempt db1).2.rows })

/-- The function `db_commit` (db.c 80-85): `COMMIT;` fails outside a transaction. -/
def db_commit (db : Db) : Bool × Db :=
  let db1 := { db with log := db.log ++ [SinkCall.commit] }
  if db1.handle = false then (false, db1)
  else if (sqlite_attempt db1).1 = false then (false, (sqlite_attempt db1).2)
  else
    match (sqlite_attempt db1).2.txn with
    | none => (false, (sqlite_attempt db1).2)
    | some _ => (true, { (sqlite_attempt db1).2 with txn := none })

/-- The function `db_rollback` (db.c 87-92): `ROLLBACK;` puts the table back as
it was at `BEGIN`. -/
def db_rollback (db : Db) : Bool × Db :=
  let db1 := { db with log := db.log ++ [SinkCall.rollback] }
  if db1.handle = false then (false, db1)
  else if (sqlite_attempt db1).1 = false then (false, (sqlite_attempt db1).2)
  else
    match (sqlite_attempt db1).2.txn with
    | none => (false, (sqlite_attempt db1).2)
    | some snap => (true, { (sqlite_attempt db1).2 with rows := snap, txn := none })

/-- The row that `contacts_add` binds from a `Contact` (contacts.c 40-45). -/
def row_of_contact (c : Contact) : Row :=
  { name := some (cstr c.name), phone := some (cstr c.phone),
    address := some (cstr c.address), email := some (cstr c.email),
    due_amount := c.due_amount, due_date := some (cstr c.due_date) }

/-- The function `contacts_add(db, c, out_id)` (contacts.c 29-55) for non-null
`c`; the rowid it stores in `*out_id` is not modelled. -/
def contacts_add (db : Db) (c : Contact) : Bool × Db :=
  let db1 := { db with log := db.log ++ [SinkCall.add c] }
  if db1.handle = false ∨ cstr c.name = [] then (false, db1)
  else if (sqlite_attempt db1).1 = false then (false, (sqlite_attempt db1).2)
  else (true, { (sqlite_attempt db1).2 with
                  rows := (sqlite_attempt db1).2.rows ++ [row_of_contact c] })

/-! ## Import pipeline: `csv_import_contacts` (csv.c 176-268) -/

/-- The `Contact` built from the six fields of a record (csv.c 224-232). -/
def contact_of_fields (L : FloatLib) (fields : List Bytes) : Contact :=
  { id := 0
    name := snprintf_s 200 (fields.getD 0 [])
    phone := snprintf_s 50 (fields.getD 1 [])
    address := snprintf_s 200 (fields.getD 2 [])
    email := snprintf_s 200 (fields.getD 3 [])
    due_date := snprintf_s 50 (fields.getD 5 [])
    due_amount :=
      match util_parse_double L (fields.getD 4 [48]) DBL_NEG_1E12 DBL_1E12 with
      | some v => v
      | none => DBL_ZERO }

/-- The locals of `csv_import_contacts` when its `while (1)` loop is left:
`aborted` when a strict failure returned 0 from inside the loop (rollback
already issued), otherwise the loop ended at end of stream. -/
structure ImportLoop where
  aborted : Bool
  imported : Nat
  failed : Nat
  db : Db
  in_ : Bytes
  deriving DecidableEq, Repr

/-- The strict-mode exit inside the loop (csv.c 200-205, 216-221, 243-248):
roll back unless this is a dry run, then return 0. -/
def strict_abort (dry_run : Bool) (imported failed : Nat) (db : Db) (in_ : Bytes) : ImportLoop :=
  ⟨true, imported, failed, if dry_run = false then (db_rollback db).2 else db, in_⟩

/-- The `while (1)` loop of `csv_import_contacts` (csv.c 192-252), one record
per step, from the locals `header_read`, `imported`, `failed`; `none` when
`fuel` records were not enough to reach the end of the loop. -/
def import_loop (L : FloatLib) (strict dry_run : Bool) :
    Nat → Bytes → Bool → Nat → Nat → Db → Option ImportLoop
  | 0, _, _, _, _, _ => none
  | fuel + 1, in_, header_read, imported, failed, db =>
    if (csv_read_record in_ 6).count = 0 then
      some ⟨false, imported, failed, db, (csv_read_record in_ 6).rest⟩
    else if (csv_read_record in_ 6).count < 0 then
      if strict = true then
        some (strict_abort dry_run imported (failed + 1) db (csv_read_record in_ 6).rest)
      else
        import_loop L strict dry_run fuel (csv_read_record in_ 6).rest header_read
          imported (failed + 1) db
    else if header_read = false then
      import_loop L strict dry_run fuel (csv_read_record in_ 6).rest true imported failed db
    else if (csv_read_record in_ 6).count < 6 then
      if strict = true then
        some (strict_abort dry_run imported (failed + 1) db (csv_read_record in_ 6).rest)
      else
        import_loop L strict dry_run fuel (csv_read_record in_ 6).rest header_read
          imported (failed + 1) db
    else if dry_run = true then
      import_loop L strict dry_run fuel (csv_read_record in_ 6).rest header_read
        (imported + 1) failed db
    else if (contacts_add db (contact_of_fields L (csv_read_record in_ 6).fields)).1 = true then
      import_loop L strict dry_run fuel (csv_read_record in_ 6).rest header_read
        (imported + 1) failed
        (contacts_add db (contact_of_fields L (csv_read_record in_ 6).fields)).2
    else if strict = true then
      some (strict_abort dry_run imported (failed + 1)
        (contacts_add db (contact_of_fields L (csv_read_record in_ 6).fields)).2
        (csv_read_record in_ 6).rest)
    else
      import_loop L strict dry_run fuel (csv_read_record in_ 6).rest header_read
        imported (failed + 1)
        (contacts_add db (contact_of_fields L (csv_read_record in_ 6).fields)).2

/-- What a call of `csv_import_contacts` leaves: the returned `int`, the pair
stored in `*out_imported`, `*out_failed` (`none`: nothing was stored), the
store, and the unread part of the stream. -/
structure ImportResult where
  ret : Int
  counts : Option (Nat × Nat)
  db : Db
  in_ : Bytes
  deriving DecidableEq, Repr

/-- The tail of `csv_import_contacts` after the loop (csv.c 254-267). -/
def import_finish (dry_run : Bool) (lo : ImportLoop) : ImportResult :=
  if lo.aborted = true then ⟨0, none, lo.db, lo.in_⟩
  else if dry_run = true then ⟨1, some (lo.imported, lo.failed), lo.db, lo.in_⟩
  else if (db_commit lo.db).1 = false then
    ⟨0, none, (db_rollback (db_commit lo.db).2).2, lo.in_⟩
  else ⟨1, some (lo.imported, lo.failed), (db_commit lo.db).2, lo.in_⟩

/-- The function `csv_import_contacts` entered with the local `header_read`
already holding a given value (csv.c 186-267); with `true` this is the
function as it goes on once the header record has been discarded.  The loop
gets one unit of fuel per byte of the stream and one more, which is enough
(`import_loop_total`). -/
def csv_import_from (L : FloatLib) (db : Db) (in_ : Bytes) (strict dry_run : Bool)
    (header_read : Bool) : ImportResult :=
  if db.handle = false then ⟨0, none, db, in_⟩
  else if dry_run = false ∧ (db_begin db).1 = false then ⟨0, none, (db_begin db).2, in_⟩
  else
    match import_loop L strict dry_run (in_.length + 1) in_ header_read 0 0
        (if dry_run = false then (db_begin db).2 else db) with
    | none => ⟨0, none, db, in_⟩
    | some lo => import_finish dry_run lo

/-- The function `csv_import_contacts(db, in, strict, dry_run, out_imported,
out_failed)` for non-null `db`, `in` and out-pointers (csv.c 176-268):
`header_read` starts at 0. -/
def csv_import_contacts (L : FloatLib) (db : Db) (in_ : Bytes) (strict dry_run : Bool) :
    ImportResult :=
  csv_import_from L db in_ strict dry_run false

/-! ## Record writer: `csv_write_contacts` (csv.c 34-71) -/

/-- The header line `Name,Phone,Address,Email,DueAmount,DueDate\n` (csv.c 38). -/
def CSV_HEADER : Bytes :=
  [78, 97, 109, 101, 44, 80, 104, 111, 110, 101, 44, 65, 100, 100, 114, 101, 115, 115, 44,
   69, 109, 97, 105, 108, 44, 68, 117, 101, 65, 109, 111, 117, 110, 116, 44,
   68, 117, 101, 68, 97, 116, 101, 10]

/-- ASCII case folding of SQLite's `NOCASE` collation. -/
def nocase_fold (c : Byte) : Byte :=
  if 65 ≤ c ∧ c ≤ 90 then c + 32 else c

/-- Order of two texts under `COLLATE NOCASE`. -/
def nocase_le : Bytes → Bytes → Bool
  | [], _ => true
  | _ :: _, [] => false
  | a :: as, b :: bs =>
    if nocase_fold a < nocase_fold b then true
    else if nocase_fold b < nocase_fold a then false
    else nocase_le as bs

/-- Order of two rows under `ORDER BY name COLLATE NOCASE`: NULL first. -/
def name_le (r1 r2 : Row) : Prop :=
  match r1.name, r2.name with
  | none, _ => True
  | some _, none => False
  | some a, some b => nocase_le a b = true

instance : DecidableRel name_le := fun r1 r2 => by
  unfold name_le
  cases r1.name <;> cases r2.name <;> infer_instance

/-- The rows the query of `csv_write_contacts` steps through (csv.c 40-45):
the table ordered by name, rows of equal name in rowid order. -/
def select_contacts (db : Db) : List Row :=
  List.insertionSort name_le db.rows

/-- The line `csv_write_contacts` writes for one row (csv.c 46-67): a NULL
column is written as the empty string, the amount through
`snprintf(due_buf, 64, "%.2f", due_amount)`. -/
def csv_write_line (L : FloatLib) (r : Row) : Bytes :=
  csv_write_row (r.name.getD []) (r.phone.getD []) (r.address.getD []) (r.email.getD [])
    (snprintf_s 64 (L.fmt2f r.due_amount)) (r.due_date.getD [])

/-- The function `csv_write_contacts(db, out)` for non-null `db`, `out`
(csv.c 34-71): the returned `int`, the bytes written to `out`, and the store. -/
def csv_write_contacts (L : FloatLib) (db : Db) : Int × Bytes × Db :=
  if db.handle = false then (0, [], db)
  else if (sqlite_attempt db).1 = false then (0, CSV_HEADER, (sqlite_attempt db).2)
  else (1, CSV_HEADER ++ ((select_contacts db).map (csv_write_line L)).flatten, (sqlite_attempt db).2)

/-- A C library stand-in for evaluating examples whose amounts are zero or not
numeric: `strtod` converts nothing and `"%.2f"` prints `0.00`. -/
def zeroLib : FloatLib :=
  { strtod := fun _ => (0, 0, false)
    lt := fun _ _ => false
    fmt2f := fun _ => [48, 46, 48, 48] }

/-- A store that is open, holds `rows`, is outside any transaction and meets
no fault. -/
def healthy_db (rows : List Row) : Db :=
  { handle := true, rows := rows, txn := none, faults := [], log := [] }

/-! ## Streams of lines -/

/-- The stream made of the given lines, each ended by `\n`, then a last part. -/
def lf_stream (lines : List Bytes) (last : Bytes) : Bytes :=
  (lines.map (fun p => p ++ [10])).flatten ++ last

/-- The stream made of the given lines, each ended by `\r\n`, then a last part. -/
def crlf_stream (lines : List Bytes) (last : Bytes) : Bytes :=
  (lines.map (fun p => p ++ [13, 10])).flatten ++ last

/-- A line at whose `\n` the reader ends a record: read from its first byte
and followed by `\n`, the loop of `csv_read_record` takes the `\n` break
(csv.c 102-104) exactly at that `\n`. -/
def is_line (p : Bytes) : Prop :=
  (read_loop 6 (p ++ [10]) [] false []).exit = LoopExit.lf
    ∧ (read_loop 6 (p ++ [10]) [] false []).rest = []

instance : DecidablePred is_line := fun p => by
  unfold is_line
  infer_instance

/-- What a record is to the caller: its count and its fields. -/
def record_data (r : ReadResult) : Int × List Bytes :=
  (r.count, r.fields)

/-! ## The encoding rule in the words of the specification (section 4.1) -/

/-- One of the four bytes that force quoting: `,`, `"`, `\n`, `\r`. -/
def is_special (b : Byte) : Prop :=
  b = 44 ∨ b = 34 ∨ b = 10 ∨ b = 13

instance : DecidablePred is_special := fun b => by
  unfold is_special
  infer_instance

/-- A text with every `"` replaced by two `"` and every other byte unchanged. -/
def double_quotes (s : Bytes) : Bytes :=
  (s.map (fun b => if b = 34 then [34, 34] else [b])).flatten

/-- The encoding rule as the specification words it: a value without special
byte is emitted verbatim, any other value is wrapped in a pair of `"` with its
inner `"` doubled. -/
def encoding_rule (s : Bytes) : Bytes :=
  if ∀ b ∈ s, ¬ is_special b then s else [34] ++ double_quotes s ++ [34]

/-! ## The import pipeline in terms of the records of a stream -/

/-- The records the reader yields after the header. -/
def data_records (in_ : Bytes) : List ReadResult :=
  (csv_read_all in_).tail

/-- The store the loop of `csv_import_contacts` starts on: the store left by
`db_begin` in a committing run, the caller's store in a dry run. -/
def import_start (db : Db) (dry_run : Bool) : Db :=
  if dry_run = false then (db_begin db).2 else db

/-- Whether a record read after the header passes on the store at hand: not
when the reader reports fewer than 6 fields; always, otherwise, in a dry run;
and in a committing run as `contacts_add` answers for the converted record. -/
def record_passes (L : FloatLib) (dry_run : Bool) (r : ReadResult) (db : Db) : Bool :=
  if r.count < 6 then false
  else if dry_run = true then true
  else (contacts_add db (contact_of_fields L r.fields)).1

/-- The store after one record read after the header: untouched when the
record has fewer than 6 fields or in a dry run, else as `contacts_add` leaves
it (whatever it answered). -/
def sink_step (L : FloatLib) (dry_run : Bool) (r : ReadResult) (db : Db) : Db :=
  if r.count < 6 ∨ dry_run = true then db
  else (contacts_add db (contact_of_fields L r.fields)).2

/-- The store after the records of a list, taken in order. -/
def sink_feed (L : FloatLib) (dry_run : Bool) : List ReadResult → Db → Db
  | [], db => db
  | r :: rs, db => sink_feed L dry_run rs (sink_step L dry_run r db)

/-- For each record of a list, taken in order, whether it passes on the store
the records before it have left. -/
def record_outcomes (L : FloatLib) (dry_run : Bool) : List ReadResult → Db → List Bool
  | [], _ => []
  | r :: rs, db =>
    record_passes L dry_run r db :: record_outcomes L dry_run rs (sink_step L dry_run r db)

/-- The records of a list that pass, in the order of the list. -/
def accepted_records (L : FloatLib) (dry_run : Bool) : List ReadResult → Db → List ReadResult
  | [], _ => []
  | r :: rs, db =>
    if record_passes L dry_run r db = true then
      r :: accepted_records L dry_run rs (sink_step L dry_run r db)
    else accepted_records L dry_run rs (sink_step L dry_run r db)

/-- The `contacts_add` calls the loop makes for the records of a list: one for
each record of at least 6 fields, in order. -/
def add_calls (L : FloatLib) (recs : List ReadResult) : List SinkCall :=
  (recs.filter (fun r => decide (¬ r.count < 6))).map
    (fun r => SinkCall.add (contact_of_fields L r.fields))

/-! ## Example data -/

/-- The stream `h\nx,y\nA,1,2,3,x,5\nB,,,,,\n`: a header, a two-field line and
two six-field lines. -/
def demo_stream : Bytes :=
  [104, 10, 120, 44, 121, 10, 65, 44, 49, 44, 50, 44, 51, 44, 120, 44, 53, 10,
   66, 44, 44, 44, 44, 44, 10]

/-- The first record of `demo_stream`. -/
def demo_hdr : ReadResult :=
  ⟨2, [[104], []],
    [120, 44, 121, 10, 65, 44, 49, 44, 50, 44, 51, 44, 120, 44, 53, 10, 66, 44, 44, 44, 44, 44, 10]⟩

/-- The second record of `demo_stream`. -/
def demo_bad : ReadResult :=
  ⟨3, [[120], [121], []],
    [65, 44, 49, 44, 50, 44, 51, 44, 120, 44, 53, 10, 66, 44, 44, 44, 44, 44, 10]⟩

/-- The other records of `demo_stream`. -/
def demo_good : List ReadResult :=
  [⟨6, [[65], [49], [50], [51], [120], [53]], [66, 44, 44, 44, 44, 44, 10]⟩,
   ⟨6, [[66], [], [], [], [], []], []⟩]

/-- A store that already holds one row, named `Z`. -/
def demo_db : Db :=
  healthy_db [⟨some [90], none, none, none, 0, none⟩]

/-- A store holding `bob` and `Al, "Q"`, the second with the address `x\ny`. -/
def demo_export_db : Db :=
  healthy_db [⟨some [98, 111, 98], some [49], none, none, 0, none⟩,
    ⟨some [65, 108, 44, 32, 34, 81, 34], none, some [120, 10, 121], none, 0, some []⟩]

/-- The stream `h\nA,1,2,3,x,5\nB,,,,,\n`: a header and two six-field lines
with a name, the first with the amount text `x`, the second with an empty one. -/
def demo_good_stream : Bytes :=
  [104, 10, 65, 44, 49, 44, 50, 44, 51, 44, 120, 44, 53, 10, 66, 44, 44, 44, 44, 44, 10]

/-- The stream `h\nA,77...7,x,y,0,d\n` whose second field holds 55 bytes `7`. -/
def demo_long_stream : Bytes :=
  [104, 10, 65, 44] ++ List.replicate 55 55 ++ [44, 120, 44, 121, 44, 48, 44, 100, 10]

/-! ## Where the records of a stream start -/

/-- The streams the reader finds at its successive calls
`csv_read_record(in, fields, 6)`, up to the call that returns 0, at most `fuel`
of them: the stream as given, then what each call left unread. -/
def csv_starts : Nat → Bytes → List Bytes
  | 0, _ => []
  | fuel + 1, in_ =>
    if (csv_read_record in_ 6).count = 0 then []
    else in_ :: csv_starts fuel (csv_read_record in_ 6).rest

/-- Whether a stream begins with an empty line: `\n`, or `\r\n`. -/
def starts_blank : Bytes → Bool
  | 10 :: _ => true
  | 13 :: 10 :: _ => true
  | _ => false

/-- The number of calls of the reader, after the one that returns the header,
that find an empty line first in the stream. -/
def blank_lines (in_ : Bytes) : Nat :=
  ((csv_starts (in_.length + 1) in_).tail).countP starts_blank

/-! ## The written file in the words of the specification (section 4.4) -/

/-- The six texts written for a stored row, in column order: name, phone,
address, email, the amount text that `snprintf(due_buf, 64, "%.2f", ...)` leaves
in `due_buf`, due date; a NULL text column gives the empty string. -/
def row_texts (L : FloatLib) (r : Row) : List Bytes :=
  [r.name.getD [], r.phone.getD [], r.address.getD [], r.email.getD [],
    snprintf_s 64 (L.fmt2f r.due_amount), r.due_date.getD []]

/-- One line of the file as the specification words it: the texts, each
through the field codec, joined by `,` and terminated by `\n`. -/
def spec_line (texts : List Bytes) : Bytes :=
  List.intercalate [44] (texts.map csv_write_field) ++ [10]

/-! ## The reader with the caller's field array as memory (csv.c 73-167) -/

/-- The locals of `csv_read_record` when its `while` loop is left, with the
caller's array `fields[0..field_count-1]` as memory (`none` is NULL) and the
index `field`.  `oob` records whether some store `fields[i] = ...` was made
with `i` outside the array. -/
structure ReadMem where
  exit : LoopExit
  arr : List (Option Bytes)
  field : Nat
  buf : Bytes
  rest : Bytes
  oob : Bool
  deriving DecidableEq, Repr

/-- The store `fields[i] = malloc(len + 1); memcpy(fields[i], buf, len + 1)`
(csv.c 94-99, 151-156) on an array: inside the array the entry is set, outside
it the store is recorded in `oob`. -/
def store_field (arr : List (Option Bytes)) (oob : Bool) (i : Nat) (v : Bytes) :
    List (Option Bytes) × Bool :=
  if i < arr.length then (arr.set i (some v), oob) else (arr, true)

/-- The `while` loop of `csv_read_record` (csv.c 88-146) on the array, one byte
per step, from the locals `fields`, `field`, `in_quotes`, `buf`. -/
def read_loop_mem (field_count : Nat) :
    Bytes → List (Option Bytes) → Nat → Bool → Bytes → Bool → ReadMem
  | [], arr, field, _, buf, oob => ⟨.eof, arr, field, buf, [], oob⟩
  | c :: rest, arr, field, in_quotes, buf, oob =>
    if field_count ≤ field then ⟨.limit, arr, field, buf, rest, oob⟩
    else if in_quotes = false ∧ (c = 44 ∨ c = 10 ∨ c = 13) then
      if c = 10 then
        ⟨.lf, (store_field arr oob field buf).1, field + 1, [], rest,
          (store_field arr oob field buf).2⟩
      else if c = 13 then
        match rest with
        | [] =>
          ⟨.cr, (store_field arr oob field buf).1, field + 1, [], [],
            (store_field arr oob field buf).2⟩
        | next :: rest' =>
          if next ≠ 10 then
            ⟨.cr, (store_field arr oob field buf).1, field + 1, [], next :: rest',
              (store_field arr oob field buf).2⟩
          else
            ⟨.cr, (store_field arr oob field buf).1, field + 1, [], rest',
              (store_field arr oob field buf).2⟩
      else
        read_loop_mem field_count rest (store_field arr oob field buf).1 (field + 1) in_quotes []
          (store_field arr oob field buf).2
    else if c = 34 ∧ in_quotes = true then
      match rest with
      | [] => read_loop_mem field_count [] arr field false buf oob
      | next :: rest' =>
        if next = 34 then read_loop_mem field_count rest' arr field in_quotes (buf ++ [34]) oob
        else read_loop_mem field_count (next :: rest') arr field false buf oob
    else if c = 34 ∧ buf.length = 0 then read_loop_mem field_count rest arr field true buf oob
    else read_loop_mem field_count rest arr field in_quotes (buf ++ [c]) oob

/-- What one call of `csv_read_record` leaves, the array as memory: the
returned count, the array `fields[0..field_count-1]`, the unread part of the
stream, and whether a store fell outside the array. -/
structure ReadMemResult where
  count : Int
  arr : List (Option Bytes)
  rest : Bytes
  oob : Bool
  deriving DecidableEq, Repr

/-- The function `csv_read_record(in, fields, field_count)` on the array, for
non-null `in` and `fields` (csv.c 73-167); `memset` makes every entry NULL
before the loop. -/
def csv_read_record_mem (in_ : Bytes) (field_count : Nat) : ReadMemResult :=
  if field_count = 0 then ⟨0, [], in_, false⟩
  else
    let st := read_loop_mem field_count in_ (List.replicate field_count none) 0 false [] false
    if 0 < st.buf.length ∨ 0 < st.field then
      if st.field < field_count then
        ⟨((st.field + 1 : Nat) : Int), (store_field st.arr st.oob st.field st.buf).1, st.rest,
          (store_field st.arr st.oob st.field st.buf).2⟩
      else ⟨(st.field : Int), st.arr, st.rest, st.oob⟩
    else ⟨0, st.arr, st.rest, st.oob⟩

/-- The array that holds the given fields in its first entries and NULL in
the others. -/
def field_array (field_count : Nat) (fields : List Bytes) : List (Option Bytes) :=
  fields.map some ++ List.replicate (field_count - fields.length) none

/-! ## Integers: `util_parse_long` (util.c 46-61) -/

/-- The function `util_parse_long(s, out, min, max)` for non-null `s`, `out`:
`some v` when it returns 1 and stores `v`, `none` when it returns 0 and leaves
`*out` alone.  The call `strtol(s, &end, 10)` is a parameter: the value, the
offset `end - s`, and whether `errno` was set. -/
def util_parse_long (strtol : Bytes → Int × Nat × Bool) (s : Bytes) (min max : Int) :
    Option Int :=
  if (strtol (cstr s)).2.2 = true ∨ (strtol (cstr s)).2.1 = 0
      ∨ (cstr s).getD (strtol (cstr s)).2.1 0 ≠ 0 then none
  else if (strtol (cstr s)).1 < min ∨ max < (strtol (cstr s)).1 then none
  else some (strtol (cstr s)).1

/-- The C library's `isspace` in the C locale: space, `\t`, `\n`, `\v`, `\f`, `\r`. -/
def c_isspace (c : Nat) : Bool :=
  decide (c = 32 ∨ (9 ≤ c ∧ c ≤ 13))

/-- The C library's `isdigit`. -/
def c_isdigit (c : Nat) : Bool :=
  decide (48 ≤ c ∧ c ≤ 57)

/-- The sign `strtol` accepts at the head of a text: `+`, `-` or none. -/
def strtol_sign : Bytes → Bytes
  | 43 :: _ => [43]
  | 45 :: _ => [45]
  | _ => []

/-- The number a run of decimal digits denotes. -/
def digits_value (ds : Bytes) : Nat :=
  ds.foldl (fun acc c => acc * 10 + (c - 48)) 0

/-- The subject sequence `strtol` finds in a text (C11 7.22.1.4): the white
space it skips, the sign, and the longest run of digits that follows. -/
def strtol_scan (s : Bytes) : Bytes × Bytes × Bytes :=
  (s.takeWhile c_isspace, strtol_sign (s.dropWhile c_isspace),
    (((s.dropWhile c_isspace).drop (strtol_sign (s.dropWhile c_isspace)).length).takeWhile
      c_isdigit))

/-- The number the subject sequence denotes. -/
def strtol_value (s : Bytes) : Int :=
  if (strtol_scan s).2.1 = [45] then -((digits_value (strtol_scan s).2.2 : Nat) : Int)
  else ((digits_value (strtol_scan s).2.2 : Nat) : Int)

/-- The call `strtol(s, &end, 10)` of the C library (C11 7.22.1.4) for a `long`
of `long_bits` bits: without digits no conversion is made, `end` is `s` and 0
is returned; a value outside the range of `long` gives `LONG_MAX` or
`LONG_MIN` and sets `errno`; else the value is returned and `end` points
behind the last digit. -/
def c_strtol (long_bits : Nat) (s : Bytes) : Int × Nat × Bool :=
  if (strtol_scan s).2.2 = [] then (0, 0, false)
  else if 2 ^ (long_bits - 1) - 1 < strtol_value s then
    (2 ^ (long_bits - 1) - 1,
      (strtol_scan s).1.length + (strtol_scan s).2.1.length + (strtol_scan s).2.2.length, true)
  else if strtol_value s < -(2 ^ (long_bits - 1)) then
    (-(2 ^ (long_bits - 1)),
      (strtol_scan s).1.length + (strtol_scan s).2.1.length + (strtol_scan s).2.2.length, true)
  else
    (strtol_value s,
      (strtol_scan s).1.length + (strtol_scan s).2.1.length + (strtol_scan s).2.2.length, false)

/-! ## Doubles as IEEE-754 bit patterns -/

/-- Whether a bit pattern is a NaN: exponent bits all set, fraction not 0. -/
def dbl_is_nan (d : Double) : Bool :=
  decide ((d / 2 ^ 52) % 2 ^ 11 = 2047 ∧ d % 2 ^ 52 ≠ 0)

/-- The place of a double that is not a NaN in the order of the doubles: its
magnitude bits, negated when the sign bit is set (so `-0.0` and `0.0` agree). -/
def dbl_key (d : Double) : Int :=
  if (d / 2 ^ 63) % 2 = 1 then -((d % 2 ^ 63 : Nat) : Int) else ((d % 2 ^ 63 : Nat) : Int)

/-- The comparison `a < b` of IEEE-754: false when either side is a NaN. -/
def ieee_lt (a b : Double) : Bool :=
  !dbl_is_nan a && !dbl_is_nan b && decide (dbl_key a < dbl_key b)

/-- The comparison `a <= b` of IEEE-754: false when either side is a NaN. -/
def ieee_le (a b : Double) : Bool :=
  !dbl_is_nan a && !dbl_is_nan b && decide (dbl_key a ≤ dbl_key b)

/-- A quiet NaN, as `strtod` returns for the text `nan`. -/
def DBL_NAN : Double := 0x7FF8000000000000

/-- The double `100.0`. -/
def DBL_100 : Double := 0x4059000000000000

/-- The double `12.5`. -/
def DBL_12_5 : Double := 0x4029000000000000

/-- A C library stand-in for evaluating the texts `nan`, `12.50`, `bad` and the
empty text: `strtod` converts `nan` whole to a quiet NaN (C11 7.22.1.3) and
`12.50` whole to 12.5, and converts nothing of the two others; the comparison
is the one of IEEE-754.  Other texts and `"%.2f"` are not meant to be
evaluated with it. -/
def sampleLib : FloatLib :=
  { strtod := fun s =>
      if s = [110, 97, 110] then (DBL_NAN, 3, false)
      else if s = [49, 50, 46, 53, 48] then (DBL_12_5, 5, false)
      else (0, 0, false)
    lt := ieee_lt
    fmt2f := fun _ => [48, 46, 48, 48] }

/-! ## Dates: `util_parse_iso_date`, `util_due_days` (util.c 213-260) -/

/-- The members of `struct tm` that the program sets. -/
structure Tm where
  tm_year : Int
  tm_mon : Int
  tm_mday : Int
  tm_hour : Int
  tm_min : Int
  tm_sec : Int
  tm_isdst : Int
  deriving DecidableEq, Repr

/-- The calendar services of the C library the program calls, taken as
parameters. -/
structure TimeLib where
  /-- The call `sscanf(input, "%4d-%2d-%2d", &year, &month, &day)`: the three
  numbers when it returns 3. -/
  sscanf_date : Bytes → Option (Int × Int × Int)
  /-- The call `mktime(&tm)`: the `time_t` it returns, `-1` for a time it
  cannot represent, and the normalised `struct tm` it leaves. -/
  mktime : Tm → Int × Tm

/-- The conversion of an integer to a signed type of `bits` bits
(two's complement wrap-around). -/
def to_signed (bits : Nat) (x : Int) : Int :=
  (x + 2 ^ (bits - 1)) % 2 ^ bits - 2 ^ (bits - 1)

/-- The function `util_parse_iso_date(input, out)` for non-null arguments
(util.c 213-238): the `struct tm` left in `*out` when it returns 1. -/
def util_parse_iso_date (T : TimeLib) (input : Bytes) : Option Tm :=
  match T.sscanf_date (cstr input) with
  | none => none
  | some (year, month, day) =>
    if year < 1900 ∨ month < 1 ∨ month > 12 ∨ day < 1 ∨ day > 31 then none
    else if (T.mktime ⟨year - 1900, month - 1, day, 0, 0, 0, -1⟩).1 = -1 then none
    else some (T.mktime ⟨year - 1900, month - 1, day, 0, 0, 0, -1⟩).2

/-- The day count of `util_due_days` (util.c 253-258) from the two times:
`seconds` is a `long long`, `days` a `long` of `long_bits` bits, the result an
`int`; `/` and `%` of C truncate toward zero. -/
def due_days_between (long_bits : Nat) (due_time now : Int) : Int :=
  if to_signed 64 (due_time - now) < 0 ∧ (to_signed 64 (due_time - now)).tmod 86400 ≠ 0 then
    to_signed 32 (to_signed long_bits
      (to_signed long_bits ((to_signed 64 (due_time - now)).tdiv 86400) - 1))
  else to_signed 32 (to_signed long_bits ((to_signed 64 (due_time - now)).tdiv 86400))

/-- The function `util_due_days(due_date, days_out)` for non-null arguments
(util.c 240-260), `now` being what `time(NULL)` returns: the number stored in
`*days_out` when it returns 1. -/
def util_due_days (T : TimeLib) (long_bits : Nat) (now : Int) (due_date : Bytes) : Option Int :=
  if cstr due_date = [] then none
  else
    match util_parse_iso_date T due_date with
    | none => none
    | some due_tm =>
      if (T.mktime due_tm).1 = -1 then none
      else some (due_days_between long_bits (T.mktime due_tm).1 now)

/-- A C library stand-in for evaluating the date text `2025-01-02` in UTC:
`sscanf` reads that text as 2025, 1, 2 and no other, `mktime` returns the
midnight 1735776000 and leaves the `struct tm` as it is. -/
def sampleTime : TimeLib :=
  { sscanf_date := fun s =>
      if s = [50, 48, 50, 53, 45, 48, 49, 45, 48, 50] then some (2025, 1, 2) else none
    mktime := fun tm => (1735776000, tm) }

/-! ## Statistics: `contacts_stats` (contacts.c 249-359) -/

/-- The `int` counters of the struct `ContactStats` (contacts.h 29-52).  The
amount members (`total_due_amount` .. `max_due_amount`), the name and date
members and `by_letter` are not modelled: no counter depends on them. -/
structure ContactStats where
  total_contacts : Nat
  due_contacts : Nat
  no_due_contacts : Nat
  overdue_contacts : Nat
  due_today_contacts : Nat
  due_soon_contacts : Nat
  due_later_contacts : Nat
  due_date_present : Nat
  due_date_missing : Nat
  due_date_invalid : Nat
  missing_phone : Nat
  missing_email : Nat
  missing_address : Nat
  deriving DecidableEq, Repr

/-- The counters after `memset(out, 0, sizeof(*out))`. -/
def stats_zero : ContactStats :=
  ⟨0, 0, 0, 0, 0, 0, 0, 0, 0, 0, 0, 0, 0⟩

/-- The part of the row loop of `contacts_stats` that counts missing fields
and amounts (contacts.c 270-297). -/
def stats_fields (L : FloatLib) (st : ContactStats) (r : Row) : ContactStats :=
  { st with
    total_contacts := st.total_contacts + 1
    missing_phone := if cstr (r.phone.getD []) = [] then st.missing_phone + 1 else st.missing_phone
    missing_address :=
      if cstr (r.address.getD []) = [] then st.missing_address + 1 else st.missing_address
    missing_email := if cstr (r.email.getD []) = [] then st.missing_email + 1 else st.missing_email
    due_contacts := if L.lt DBL_ZERO r.due_amount = true then st.due_contacts + 1 else st.due_contacts
    no_due_contacts :=
      if L.lt DBL_ZERO r.due_amount = true then st.no_due_contacts else st.no_due_contacts + 1 }

/-- The part of the row loop of `contacts_stats` that classifies the due date
(contacts.c 298-340), `now` being what `time(NULL)` returns in `util_due_days`. -/
def stats_date (T : TimeLib) (long_bits : Nat) (now : Int) (st : ContactStats) (r : Row) :
    ContactStats :=
  if cstr (r.due_date.getD []) = [] then { st with due_date_missing := st.due_date_missing + 1 }
  else
    match util_due_days T long_bits now (r.due_date.getD []) with
    | none =>
      { st with due_date_present := st.due_date_present + 1
                due_date_invalid := st.due_date_invalid + 1 }
    | some days =>
      if days < 0 then
        { st with due_date_present := st.due_date_present + 1
                  overdue_contacts := st.overdue_contacts + 1 }
      else if days = 0 then
        { st with due_date_present := st.due_date_present + 1
                  due_today_contacts := st.due_today_contacts + 1
                  due_soon_contacts := st.due_soon_contacts + 1 }
      else if days ≤ 7 then
        { st with due_date_present := st.due_date_present + 1
                  due_soon_contacts := st.due_soon_contacts + 1 }
      else
        { st with due_date_present := st.due_date_present + 1
                  due_later_contacts := st.due_later_contacts + 1 }

/-- The row loop of `contacts_stats` (contacts.c 263-353) from row number `k`
on; `clock k` is what `time(NULL)` returns while row `k` is handled. -/
def stats_loop (L : FloatLib) (T : TimeLib) (long_bits : Nat) (clock : Nat → Int) :
    Nat → List Row → ContactStats → ContactStats
  | _, [], st => st
  | k, r :: rs, st =>
    stats_loop L T long_bits clock (k + 1) rs
      (stats_date T long_bits (clock k) (stats_fields L st r) r)

/-- The function `contacts_stats(db, out)` for non-null `db`, `out`
(contacts.c 249-359): the returned `int`, the counters left in `*out` (`none`:
`*out` was not written), and the store. -/
def contacts_stats (L : FloatLib) (T : TimeLib) (long_bits : Nat) (clock : Nat → Int) (db : Db) :
    Int × Option ContactStats × Db :=
  if db.handle = false then (0, none, db)
  else if (sqlite_attempt db).1 = false then (0, some stats_zero, (sqlite_attempt db).2)
  else (1, some (stats_loop L T long_bits clock 0 db.rows stats_zero), (sqlite_attempt db).2)

/-- The stream `h\na,b,c,d,e\nA,1,2,3,4,5\n`: a header, a line of 5 fields and a
line of 6 fields. -/
def demo_short_stream : Bytes :=
  [104, 10, 97, 44, 98, 44, 99, 44, 100, 44, 101, 10,
   65, 44, 49, 44, 50, 44, 51, 44, 52, 44, 53, 10]

/-! ## Records the sink rejects -/

/-- The number of records of a list, taken in order in a committing run, that
have at least 6 fields and to which `contacts_add` answers 0 on the store the
records before them have left. -/
def sink_rejected (L : FloatLib) : List ReadResult → Db → Nat
  | [], _ => 0
  | r :: rs, db =>
    (if ¬ r.count < 6 ∧ (contacts_add db (contact_of_fields L r.fields)).1 = false then 1 else 0)
      + sink_rejected L rs (sink_step L false r db)

/-- The store `demo_db` on which the second SQLite statement to come fails. -/
def demo_faulty_db : Db :=
  { demo_db with faults := [false, true, false, false] }

/-! ## The reader and the import loop when an allocation may fail -/

theorem cstr_of_nul_free (s : Bytes) (h : ∀ b ∈ s, b ≠ 0) : cstr s = s := by
  induction s with
  | nil => rfl
  | cons c p ih =>
    have hc : c ≠ 0 := h c (List.mem_cons_self _ _)
    have hp : ∀ b ∈ p, b ≠ 0 := fun b hb => h b (List.mem_cons_of_mem _ hb)
    simp [cstr, hc, ih hp]

theorem cstr_nul_free (s : Bytes) : ∀ b ∈ cstr s, b ≠ 0 := by
  induction s with
  | nil => simp [cstr]
  | cons c p ih =>
    by_cases hc : c = 0
    · simp [cstr, hc]
    · intro b hb
      simp only [cstr, hc, if_false, List.mem_cons] at hb
      rcases hb with rfl | hb
      · exact hc
      · exact ih b hb

theorem cstr_cstr (s : Bytes) : cstr (cstr s) = cstr s :=
  cstr_of_nul_free _ (cstr_nul_free s)

/-- A string that needs no quoting holds none of the four special bytes. -/
theorem plain_of_need_quote_false (s : Bytes) (h : need_quote s = false) :
    ∀ b ∈ cstr s, b ≠ 44 ∧ b ≠ 34 ∧ b ≠ 10 ∧ b ≠ 13 := by
  induction s with
  | nil => simp [cstr]
  | cons c p ih =>
    by_cases hc : c = 0
    · simp [cstr, hc]
    · by_cases hs : c = 44 ∨ c = 34 ∨ c = 10 ∨ c = 13
      · simp [need_quote, hc, hs] at h
      · simp only [need_quote, hc, hs, if_false] at h
        intro b hb
        simp only [cstr, hc, if_false, List.mem_cons] at hb
        rcases hb with rfl | hb
        · simpa [not_or] using hs
        · exact ih h b hb

/-! ## Facts about the reader loop -/

theorem read_loop_nil (fc : Nat) (fields : List Bytes) (q : Bool) (buf : Bytes) :
    read_loop fc [] fields q buf = ⟨.eof, fields, buf, []⟩ := rfl

/-- One step of the loop on a non-empty stream. -/
theorem read_loop_cons (fc : Nat) (c : Byte) (rest : Bytes) (fields : List Bytes) (q : Bool)
    (buf : Bytes) :
    read_loop fc (c :: rest) fields q buf =
      if fc ≤ fields.length then ⟨.limit, fields, buf, rest⟩
      else if q = false ∧ (c = 44 ∨ c = 10 ∨ c = 13) then
        if c = 10 then ⟨.lf, fields ++ [buf], [], rest⟩
        else if c = 13 then
          match rest with
          | [] => ⟨.cr, fields ++ [buf], [], []⟩
          | next :: rest' =>
            if next ≠ 10 then ⟨.cr, fields ++ [buf], [], next :: rest'⟩
            else ⟨.cr, fields ++ [buf], [], rest'⟩
        else read_loop fc rest (fields ++ [buf]) q []
      else if c = 34 ∧ q = true then
        match rest with
        | [] => read_loop fc [] fields false buf
        | next :: rest' =>
          if next = 34 then read_loop fc rest' fields q (buf ++ [34])
          else read_loop fc (next :: rest') fields false buf
      else if c = 34 ∧ buf.length = 0 then read_loop fc rest fields true buf
      else read_loop fc rest fields q (buf ++ [c]) := by
  cases rest <;> rfl

/-- Outside quotes, bytes that are not special are appended to the accumulator. -/
theorem read_loop_plain (fc : Nat) (s rest : Bytes) (fields : List Bytes) (buf : Bytes)
    (hf : fields.length < fc) (hs : ∀ b ∈ s, b ≠ 44 ∧ b ≠ 34 ∧ b ≠ 10 ∧ b ≠ 13) :
    read_loop fc (s ++ rest) fields false buf = read_loop fc rest fields false (buf ++ s) := by
  induction s generalizing buf with
  | nil => simp
  | cons c p ih =>
    obtain ⟨h1, h2, h3, h4⟩ := hs c (List.mem_cons_self _ _)
    have hp : ∀ b ∈ p, b ≠ 44 ∧ b ≠ 34 ∧ b ≠ 10 ∧ b ≠ 13 :=
      fun b hb => hs b (List.mem_cons_of_mem _ hb)
    have hf' : ¬ fc ≤ fields.length := by omega
    rw [List.cons_append, read_loop_cons]
    simp only [hf', if_false, h1, h2, h3, h4, or_self, and_false, false_and]
    rw [ih _ hp]
    simp

/-- Inside quotes, the escaped form of a string is read back as the string. -/
theorem read_loop_escaped (fc : Nat) (s rest : Bytes) (fields : List Bytes) (buf : Bytes)
    (hf : fields.length < fc) :
    read_loop fc (write_escaped s ++ rest) fields true buf
      = read_loop fc rest fields true (buf ++ cstr s) := by
  induction s generalizing buf with
  | nil => simp [write_escaped, cstr]
  | cons c p ih =>
    have hf' : ¬ fc ≤ fields.length := by omega
    by_cases hc : c = 0
    · simp [write_escaped, cstr, hc]
    · by_cases hq : c = 34
      · subst hq
        simp only [write_escaped, cstr, hc, if_false, if_true, List.cons_append]
        rw [read_loop_cons]
        simp only [hf', Bool.true_eq_false, false_and, if_false, and_self, if_true]
        rw [ih]
        simp
      · simp only [write_escaped, cstr, hc, hq, if_false, List.cons_append]
        rw [read_loop_cons]
        simp only [hf', hq, Bool.true_eq_false, false_and, if_false]
        rw [ih]
        simp

/-- A closing quote followed by end of stream or by a byte other than `"`
leaves the quoted state and that byte is read again. -/
theorem read_loop_close (fc : Nat) (rest : Bytes) (fields : List Bytes) (buf : Bytes)
    (hf : fields.length < fc) (hr : rest.head? ≠ some 34) :
    read_loop fc (34 :: rest) fields true buf = read_loop fc rest fields false buf := by
  have hf' : ¬ fc ≤ fields.length := by omega
  cases rest with
  | nil => rw [read_loop_cons]; simp [hf']
  | cons d r =>
    have hd : d ≠ 34 := by simpa using hr
    rw [read_loop_cons]; simp [hf', hd]

/-- An opening quote at the start of a field enters the quoted state. -/
theorem read_loop_open (fc : Nat) (rest : Bytes) (fields : List Bytes)
    (hf : fields.length < fc) :
    read_loop fc (34 :: rest) fields false [] = read_loop fc rest fields true [] := by
  have hf' : ¬ fc ≤ fields.length := by omega
  rw [read_loop_cons]; simp [hf']

/-- A field written by `csv_write_field` and followed by end of stream or by a
byte other than `"` is read into the accumulator as the original string. -/
theorem read_loop_field (fc : Nat) (s rest : Bytes) (fields : List Bytes)
    (hf : fields.length < fc) (hr : rest.head? ≠ some 34) :
    read_loop fc (csv_write_field s ++ rest) fields false []
      = read_loop fc rest fields false (cstr s) := by
  by_cases hq : need_quote s = false
  · simp only [csv_write_field, hq, if_true]
    rw [read_loop_plain fc _ _ _ _ hf (plain_of_need_quote_false s hq)]
    simp
  · have hw : csv_write_field s ++ rest = 34 :: (write_escaped s ++ 34 :: rest) := by
      simp [csv_write_field, hq]
    rw [hw, read_loop_open fc _ _ hf, read_loop_escaped fc _ _ _ _ hf,
      read_loop_close fc _ _ _ hf hr]
    simp

theorem read_loop_comma (fc : Nat) (rest : Bytes) (fields : List Bytes) (buf : Bytes)
    (hf : fields.length < fc) :
    read_loop fc (44 :: rest) fields false buf
      = read_loop fc rest (fields ++ [buf]) false [] := by
  have hf' : ¬ fc ≤ fields.length := by omega
  rw [read_loop_cons]; simp [hf']

theorem read_loop_lf (fc : Nat) (rest : Bytes) (fields : List Bytes) (buf : Bytes)
    (hf : fields.length < fc) :
    read_loop fc (10 :: rest) fields false buf = ⟨.lf, fields ++ [buf], [], rest⟩ := by
  have hf' : ¬ fc ≤ fields.length := by omega
  rw [read_loop_cons]; simp [hf']

/-- A field and the comma after it: the field is stored. -/
theorem read_loop_field_comma (fc : Nat) (s rest : Bytes) (fields : List Bytes)
    (hf : fields.length < fc) :
    read_loop fc (csv_write_field s ++ 44 :: rest) fields false []
      = read_loop fc rest (fields ++ [cstr s]) false [] := by
  rw [read_loop_field fc s _ fields hf (by simp), read_loop_comma fc _ _ _ hf]

/-- The first five fields of a written row and their commas. -/
theorem read_loop_five (f0 f1 f2 f3 f4 : Bytes) (rest : Bytes) :
    read_loop 6 (csv_write_field f0 ++ 44 :: (csv_write_field f1 ++ 44 ::
      (csv_write_field f2 ++ 44 :: (csv_write_field f3 ++ 44 ::
      (csv_write_field f4 ++ 44 :: rest))))) [] false []
      = read_loop 6 rest [cstr f0, cstr f1, cstr f2, cstr f3, cstr f4] false [] := by
  rw [read_loop_field_comma 6 f0 _ [] (by simp)]
  rw [read_loop_field_comma 6 f1 _ _ (by simp)]
  rw [read_loop_field_comma 6 f2 _ _ (by simp)]
  rw [read_loop_field_comma 6 f3 _ _ (by simp)]
  rw [read_loop_field_comma 6 f4 _ _ (by simp)]
  simp

theorem csv_write_row_eq (f0 f1 f2 f3 f4 f5 : Bytes) (rest : Bytes) :
    csv_write_row f0 f1 f2 f3 f4 f5 ++ rest
      = csv_write_field f0 ++ 44 :: (csv_write_field f1 ++ 44 ::
          (csv_write_field f2 ++ 44 :: (csv_write_field f3 ++ 44 ::
          (csv_write_field f4 ++ 44 :: (csv_write_field f5 ++ 10 :: rest))))) := by
  simp [csv_write_row]

/-- Reading back a written row, for any six strings and whatever follows the
row in the stream. -/
theorem csv_read_written_row (f0 f1 f2 f3 f4 f5 : Bytes) (rest : Bytes) :
    csv_read_record (csv_write_row f0 f1 f2 f3 f4 f5 ++ rest) 6
      = ⟨6, [cstr f0, cstr f1, cstr f2, cstr f3, cstr f4, cstr f5], rest⟩ := by
  rw [csv_write_row_eq, csv_read_record, read_loop_five,
    read_loop_field 6 f5 _ _ (by simp) (by simp), read_loop_lf 6 _ _ _ (by simp)]
  simp

/-! ## C1: round trip of the field codec -/

/-- C1: six NUL-free fields, each written by `csv_write_field`, joined by `,`
and ended by `\n`, are read back by `csv_read_record` with count 6 and exactly
the six original fields, and exactly the line is consumed: what follows it in
the stream is left unread. -/
theorem csv_field_roundtrip (f0 f1 f2 f3 f4 f5 : Bytes) (rest : Bytes)
    (h0 : ∀ b ∈ f0, b ≠ 0) (h1 : ∀ b ∈ f1, b ≠ 0) (h2 : ∀ b ∈ f2, b ≠ 0)
    (h3 : ∀ b ∈ f3, b ≠ 0) (h4 : ∀ b ∈ f4, b ≠ 0) (h5 : ∀ b ∈ f5, b ≠ 0) :
    csv_read_record (csv_write_row f0 f1 f2 f3 f4 f5 ++ rest) 6
      = ⟨6, [f0, f1, f2, f3, f4, f5], rest⟩ := by
  rw [csv_read_written_row, cstr_of_nul_free f0 h0, cstr_of_nul_free f1 h1,
    cstr_of_nul_free f2 h2, cstr_of_nul_free f3 h3, cstr_of_nul_free f4 h4,
    cstr_of_nul_free f5 h5]

/-- C1 at the record of test_csv.c: `Alice, "Quote"`, `123`, `Line1\nLine2`,
an empty field, `a,b\r` and `"`, followed by the byte `X`. -/
theorem csv_field_roundtrip_witness :
    csv_read_record (csv_write_row
        [65, 108, 105, 99, 101, 44, 32, 34, 81, 117, 111, 116, 101, 34] [49, 50, 51]
        [76, 105, 110, 101, 49, 10, 76, 105, 110, 101, 50] [] [97, 44, 98, 13] [34] ++ [88]) 6
      = ⟨6, [[65, 108, 105, 99, 101, 44, 32, 34, 81, 117, 111, 116, 101, 34], [49, 50, 51],
          [76, 105, 110, 101, 49, 10, 76, 105, 110, 101, 50], [], [97, 44, 98, 13], [34]], [88]⟩ :=
  csv_field_roundtrip _ _ _ _ _ _ _ (by decide) (by decide) (by decide) (by decide)
    (by decide) (by decide)

/-! ## Progress of the reader and fuel of the loops -/

/-- The loop never gives bytes back: on a non-empty stream it leaves less
than it found. -/
theorem read_loop_rest_le (fc : Nat) :
    ∀ (n : Nat) (s : Bytes) (fields : List Bytes) (q : Bool) (buf : Bytes), s.length ≤ n →
      (read_loop fc s fields q buf).rest.length ≤ s.length - 1 := by
  intro n
  induction n with
  | zero =>
    intro s fields q buf hn
    have : s = [] := List.length_eq_zero.mp (by omega)
    subst this
    simp [read_loop_nil]
  | succ n ih =>
    intro s fields q buf hn
    cases s with
    | nil => simp [read_loop_nil]
    | cons c rest =>
      have hrest : rest.length ≤ n := by simpa using hn
      have h1 := fun fields q buf => ih rest fields q buf hrest
      rw [read_loop_cons]
      simp only [List.length_cons, Nat.add_sub_cancel]
      split_ifs
      · simp
      · simp
      · cases rest with
        | nil => simp
        | cons next rest' => simp only []; split_ifs <;> simp
      · exact le_trans (h1 _ _ _) (Nat.sub_le _ _)
      · cases rest with
        | nil => simp [read_loop_nil]
        | cons next rest' =>
          simp only []
          have hrest' : rest'.length ≤ n := by simp at hrest; omega
          split_ifs
          · exact le_trans (ih rest' _ _ _ hrest') (by simp; omega)
          · exact le_trans (h1 _ _ _) (Nat.sub_le _ _)
      · exact le_trans (h1 _ _ _) (Nat.sub_le _ _)
      · exact le_trans (h1 _ _ _) (Nat.sub_le _ _)

theorem csv_read_record_rest (s : Bytes) (fc : Nat) (hfc : fc ≠ 0) :
    (csv_read_record s fc).rest = (read_loop fc s [] false []).rest := by
  unfold csv_read_record
  simp only [hfc, if_false]
  split_ifs <;> rfl

theorem csv_read_record_rest_le (s : Bytes) :
    (csv_read_record s 6).rest.length ≤ s.length := by
  rw [csv_read_record_rest s 6 (by decide)]
  exact le_trans (read_loop_rest_le 6 s.length s [] false [] le_rfl) (Nat.sub_le _ _)

/-- A call that returns a record has consumed at least one byte. -/
theorem csv_read_record_progress (s : Bytes) (h : (csv_read_record s 6).count ≠ 0) :
    (csv_read_record s 6).rest.length < s.length := by
  cases s with
  | nil => exact absurd (by decide) h
  | cons c rest =>
    rw [csv_read_record_rest _ 6 (by decide)]
    have := read_loop_rest_le 6 _ (c :: rest) [] false [] le_rfl
    simp only [List.length_cons, Nat.add_sub_cancel] at this ⊢
    omega

/-- Any fuel above the length of the stream gives the same run of the import loop. -/
theorem import_loop_fuel (L : FloatLib) (strict dry_run : Bool) :
    ∀ (n m : Nat) (s : Bytes) (hr : Bool) (i f : Nat) (db : Db),
      s.length < n → s.length < m →
      import_loop L strict dry_run n s hr i f db = import_loop L strict dry_run m s hr i f db := by
  intro n
  induction n with
  | zero => intro m s hr i f db h; omega
  | succ n ih =>
    intro m s hr i f db hn hm
    cases m with
    | zero => omega
    | succ m =>
      by_cases hc : (csv_read_record s 6).count = 0
      · simp only [import_loop, hc, if_true]
      · have hp := csv_read_record_progress s hc
        have hrec := fun hr i f db =>
          ih m (csv_read_record s 6).rest hr i f db (by omega) (by omega)
        simp only [import_loop, hc, if_false, hrec]

/-- With fuel above the length of the stream the import loop reaches its end. -/
theorem import_loop_total (L : FloatLib) (strict dry_run : Bool) :
    ∀ (n : Nat) (s : Bytes) (hr : Bool) (i f : Nat) (db : Db), s.length < n →
      ∃ lo, import_loop L strict dry_run n s hr i f db = some lo := by
  intro n
  induction n with
  | zero => intro s hr i f db h; omega
  | succ n ih =>
    intro s hr i f db hn
    by_cases hc : (csv_read_record s 6).count = 0
    · simp only [import_loop, hc, if_true]
      exact ⟨_, rfl⟩
    · have hp := csv_read_record_progress s hc
      have hrec := fun hr i f db => ih (csv_read_record s 6).rest hr i f db (by omega)
      simp only [import_loop, hc, if_false]
      split_ifs
      all_goals first
        | exact ⟨_, rfl⟩
        | exact hrec _ _ _ _

/-- Any fuel above the length of the stream lists the same records. -/
theorem csv_records_fuel :
    ∀ (n m : Nat) (s : Bytes), s.length < n → s.length < m →
      csv_records n s = csv_records m s := by
  intro n
  induction n with
  | zero => intro m s h; omega
  | succ n ih =>
    intro m s hn hm
    cases m with
    | zero => omega
    | succ m =>
      by_cases hc : (csv_read_record s 6).count = 0
      · simp only [csv_records, hc, if_true]
      · have hp := csv_read_record_progress s hc
        simp only [csv_records, hc, if_false]
        rw [ih m _ (by omega) (by omega)]

/-- The records of a stream: none when the reader returns 0, else the first
record followed by the records of what it left unread. -/
theorem csv_read_all_unfold (s : Bytes) :
    csv_read_all s =
      if (csv_read_record s 6).count = 0 then []
      else csv_read_record s 6 :: csv_read_all (csv_read_record s 6).rest := by
  by_cases hc : (csv_read_record s 6).count = 0
  · simp only [csv_read_all, csv_records, hc, if_true]
  · have hp := csv_read_record_progress s hc
    have h1 : csv_read_all s
        = csv_read_record s 6 :: csv_records s.length (csv_read_record s 6).rest := by
      simp only [csv_read_all, csv_records, hc, if_false]
    rw [h1, if_neg hc, csv_read_all,
      csv_records_fuel s.length ((csv_read_record s 6).rest.length + 1) _ hp (by omega)]

/-! ## Bounds on the count the reader returns -/

theorem read_loop_fields_le (fc : Nat) :
    ∀ (n : Nat) (s : Bytes) (fields : List Bytes) (q : Bool) (buf : Bytes), s.length ≤ n →
      fields.length ≤ fc → (read_loop fc s fields q buf).fields.length ≤ fc := by
  intro n
  induction n with
  | zero =>
    intro s fields q buf hn hf
    have : s = [] := List.length_eq_zero.mp (by omega)
    subst this
    simpa [read_loop_nil] using hf
  | succ n ih =>
    intro s fields q buf hn hf
    cases s with
    | nil => simpa [read_loop_nil] using hf
    | cons c rest =>
      have hrest : rest.length ≤ n := by simpa using hn
      rw [read_loop_cons]
      split_ifs with h1 h2 h3 h4 h5 h6
      · exact hf
      · simp; omega
      · cases rest with
        | nil => simp; omega
        | cons next rest' => simp only []; split_ifs <;> (simp; omega)
      · exact ih rest _ _ _ hrest (by simp; omega)
      · cases rest with
        | nil => simpa [read_loop_nil] using hf
        | cons next rest' =>
          simp only []
          have hrest' : rest'.length ≤ n := by simp at hrest; omega
          split_ifs
          · exact ih rest' _ _ _ hrest' hf
          · exact ih _ _ _ _ hrest hf
      · exact ih rest _ _ _ hrest hf
      · exact ih rest _ _ _ hrest hf

/-- The reader returns a count between 0 and 6. -/
theorem csv_read_record_count_bounds (s : Bytes) :
    0 ≤ (csv_read_record s 6).count ∧ (csv_read_record s 6).count ≤ 6 := by
  have h := read_loop_fields_le 6 s.length s [] false [] le_rfl (by simp)
  unfold csv_read_record
  simp only [show (6 : Nat) ≠ 0 by decide, if_false]
  split_ifs with h1 h2
  · simp only []; omega
  · simp only []; omega
  · simp

/-- The returned count is the number of fields handed back. -/
theorem csv_read_record_fields_length (s : Bytes) :
    ((csv_read_record s 6).fields.length : Int) = (csv_read_record s 6).count := by
  unfold csv_read_record
  simp only [show (6 : Nat) ≠ 0 by decide, if_false]
  split_ifs <;> simp

/-! ## C4: a dry run never touches the store -/

theorem import_loop_dry_db (L : FloatLib) (strict : Bool) :
    ∀ (n : Nat) (s : Bytes) (hr : Bool) (i f : Nat) (db : Db) (lo : ImportLoop),
      import_loop L strict true n s hr i f db = some lo → lo.db = db := by
  intro n
  induction n with
  | zero => intro s hr i f db lo h; simp [import_loop] at h
  | succ n ih =>
    intro s hr i f db lo h
    simp only [import_loop] at h
    split_ifs at h
    all_goals first
      | exact ih _ _ _ _ _ _ h
      | (simp only [Option.some.injEq] at h; subst h; simp [strict_abort])

/-- C4: with `dry_run = 1`, for every stream, every store and both values of
`strict`, the store after `csv_import_contacts` is the store before it, its
call log included: no `db_begin`, `contacts_add`, `db_commit` or `db_rollback`
was issued, whether the call returns 1 or 0. -/
theorem csv_import_dry_run_no_mutation (L : FloatLib) (db : Db) (s : Bytes) (strict : Bool) :
    (csv_import_contacts L db s strict true).db = db := by
  unfold csv_import_contacts csv_import_from
  by_cases hh : db.handle = false
  · simp [hh]
  · simp only [hh, if_false, Bool.true_eq_false, false_and, if_true]
    cases hl : import_loop L strict true (s.length + 1) s false 0 0 db with
    | none => rfl
    | some lo =>
      have := import_loop_dry_db L strict _ _ _ _ _ _ _ hl
      simp only [import_finish]
      split_ifs <;> simpa using this

/-! ## C2: the arity of a short line -/

/-- C2, the code at the line `a,b,c,d,e`: ended by end of stream the reader
returns its 5 fields (count 5), but ended by `\n` it returns count 6, the five
fields padded with an empty sixth; so a strict committing import of the stream
`h\na,b,c,d,e\n` succeeds with imported = 1, failed = 0 and stores the padded
row. -/
theorem csv_five_field_line_padded :
    csv_read_record [97, 44, 98, 44, 99, 44, 100, 44, 101] 6
        = ⟨5, [[97], [98], [99], [100], [101]], []⟩
      ∧ csv_read_record [97, 44, 98, 44, 99, 44, 100, 44, 101, 10] 6
        = ⟨6, [[97], [98], [99], [100], [101], []], []⟩
      ∧ (csv_import_contacts zeroLib (healthy_db [])
          [104, 10, 97, 44, 98, 44, 99, 44, 100, 44, 101, 10] true false).ret = 1
      ∧ (csv_import_contacts zeroLib (healthy_db [])
          [104, 10, 97, 44, 98, 44, 99, 44, 100, 44, 101, 10] true false).counts = some (1, 0)
      ∧ (csv_import_contacts zeroLib (healthy_db [])
          [104, 10, 97, 44, 98, 44, 99, 44, 100, 44, 101, 10] true false).db.rows
        = [⟨some [97], some [98], some [99], some [100], 0, some []⟩] := by
  decide

/-! ## C6: the header record -/

/-- The first step of the import loop on a stream that yields a record:
the record is dropped and only `header_read` changes. -/
theorem import_loop_header (L : FloatLib) (strict dry_run : Bool) (s : Bytes) (i f : Nat)
    (db : Db) (h : (csv_read_record s 6).count ≠ 0) :
    import_loop L strict dry_run (s.length + 1) s false i f db
      = import_loop L strict dry_run ((csv_read_record s 6).rest.length + 1)
          (csv_read_record s 6).rest true i f db := by
  have hp := csv_read_record_progress s h
  have hb := (csv_read_record_count_bounds s).1
  have hneg : ¬ (csv_read_record s 6).count < 0 := by omega
  simp only [import_loop, h, hneg, if_false, if_true]
  exact import_loop_fuel L strict dry_run _ _ _ _ _ _ _ hp (Nat.lt_succ_self _)

/-- C6: when the reader yields a first record, whatever its content and field
count, `csv_import_contacts` returns the same value, stores the same counts and
leaves the same store (call log included) as the function entered on the rest
of the stream with the counters at 0 and the header already read: the first
record adds nothing to `imported` or `failed`, reaches no sink call and causes
no strict abort. -/
theorem csv_import_header_skip (L : FloatLib) (db : Db) (s : Bytes) (strict dry_run : Bool)
    (h : (csv_read_record s 6).count ≠ 0) :
    (csv_import_contacts L db s strict dry_run).ret
        = (csv_import_from L db (csv_read_record s 6).rest strict dry_run true).ret
      ∧ (csv_import_contacts L db s strict dry_run).counts
        = (csv_import_from L db (csv_read_record s 6).rest strict dry_run true).counts
      ∧ (csv_import_contacts L db s strict dry_run).db
        = (csv_import_from L db (csv_read_record s 6).rest strict dry_run true).db := by
  unfold csv_import_contacts csv_import_from
  rw [import_loop_header L strict dry_run s 0 0 _ h]
  split_ifs
  · exact ⟨rfl, rfl, rfl⟩
  · exact ⟨rfl, rfl, rfl⟩
  · cases import_loop L strict dry_run ((csv_read_record s 6).rest.length + 1)
      (csv_read_record s 6).rest true 0 0 (db_begin db).2 <;> exact ⟨rfl, rfl, rfl⟩
  · cases import_loop L strict dry_run ((csv_read_record s 6).rest.length + 1)
      (csv_read_record s 6).rest true 0 0 db <;> exact ⟨rfl, rfl, rfl⟩

/-- C6 at the stream `x,y\nA,1,2,3,4,5\n`, strict and committing: the
two-field first line is dropped without an abort. -/
theorem csv_import_header_skip_witness :
    (csv_read_record [120, 44, 121, 10, 65, 44, 49, 44, 50, 44, 51, 44, 52, 44, 53, 10] 6).count ≠ 0
      ∧ ((csv_import_contacts zeroLib (healthy_db [])
            [120, 44, 121, 10, 65, 44, 49, 44, 50, 44, 51, 44, 52, 44, 53, 10] true false).ret
          = (csv_import_from zeroLib (healthy_db [])
              (csv_read_record
                [120, 44, 121, 10, 65, 44, 49, 44, 50, 44, 51, 44, 52, 44, 53, 10] 6).rest
              true false true).ret
        ∧ (csv_import_contacts zeroLib (healthy_db [])
            [120, 44, 121, 10, 65, 44, 49, 44, 50, 44, 51, 44, 52, 44, 53, 10] true false).counts
          = (csv_import_from zeroLib (healthy_db [])
              (csv_read_record
                [120, 44, 121, 10, 65, 44, 49, 44, 50, 44, 51, 44, 52, 44, 53, 10] 6).rest
              true false true).counts
        ∧ (csv_import_contacts zeroLib (healthy_db [])
            [120, 44, 121, 10, 65, 44, 49, 44, 50, 44, 51, 44, 52, 44, 53, 10] true false).db
          = (csv_import_from zeroLib (healthy_db [])
              (csv_read_record
                [120, 44, 121, 10, 65, 44, 49, 44, 50, 44, 51, 44, 52, 44, 53, 10] 6).rest
              true false true).db) :=
  ⟨by decide, csv_import_header_skip zeroLib (healthy_db []) _ true false (by decide)⟩

/-! ## The import loop over a whole stream -/

theorem csv_records_succ_of_ne (n : Nat) (s : Bytes) (h : (csv_read_record s 6).count ≠ 0) :
    csv_records (n + 1) s = csv_read_record s 6 :: csv_records n (csv_read_record s 6).rest := by
  simp only [csv_records, h, if_false]

theorem csv_records_succ_of_eq (n : Nat) (s : Bytes) (h : (csv_read_record s 6).count = 0) :
    csv_records (n + 1) s = [] := by
  simp only [csv_records, h, if_true]

/-- The name `contacts_add` tests is empty exactly when the first field is. -/
theorem contact_name_ne_nil (L : FloatLib) (fields : List Bytes)
    (h : cstr (fields.getD 0 []) ≠ []) : cstr (contact_of_fields L fields).name ≠ [] := by
  have h1 : (contact_of_fields L fields).name = (cstr (fields.getD 0 [])).take 199 := rfl
  rw [h1, cstr_of_nul_free _ (fun b hb => cstr_nul_free _ b (List.mem_of_mem_take hb))]
  cases hx : cstr (fields.getD 0 []) with
  | nil => exact absurd hx h
  | cons a t => simp

theorem contact_name_eq_nil (L : FloatLib) (fields : List Bytes)
    (h : cstr (fields.getD 0 []) = []) : cstr (contact_of_fields L fields).name = [] := by
  have h1 : (contact_of_fields L fields).name = (cstr (fields.getD 0 [])).take 199 := rfl
  rw [h1, h]
  rfl

/-- On an open store that meets no fault, `contacts_add` of a contact with a
non-empty name logs the call, appends the row and returns 1. -/
theorem contacts_add_ok (db : Db) (c : Contact) (hh : db.handle = true) (hf : db.faults = [])
    (hn : cstr c.name ≠ []) :
    contacts_add db c
      = (true, { db with rows := db.rows ++ [row_of_contact c],
                         log := db.log ++ [SinkCall.add c] }) := by
  cases db with
  | mk handle rows txn faults log =>
    simp only at hh hf
    subst hh hf
    simp [contacts_add, sqlite_attempt, hn]

/-- `contacts_add` of a contact with an empty name logs the call and returns 0. -/
theorem contacts_add_empty (db : Db) (c : Contact) (hn : cstr c.name = []) :
    contacts_add db c = (false, { db with log := db.log ++ [SinkCall.add c] }) := by
  simp [contacts_add, hn]

/-- A committing run of the loop after the header, on an open store that meets
no fault, over a stream whose 6-field records all have a name (and, in strict
mode, whose records all have 6 fields): the loop ends at end of stream, has
counted every 6-field record in `imported` and every other record in `failed`,
and has added the 6-field records to the store in stream order. -/
theorem import_loop_commit (L : FloatLib) (strict : Bool) :
    ∀ (n : Nat) (s : Bytes) (i f : Nat) (db : Db), s.length < n →
      db.handle = true → db.faults = [] →
      (∀ r ∈ csv_records n s, r.count = 6 → cstr (r.fields.getD 0 []) ≠ []) →
      (strict = true → ∀ r ∈ csv_records n s, r.count = 6) →
      ∃ lo, import_loop L strict false n s true i f db = some lo ∧ lo.aborted = false
        ∧ lo.imported = i + (csv_records n s).countP (fun r => decide (r.count = 6))
        ∧ lo.failed = f + (csv_records n s).countP (fun r => decide (r.count ≠ 6))
        ∧ lo.db = { db with
            rows := db.rows ++ ((csv_records n s).filter (fun r => decide (r.count = 6))).map
              (fun r => row_of_contact (contact_of_fields L r.fields)),
            log := db.log ++ ((csv_records n s).filter (fun r => decide (r.count = 6))).map
              (fun r => SinkCall.add (contact_of_fields L r.fields)) } := by
  intro n
  induction n with
  | zero => intro s i f db h; omega
  | succ n ih =>
    intro s i f db hn hh hfl H1 H2
    by_cases hc : (csv_read_record s 6).count = 0
    · rw [csv_records_succ_of_eq n s hc]
      refine ⟨⟨false, i, f, db, (csv_read_record s 6).rest⟩, ?_, rfl, ?_, ?_, ?_⟩
      · simp only [import_loop, hc, if_true]
      · simp
      · simp
      · cases db; simp
    · have hp := csv_read_record_progress s hc
      have hb := csv_read_record_count_bounds s
      have hneg : ¬ (csv_read_record s 6).count < 0 := by omega
      rw [csv_records_succ_of_ne n s hc] at H1 H2 ⊢
      by_cases h6 : (csv_read_record s 6).count = 6
      · have hname := contact_name_ne_nil L _ (H1 _ (List.mem_cons_self _ _) h6)
        have hadd := contacts_add_ok db (contact_of_fields L (csv_read_record s 6).fields)
          hh hfl hname
        obtain ⟨lo, e1, e2, e3, e4, e5⟩ := ih (csv_read_record s 6).rest (i + 1) f
          (contacts_add db (contact_of_fields L (csv_read_record s 6).fields)).2 (by omega)
          (by rw [hadd]; exact hh) (by rw [hadd]; exact hfl)
          (fun r hr => H1 r (List.mem_cons_of_mem _ hr))
          (fun hs r hr => H2 hs r (List.mem_cons_of_mem _ hr))
        refine ⟨lo, ?_, e2, ?_, ?_, ?_⟩
        · have hlt : ¬ (csv_read_record s 6).count < 6 := by omega
          have hok : (contacts_add db (contact_of_fields L (csv_read_record s 6).fields)).1
              = true := by rw [hadd]
          simp only [import_loop, hc, hneg, hlt, hok, if_false, if_true, Bool.true_eq_false,
            Bool.false_eq_true]
          exact e1
        · rw [e3]; simp [List.countP_cons, h6]; omega
        · rw [e4]; simp [List.countP_cons, h6]
        · rw [e5, hadd]; simp [List.filter_cons, h6]
      · have hlt : (csv_read_record s 6).count < 6 := by omega
        have hs : strict = false := by
          cases strict with
          | false => rfl
          | true => exact absurd (H2 rfl _ (List.mem_cons_self _ _)) h6
        subst hs
        obtain ⟨lo, e1, e2, e3, e4, e5⟩ := ih (csv_read_record s 6).rest i (f + 1) db
          (by omega) hh hfl (fun r hr => H1 r (List.mem_cons_of_mem _ hr))
          (fun hs => by simp at hs)
        refine ⟨lo, ?_, e2, ?_, ?_, ?_⟩
        · simp only [import_loop, hc, hneg, hlt, if_false, if_true, Bool.false_eq_true]
          exact e1
        · rw [e3]; simp [List.countP_cons, h6]
        · rw [e4]; simp [List.countP_cons, h6]; omega
        · rw [e5]; simp [List.filter_cons, h6]

/-- A lenient dry run of the loop after the header, over any stream: the loop
ends at end of stream and has counted every 6-field record in `imported` and
every other record in `failed`. -/
theorem import_loop_dry_counts (L : FloatLib) :
    ∀ (n : Nat) (s : Bytes) (i f : Nat) (db : Db), s.length < n →
      ∃ lo, import_loop L false true n s true i f db = some lo ∧ lo.aborted = false
        ∧ lo.imported = i + (csv_records n s).countP (fun r => decide (r.count = 6))
        ∧ lo.failed = f + (csv_records n s).countP (fun r => decide (r.count ≠ 6)) := by
  intro n
  induction n with
  | zero => intro s i f db h; omega
  | succ n ih =>
    intro s i f db hn
    by_cases hc : (csv_read_record s 6).count = 0
    · rw [csv_records_succ_of_eq n s hc]
      refine ⟨⟨false, i, f, db, (csv_read_record s 6).rest⟩, ?_, rfl, ?_, ?_⟩
      · simp only [import_loop, hc, if_true]
      · simp
      · simp
    · have hp := csv_read_record_progress s hc
      have hb := csv_read_record_count_bounds s
      have hneg : ¬ (csv_read_record s 6).count < 0 := by omega
      rw [csv_records_succ_of_ne n s hc]
      by_cases h6 : (csv_read_record s 6).count = 6
      · obtain ⟨lo, e1, e2, e3, e4⟩ := ih (csv_read_record s 6).rest (i + 1) f db (by omega)
        refine ⟨lo, ?_, e2, ?_, ?_⟩
        · have hlt : ¬ (csv_read_record s 6).count < 6 := by omega
          simp only [import_loop, hc, hneg, hlt, if_false, if_true, Bool.true_eq_false]
          exact e1
        · rw [e3]; simp [List.countP_cons, h6]; omega
        · rw [e4]; simp [List.countP_cons, h6]
      · have hlt : (csv_read_record s 6).count < 6 := by omega
        obtain ⟨lo, e1, e2, e3, e4⟩ := ih (csv_read_record s 6).rest i (f + 1) db (by omega)
        refine ⟨lo, ?_, e2, ?_, ?_⟩
        · simp only [import_loop, hc, hneg, hlt, if_false, if_true, Bool.false_eq_true]
          exact e1
        · rw [e3]; simp [List.countP_cons, h6]
        · rw [e4]; simp [List.countP_cons, h6]; omega

/-! ## A second record the reader reports as short, strict and lenient -/

theorem db_begin_ok (db : Db) (hh : db.handle = true) (ht : db.txn = none)
    (hf : db.faults = []) :
    db_begin db
      = (true, { db with txn := some db.rows, log := db.log ++ [SinkCall.begin_] }) := by
  cases db with
  | mk handle rows txn faults log =>
    simp only at hh ht hf
    subst hh ht hf
    simp [db_begin, sqlite_attempt]

theorem db_commit_ok (db : Db) (snap : List Row) (hh : db.handle = true)
    (ht : db.txn = some snap) (hf : db.faults = []) :
    db_commit db = (true, { db with txn := none, log := db.log ++ [SinkCall.commit] }) := by
  cases db with
  | mk handle rows txn faults log =>
    simp only at hh ht hf
    subst hh ht hf
    simp [db_commit, sqlite_attempt]

theorem db_rollback_ok (db : Db) (snap : List Row) (hh : db.handle = true)
    (ht : db.txn = some snap) (hf : db.faults = []) :
    db_rollback db
      = (true, { db with rows := snap, txn := none, log := db.log ++ [SinkCall.rollback] }) := by
  cases db with
  | mk handle rows txn faults log =>
    simp only at hh ht hf
    subst hh ht hf
    simp [db_rollback, sqlite_attempt]

/-- A stream whose records start with `r` yields `r` on the first call and the
other records from what that call left unread. -/
theorem csv_read_all_cons (s : Bytes) (r : ReadResult) (rs : List ReadResult)
    (h : csv_read_all s = r :: rs) :
    (csv_read_record s 6).count ≠ 0 ∧ csv_read_record s 6 = r
      ∧ csv_read_all (csv_read_record s 6).rest = rs := by
  rw [csv_read_all_unfold] at h
  by_cases hc : (csv_read_record s 6).count = 0
  · simp [hc] at h
  · simp only [hc, if_false, List.cons.injEq] at h
    exact ⟨hc, h.1, h.2⟩

/-- One step of the import loop, after the header, on a record with fewer than
6 fields. -/
theorem import_loop_malformed (L : FloatLib) (strict dry_run : Bool) (s : Bytes) (i f : Nat)
    (db : Db) (h : (csv_read_record s 6).count ≠ 0) (h6 : (csv_read_record s 6).count < 6) :
    import_loop L strict dry_run (s.length + 1) s true i f db
      = if strict = true then
          some (strict_abort dry_run i (f + 1) db (csv_read_record s 6).rest)
        else import_loop L strict dry_run ((csv_read_record s 6).rest.length + 1)
          (csv_read_record s 6).rest true i (f + 1) db := by
  have hp := csv_read_record_progress s h
  have hb := (csv_read_record_count_bounds s).1
  have hneg : ¬ (csv_read_record s 6).count < 0 := by omega
  rw [import_loop]
  simp only [h, hneg, h6, if_false, if_true, Bool.true_eq_false]
  rw [import_loop_fuel L strict dry_run s.length ((csv_read_record s 6).rest.length + 1)
    _ _ _ _ _ hp (Nat.lt_succ_self _)]

/-- Records as the reader returns them: on an open store outside any
transaction that meets no fault, for a
stream whose records are a header, then a record with fewer than 6 fields, then
only 6-field records with non-empty names: with `strict = 1, dry_run = 0` the
call returns 0, stores no counts and leaves the table with exactly the rows it
had; with `strict = 0, dry_run = 0` it returns 1, reports imported = the number
of the other records and failed = 1, and has appended their rows in order. -/
theorem csv_import_strict_abort (L : FloatLib) (db : Db) (s : Bytes)
    (hdr bad : ReadResult) (good : List ReadResult)
    (hh : db.handle = true) (ht : db.txn = none) (hf : db.faults = [])
    (hrec : csv_read_all s = hdr :: bad :: good) (hbad : bad.count < 6)
    (hgood : ∀ r ∈ good, r.count = 6 ∧ cstr (r.fields.getD 0 []) ≠ []) :
    ((csv_import_contacts L db s true false).ret = 0
        ∧ (csv_import_contacts L db s true false).counts = none
        ∧ (csv_import_contacts L db s true false).db.rows = db.rows
        ∧ (csv_import_contacts L db s true false).db.txn = none)
      ∧ ((csv_import_contacts L db s false false).ret = 1
        ∧ (csv_import_contacts L db s false false).counts = some (good.length, 1)
        ∧ (csv_import_contacts L db s false false).db.rows
            = db.rows ++ good.map (fun r => row_of_contact (contact_of_fields L r.fields))
        ∧ (csv_import_contacts L db s false false).db.txn = none) := by
  obtain ⟨hc1, -, hrest1⟩ := csv_read_all_cons s _ _ hrec
  obtain ⟨hc2, hr2, hrest2⟩ := csv_read_all_cons _ _ _ hrest1
  have hlt : (csv_read_record (csv_read_record s 6).rest 6).count < 6 := by rw [hr2]; exact hbad
  have hbegin := db_begin_ok db hh ht hf
  have hb1 : (db_begin db).1 = true := by rw [hbegin]
  constructor
  · have hloop : import_loop L true false (s.length + 1) s false 0 0 (db_begin db).2
        = some (strict_abort false 0 1 (db_begin db).2
            (csv_read_record (csv_read_record s 6).rest 6).rest) := by
      rw [import_loop_header L true false s 0 0 _ hc1,
        import_loop_malformed L true false _ 0 0 _ hc2 hlt]
      simp
    unfold csv_import_contacts csv_import_from
    simp only [hh, hb1, Bool.true_eq_false, and_false, if_false, if_true, hloop, import_finish,
      strict_abort]
    have hroll := db_rollback_ok (db_begin db).2 db.rows (by rw [hbegin]; exact hh)
      (by rw [hbegin]) (by rw [hbegin]; exact hf)
    rw [hroll, hbegin]
    simp
  · obtain ⟨lo, e1, e2, e3, e4, e5⟩ := import_loop_commit L false
      ((csv_read_record (csv_read_record s 6).rest 6).rest.length + 1)
      (csv_read_record (csv_read_record s 6).rest 6).rest 0 1 (db_begin db).2
      (Nat.lt_succ_self _) (by rw [hbegin]; exact hh) (by rw [hbegin]; exact hf)
      (by
        intro r hr _
        have : r ∈ good := by rw [← hrest2]; exact hr
        exact (hgood r this).2)
      (by intro h; simp at h)
    have hrecs : csv_records ((csv_read_record (csv_read_record s 6).rest 6).rest.length + 1)
        (csv_read_record (csv_read_record s 6).rest 6).rest = good := hrest2
    rw [hrecs] at e3 e4 e5
    have hall : ∀ r ∈ good, decide (r.count = 6) = true := fun r hr => by
      simp [(hgood r hr).1]
    have hcount : good.countP (fun r => decide (r.count = 6)) = good.length :=
      List.countP_eq_length.mpr hall
    have hcount0 : good.countP (fun r => decide (r.count ≠ 6)) = 0 := by
      rw [List.countP_eq_zero]
      intro r hr
      simp [(hgood r hr).1]
    have hfilter : good.filter (fun r => decide (r.count = 6)) = good :=
      List.filter_eq_self.mpr hall
    rw [hcount] at e3
    rw [hcount0] at e4
    rw [hfilter] at e5
    have hloop : import_loop L false false (s.length + 1) s false 0 0 (db_begin db).2
        = some lo := by
      rw [import_loop_header L false false s 0 0 _ hc1,
        import_loop_malformed L false false _ 0 0 _ hc2 hlt]
      simpa using e1
    unfold csv_import_contacts csv_import_from
    simp only [hh, hb1, Bool.true_eq_false, and_false, if_false, if_true, hloop, import_finish,
      e2]
    have hcommit := db_commit_ok lo.db db.rows (by rw [e5, hbegin]; exact hh)
      (by rw [e5, hbegin]) (by rw [e5, hbegin]; exact hf)
    have hc1' : (db_commit lo.db).1 = true := by rw [hcommit]
    simp only [hc1', Bool.true_eq_false, if_false, e3, e4, hcommit]
    rw [e5, hbegin]
    simp

/-- The same at `demo_stream` on a store holding one row: the strict run returns 0
and leaves that row alone, the lenient run imports the two six-field lines. -/
theorem csv_import_strict_abort_witness :
    (demo_db.handle = true ∧ demo_db.txn = none ∧ demo_db.faults = []
        ∧ csv_read_all demo_stream = demo_hdr :: demo_bad :: demo_good ∧ demo_bad.count < 6
        ∧ ∀ r ∈ demo_good, r.count = 6 ∧ cstr (r.fields.getD 0 []) ≠ [])
      ∧ (((csv_import_contacts zeroLib demo_db demo_stream true false).ret = 0
          ∧ (csv_import_contacts zeroLib demo_db demo_stream true false).counts = none
          ∧ (csv_import_contacts zeroLib demo_db demo_stream true false).db.rows = demo_db.rows
          ∧ (csv_import_contacts zeroLib demo_db demo_stream true false).db.txn = none)
        ∧ ((csv_import_contacts zeroLib demo_db demo_stream false false).ret = 1
          ∧ (csv_import_contacts zeroLib demo_db demo_stream false false).counts
              = some (demo_good.length, 1)
          ∧ (csv_import_contacts zeroLib demo_db demo_stream false false).db.rows
              = demo_db.rows
                ++ demo_good.map (fun r => row_of_contact (contact_of_fields zeroLib r.fields))
          ∧ (csv_import_contacts zeroLib demo_db demo_stream false false).db.txn = none)) :=
  ⟨⟨rfl, rfl, rfl, by decide, by decide, by decide⟩,
    csv_import_strict_abort zeroLib demo_db demo_stream demo_hdr demo_bad demo_good rfl rfl rfl
      (by decide) (by decide) (by decide)⟩

/-! ## C5: the count of a dry run against the count of a committing run -/

/-- C5 as stated fails at the stream `h\n,1,2,3,x,5\n`, whose only data record
has an empty name: the lenient dry run reports imported = 1, failed = 0, the
lenient committing run reports imported = 0, failed = 1. -/
theorem csv_import_dry_run_count_differs :
    (csv_import_contacts zeroLib (healthy_db [])
        [104, 10, 44, 49, 44, 50, 44, 51, 44, 120, 44, 53, 10] false true).counts = some (1, 0)
      ∧ (csv_import_contacts zeroLib (healthy_db [])
        [104, 10, 44, 49, 44, 50, 44, 51, 44, 120, 44, 53, 10] false false).counts
          = some (0, 1) := by
  decide

/-- The import loop on a stream that yields no record. -/
theorem import_loop_eof (L : FloatLib) (strict dry_run : Bool) (n : Nat) (s : Bytes) (hr : Bool)
    (i f : Nat) (db : Db) (h : (csv_read_record s 6).count = 0) :
    import_loop L strict dry_run (n + 1) s hr i f db
      = some ⟨false, i, f, db, (csv_read_record s 6).rest⟩ := by
  simp only [import_loop, h, if_true]

/-- The records after the header are the records of what the first call left. -/
theorem csv_read_all_tail (s : Bytes) (h : (csv_read_record s 6).count ≠ 0) :
    (csv_read_all s).tail = csv_read_all (csv_read_record s 6).rest := by
  rw [csv_read_all_unfold s, if_neg h]
  rfl

theorem csv_read_all_of_eq (s : Bytes) (h : (csv_read_record s 6).count = 0) :
    csv_read_all s = [] := by
  rw [csv_read_all_unfold s, if_pos h]

/-- A lenient dry run from the start of a stream: it returns 1 and reports the
number of 6-field records after the header as `imported`, the number of other
records after the header as `failed`. -/
theorem csv_import_dry_lenient (L : FloatLib) (db : Db) (s : Bytes) (hh : db.handle = true) :
    (csv_import_contacts L db s false true).ret = 1
      ∧ (csv_import_contacts L db s false true).counts
        = some ((csv_read_all s).tail.countP (fun r => decide (r.count = 6)),
            (csv_read_all s).tail.countP (fun r => decide (r.count ≠ 6))) := by
  unfold csv_import_contacts csv_import_from
  simp only [hh, Bool.true_eq_false, false_and, if_false, if_true]
  by_cases hc : (csv_read_record s 6).count = 0
  · rw [import_loop_eof L false true _ s false 0 0 db hc, csv_read_all_of_eq s hc]
    simp [import_finish]
  · obtain ⟨lo, e1, e2, e3, e4⟩ := import_loop_dry_counts L
      ((csv_read_record s 6).rest.length + 1) (csv_read_record s 6).rest 0 0 db
      (Nat.lt_succ_self _)
    rw [import_loop_header L false true s 0 0 db hc, e1, csv_read_all_tail s hc]
    simp only [import_finish, e2, Bool.false_eq_true, if_false, if_true, e3, e4, csv_read_all]
    simp

/-- A lenient committing run from the start of a stream whose 6-field records
after the header all have a name, on an open store outside any transaction
that meets no fault: it returns 1 with the same two counts. -/
theorem csv_import_commit_lenient (L : FloatLib) (db : Db) (s : Bytes)
    (hh : db.handle = true) (ht : db.txn = none) (hf : db.faults = [])
    (hname : ∀ r ∈ (csv_read_all s).tail, r.count = 6 → cstr (r.fields.getD 0 []) ≠ []) :
    (csv_import_contacts L db s false false).ret = 1
      ∧ (csv_import_contacts L db s false false).counts
        = some ((csv_read_all s).tail.countP (fun r => decide (r.count = 6)),
            (csv_read_all s).tail.countP (fun r => decide (r.count ≠ 6))) := by
  have hbegin := db_begin_ok db hh ht hf
  have hb1 : (db_begin db).1 = true := by rw [hbegin]
  unfold csv_import_contacts csv_import_from
  simp only [hh, hb1, Bool.true_eq_false, and_false, if_false, if_true]
  by_cases hc : (csv_read_record s 6).count = 0
  · rw [import_loop_eof L false false _ s false 0 0 _ hc, csv_read_all_of_eq s hc]
    have hcommit := db_commit_ok (db_begin db).2 db.rows (by rw [hbegin]; exact hh)
      (by rw [hbegin]) (by rw [hbegin]; exact hf)
    have hc1 : (db_commit (db_begin db).2).1 = true := by rw [hcommit]
    simp [import_finish, hc1]
  · rw [csv_read_all_tail s hc] at hname ⊢
    obtain ⟨lo, e1, e2, e3, e4, e5⟩ := import_loop_commit L false
      ((csv_read_record s 6).rest.length + 1) (csv_read_record s 6).rest 0 0 (db_begin db).2
      (Nat.lt_succ_self _) (by rw [hbegin]; exact hh) (by rw [hbegin]; exact hf)
      hname (by intro h; simp at h)
    rw [import_loop_header L false false s 0 0 _ hc, e1]
    have hcommit := db_commit_ok lo.db db.rows (by rw [e5, hbegin]; exact hh)
      (by rw [e5, hbegin]) (by rw [e5, hbegin]; exact hf)
    have hc1 : (db_commit lo.db).1 = true := by rw [hcommit]
    simp only [import_finish, e2, hc1, Bool.false_eq_true, Bool.true_eq_false, if_false, e3, e4,
      csv_read_all]
    simp

/-- The two lenient runs where the sink rejects nothing: on an open store
outside any transaction that meets no fault,
for every stream whose 6-field records after the header all have a non-empty
name, the lenient dry run and the lenient committing run both return 1 and
report the same `imported` (the number of 6-field records after the header)
and the same `failed`. -/
theorem csv_import_dry_run_count (L : FloatLib) (db : Db) (s : Bytes)
    (hh : db.handle = true) (ht : db.txn = none) (hf : db.faults = [])
    (hname : ∀ r ∈ (csv_read_all s).tail, r.count = 6 → cstr (r.fields.getD 0 []) ≠ []) :
    (csv_import_contacts L db s false true).ret = 1
      ∧ (csv_import_contacts L db s false false).ret = 1
      ∧ (csv_import_contacts L db s false true).counts
        = (csv_import_contacts L db s false false).counts
      ∧ (csv_import_contacts L db s false true).counts
        = some ((csv_read_all s).tail.countP (fun r => decide (r.count = 6)),
            (csv_read_all s).tail.countP (fun r => decide (r.count ≠ 6))) := by
  obtain ⟨d1, d2⟩ := csv_import_dry_lenient L db s hh
  obtain ⟨c1, c2⟩ := csv_import_commit_lenient L db s hh ht hf hname
  exact ⟨d1, c1, by rw [d2, c2], d2⟩

/-- The two lenient runs at `demo_stream`: both report imported = 2, failed = 1. -/
theorem csv_import_dry_run_count_witness :
    (demo_db.handle = true ∧ demo_db.txn = none ∧ demo_db.faults = []
        ∧ ∀ r ∈ (csv_read_all demo_stream).tail,
            r.count = 6 → cstr (r.fields.getD 0 []) ≠ [])
      ∧ ((csv_import_contacts zeroLib demo_db demo_stream false true).ret = 1
        ∧ (csv_import_contacts zeroLib demo_db demo_stream false false).ret = 1
        ∧ (csv_import_contacts zeroLib demo_db demo_stream false true).counts
          = (csv_import_contacts zeroLib demo_db demo_stream false false).counts
        ∧ (csv_import_contacts zeroLib demo_db demo_stream false true).counts
          = some ((csv_read_all demo_stream).tail.countP (fun r => decide (r.count = 6)),
              (csv_read_all demo_stream).tail.countP (fun r => decide (r.count ≠ 6)))) :=
  ⟨⟨rfl, rfl, rfl, by decide⟩,
    csv_import_dry_run_count zeroLib demo_db demo_stream rfl rfl rfl (by decide)⟩

/-! ## C7: export, then import -/

/-- The header line is a written row of six plain column names. -/
theorem csv_header_eq :
    CSV_HEADER = csv_write_row [78, 97, 109, 101] [80, 104, 111, 110, 101]
      [65, 100, 100, 114, 101, 115, 115] [69, 109, 97, 105, 108]
      [68, 117, 101, 65, 109, 111, 117, 110, 116] [68, 117, 101, 68, 97, 116, 101] := by
  decide

/-- The records of a run of written lines: one 6-field record per row, whose
first field is the row's name. -/
theorem csv_read_all_written_lines (L : FloatLib) (rows : List Row) :
    (csv_read_all ((rows.map (csv_write_line L)).flatten)).length = rows.length
      ∧ ∀ r ∈ csv_read_all ((rows.map (csv_write_line L)).flatten),
          r.count = 6 ∧ ∃ row ∈ rows, r.fields.getD 0 [] = cstr (row.name.getD []) := by
  induction rows with
  | nil =>
    have h0 : csv_read_all [] = [] := by decide
    simp [h0]
  | cons row rows ih =>
    have hline : csv_read_record
        ((List.map (csv_write_line L) (row :: rows)).flatten) 6
        = ⟨6, [cstr (row.name.getD []), cstr (row.phone.getD []), cstr (row.address.getD []),
            cstr (row.email.getD []), cstr (snprintf_s 64 (L.fmt2f row.due_amount)),
            cstr (row.due_date.getD [])], (rows.map (csv_write_line L)).flatten⟩ := by
      simp only [List.map_cons, List.flatten_cons, csv_write_line]
      exact csv_read_written_row _ _ _ _ _ _ _
    rw [csv_read_all_unfold, hline]
    simp only [show ¬ ((6 : Int) = 0) by decide, if_false, List.length_cons, List.mem_cons]
    refine ⟨by rw [ih.1], ?_⟩
    intro r hr
    rcases hr with rfl | hr
    · exact ⟨rfl, row, Or.inl rfl, rfl⟩
    · obtain ⟨h6, row', hrow', hname⟩ := ih.2 r hr
      exact ⟨h6, row', Or.inr hrow', hname⟩

/-- C7: for a store that is open, meets no fault and whose contacts all have a
non-empty name, `csv_write_contacts` returns 1, and the text it wrote, given to
`csv_import_contacts` with `strict = 1, dry_run = 0` on an open store outside
any transaction that meets no fault (an empty one in particular), makes it
return 1 with imported = the number of exported contacts and failed = 0. -/
theorem csv_export_import (L : FloatLib) (db1 db2 : Db)
    (h1 : db1.handle = true) (hf1 : db1.faults = [])
    (hnames : ∀ row ∈ db1.rows, cstr (row.name.getD []) ≠ [])
    (h2 : db2.handle = true) (ht2 : db2.txn = none) (hf2 : db2.faults = []) :
    (csv_write_contacts L db1).1 = 1
      ∧ (csv_import_contacts L db2 (csv_write_contacts L db1).2.1 true false).ret = 1
      ∧ (csv_import_contacts L db2 (csv_write_contacts L db1).2.1 true false).counts
        = some (db1.rows.length, 0) := by
  have hperm : (select_contacts db1).Perm db1.rows := List.perm_insertionSort name_le db1.rows
  have hw : csv_write_contacts L db1
      = (1, CSV_HEADER ++ ((select_contacts db1).map (csv_write_line L)).flatten, db1) := by
    simp [csv_write_contacts, sqlite_attempt, h1, hf1]
  rw [hw]
  refine ⟨rfl, ?_⟩
  simp only []
  have hhead : csv_read_record
      (CSV_HEADER ++ ((select_contacts db1).map (csv_write_line L)).flatten) 6
      = ⟨6, [cstr [78, 97, 109, 101], cstr [80, 104, 111, 110, 101],
          cstr [65, 100, 100, 114, 101, 115, 115], cstr [69, 109, 97, 105, 108],
          cstr [68, 117, 101, 65, 109, 111, 117, 110, 116],
          cstr [68, 117, 101, 68, 97, 116, 101]],
          ((select_contacts db1).map (csv_write_line L)).flatten⟩ := by
    rw [csv_header_eq]
    exact csv_read_written_row _ _ _ _ _ _ _
  have hc : (csv_read_record
      (CSV_HEADER ++ ((select_contacts db1).map (csv_write_line L)).flatten) 6).count ≠ 0 := by
    rw [hhead]; simp
  have hrest : (csv_read_record
      (CSV_HEADER ++ ((select_contacts db1).map (csv_write_line L)).flatten) 6).rest
      = ((select_contacts db1).map (csv_write_line L)).flatten := by rw [hhead]
  obtain ⟨hlen, hall⟩ := csv_read_all_written_lines L (select_contacts db1)
  have hbegin := db_begin_ok db2 h2 ht2 hf2
  have hb1 : (db_begin db2).1 = true := by rw [hbegin]
  obtain ⟨lo, e1, e2, e3, e4, e5⟩ := import_loop_commit L true
    ((((select_contacts db1).map (csv_write_line L)).flatten).length + 1)
    (((select_contacts db1).map (csv_write_line L)).flatten) 0 0 (db_begin db2).2
    (Nat.lt_succ_self _) (by rw [hbegin]; exact h2) (by rw [hbegin]; exact hf2)
    (by
      intro r hr _
      obtain ⟨-, row, hrow, hname⟩ := hall r hr
      rw [hname, cstr_cstr]
      exact hnames row ((hperm.mem_iff).mp hrow))
    (fun _ r hr => (hall r hr).1)
  have hrecs : csv_records ((((select_contacts db1).map (csv_write_line L)).flatten).length + 1)
      (((select_contacts db1).map (csv_write_line L)).flatten)
      = csv_read_all (((select_contacts db1).map (csv_write_line L)).flatten) := rfl
  rw [hrecs] at e3 e4 e5
  have hall6 : ∀ r ∈ csv_read_all (((select_contacts db1).map (csv_write_line L)).flatten),
      decide (r.count = 6) = true := fun r hr => by simp [(hall r hr).1]
  have hcount : (csv_read_all (((select_contacts db1).map (csv_write_line L)).flatten)).countP
      (fun r => decide (r.count = 6)) = db1.rows.length := by
    rw [List.countP_eq_length.mpr hall6, hlen, hperm.length_eq]
  have hcount0 : (csv_read_all (((select_contacts db1).map (csv_write_line L)).flatten)).countP
      (fun r => decide (r.count ≠ 6)) = 0 := by
    rw [List.countP_eq_zero]
    intro r hr
    simp [(hall r hr).1]
  rw [hcount] at e3
  rw [hcount0] at e4
  have hloop : import_loop L true false
      ((CSV_HEADER ++ ((select_contacts db1).map (csv_write_line L)).flatten).length + 1)
      (CSV_HEADER ++ ((select_contacts db1).map (csv_write_line L)).flatten) false 0 0
      (db_begin db2).2 = some lo := by
    rw [import_loop_header L true false _ 0 0 _ hc, hrest]
    exact e1
  have hcommit := db_commit_ok lo.db db2.rows (by rw [e5, hbegin]; exact h2)
    (by rw [e5, hbegin]) (by rw [e5, hbegin]; exact hf2)
  have hc1 : (db_commit lo.db).1 = true := by rw [hcommit]
  unfold csv_import_contacts csv_import_from
  simp only [h2, hb1, Bool.true_eq_false, and_false, if_false, if_true, hloop, import_finish,
    e2, hc1, e3, e4]
  simp

/-- C7 at a store holding `bob` and `Al, "Q"` (with the address `x\ny`),
imported into an empty store. -/
theorem csv_export_import_witness :
    (demo_export_db.handle = true ∧ demo_export_db.faults = []
        ∧ (∀ row ∈ demo_export_db.rows, cstr (row.name.getD []) ≠ [])
        ∧ (healthy_db []).handle = true ∧ (healthy_db []).txn = none
        ∧ (healthy_db []).faults = [])
      ∧ ((csv_write_contacts zeroLib demo_export_db).1 = 1
        ∧ (csv_import_contacts zeroLib (healthy_db [])
            (csv_write_contacts zeroLib demo_export_db).2.1 true false).ret = 1
        ∧ (csv_import_contacts zeroLib (healthy_db [])
            (csv_write_contacts zeroLib demo_export_db).2.1 true false).counts
          = some (demo_export_db.rows.length, 0)) :=
  ⟨⟨rfl, rfl, by decide, rfl, rfl, rfl⟩,
    csv_export_import zeroLib demo_export_db (healthy_db []) rfl rfl (by decide) rfl rfl rfl⟩

/-! ## C10: a last line without newline -/

theorem csv_write_row_dropLast (f0 f1 f2 f3 f4 f5 : Bytes) :
    (csv_write_row f0 f1 f2 f3 f4 f5).dropLast
      = csv_write_field f0 ++ 44 :: (csv_write_field f1 ++ 44 ::
          (csv_write_field f2 ++ 44 :: (csv_write_field f3 ++ 44 ::
          (csv_write_field f4 ++ 44 :: (csv_write_field f5 ++ []))))) := by
  have h : csv_write_row f0 f1 f2 f3 f4 f5
      = (csv_write_field f0 ++ 44 :: (csv_write_field f1 ++ 44 ::
          (csv_write_field f2 ++ 44 :: (csv_write_field f3 ++ 44 ::
          (csv_write_field f4 ++ 44 :: (csv_write_field f5 ++ [])))))) ++ [10] := by
    simp [csv_write_row]
  rw [h, List.dropLast_concat]

/-- Reading a written row whose final newline is missing, at end of stream. -/
theorem csv_read_unterminated_row (f0 f1 f2 f3 f4 f5 : Bytes) :
    csv_read_record (csv_write_row f0 f1 f2 f3 f4 f5).dropLast 6
      = ⟨6, [cstr f0, cstr f1, cstr f2, cstr f3, cstr f4, cstr f5], []⟩ := by
  rw [csv_write_row_dropLast, csv_read_record, read_loop_five,
    read_loop_field 6 f5 _ _ (by simp) (by simp), read_loop_nil]
  simp

/-- C10: six NUL-free fields written as a line that is last in the stream and
has no terminating newline are read back with count 6 and the same six fields
as the newline-terminated line gives, and the following call returns 0. -/
theorem csv_read_last_line_without_newline (f0 f1 f2 f3 f4 f5 : Bytes)
    (h0 : ∀ b ∈ f0, b ≠ 0) (h1 : ∀ b ∈ f1, b ≠ 0) (h2 : ∀ b ∈ f2, b ≠ 0)
    (h3 : ∀ b ∈ f3, b ≠ 0) (h4 : ∀ b ∈ f4, b ≠ 0) (h5 : ∀ b ∈ f5, b ≠ 0) :
    csv_read_record (csv_write_row f0 f1 f2 f3 f4 f5).dropLast 6
        = ⟨6, [f0, f1, f2, f3, f4, f5], []⟩
      ∧ csv_read_record (csv_write_row f0 f1 f2 f3 f4 f5) 6
        = ⟨6, [f0, f1, f2, f3, f4, f5], []⟩
      ∧ (csv_read_record
          (csv_read_record (csv_write_row f0 f1 f2 f3 f4 f5).dropLast 6).rest 6).count = 0 := by
  have ha := csv_read_unterminated_row f0 f1 f2 f3 f4 f5
  have hb := csv_read_written_row f0 f1 f2 f3 f4 f5 []
  rw [List.append_nil] at hb
  rw [cstr_of_nul_free f0 h0, cstr_of_nul_free f1 h1, cstr_of_nul_free f2 h2,
    cstr_of_nul_free f3 h3, cstr_of_nul_free f4 h4, cstr_of_nul_free f5 h5] at ha hb
  refine ⟨ha, hb, ?_⟩
  rw [ha]
  exact (by decide : (csv_read_record [] 6).count = 0)

/-- C10 at the lines `a,b,c,d,e,` (empty last field) read at end of stream. -/
theorem csv_read_last_line_without_newline_witness :
    ((∀ b ∈ [97], b ≠ 0) ∧ (∀ b ∈ [98], b ≠ 0) ∧ (∀ b ∈ [99], b ≠ 0) ∧ (∀ b ∈ [100], b ≠ 0)
        ∧ (∀ b ∈ [101], b ≠ 0) ∧ (∀ b ∈ ([] : Bytes), b ≠ 0))
      ∧ (csv_read_record (csv_write_row [97] [98] [99] [100] [101] []).dropLast 6
          = ⟨6, [[97], [98], [99], [100], [101], []], []⟩
        ∧ csv_read_record (csv_write_row [97] [98] [99] [100] [101] []) 6
          = ⟨6, [[97], [98], [99], [100], [101], []], []⟩
        ∧ (csv_read_record (csv_read_record
            (csv_write_row [97] [98] [99] [100] [101] []).dropLast 6).rest 6).count = 0) :=
  ⟨⟨by decide, by decide, by decide, by decide, by decide, by decide⟩,
    csv_read_last_line_without_newline [97] [98] [99] [100] [101] [] (by decide) (by decide)
      (by decide) (by decide) (by decide) (by decide)⟩

/-! ## C8: a line with more than six fields -/

/-- If the loop, run on `p` followed by a comma alone, reads that comma as the
one that completes field number `fc`, then on `p`, the comma and any further
bytes it stops at the first byte after the comma: that byte is taken by the
`field >= field_count` break and everything behind it stays unread. -/
theorem read_loop_limit (fc : Nat) :
    ∀ (n : Nat) (p : Bytes) (fields : List Bytes) (q : Bool) (buf : Bytes)
      (F : List Bytes) (B : Bytes) (c : Byte) (t : Bytes), p.length ≤ n →
      read_loop fc (p ++ [44]) fields q buf = ⟨.eof, F, B, []⟩ → fc ≤ F.length →
      read_loop fc (p ++ 44 :: c :: t) fields q buf = ⟨.limit, F, B, t⟩ := by
  have base : ∀ (fields : List Bytes) (q : Bool) (buf : Bytes)
      (F : List Bytes) (B : Bytes) (c : Byte) (t : Bytes),
      read_loop fc ([] ++ [44]) fields q buf = ⟨.eof, F, B, []⟩ → fc ≤ F.length →
      read_loop fc ([] ++ 44 :: c :: t) fields q buf = ⟨.limit, F, B, t⟩ := by
    intro fields q buf F B c t H hF
    simp only [List.nil_append] at H ⊢
    rw [read_loop_cons] at H ⊢
    by_cases hl : fc ≤ fields.length
    · simp [hl] at H
    · cases q with
      | false =>
        simp only [hl, if_false, true_and, true_or, if_true, show ¬ ((44 : Nat) = 10) by decide,
          show ¬ ((44 : Nat) = 13) by decide, read_loop_nil, ReadLoop.mk.injEq] at H ⊢
        obtain ⟨hFe, hBe, -⟩ := H
        subst hFe hBe
        rw [read_loop_cons, if_pos hF]
      | true =>
        simp only [hl, if_false, Bool.true_eq_false, false_and,
          show ¬ ((44 : Nat) = 34) by decide, read_loop_nil, ReadLoop.mk.injEq] at H
        obtain ⟨-, hFe, -, -⟩ := H
        subst hFe
        exact absurd hF hl
  intro n
  induction n with
  | zero =>
    intro p fields q buf F B c t hn H hF
    have : p = [] := List.length_eq_zero.mp (by omega)
    subst this
    exact base _ _ _ _ _ _ _ H hF
  | succ n ih =>
    intro p fields q buf F B c t hn H hF
    cases p with
    | nil => exact base _ _ _ _ _ _ _ H hF
    | cons x p' =>
      have hp' : p'.length ≤ n := by simpa using hn
      cases p' with
      | nil =>
        simp only [List.cons_append, List.nil_append] at H ⊢
        rw [read_loop_cons] at H ⊢
        try dsimp only at H ⊢
        split_ifs at H ⊢
        all_goals first
          | exact absurd H (by simp)
          | (rename_i h; exact absurd h (by decide))
          | exact ih [] _ _ _ _ _ _ _ (by simp) H hF
      | cons y p'' =>
        have hp'' : p''.length ≤ n := by simp at hp'; omega
        simp only [List.cons_append] at H ⊢
        rw [read_loop_cons] at H ⊢
        try dsimp only at H ⊢
        split_ifs at H ⊢
        all_goals first
          | exact absurd H (by simp)
          | exact ih (y :: p'') _ _ _ _ _ _ _ hp' H hF
          | exact ih p'' _ _ _ _ _ _ _ hp'' H hF

/-- The reader's result from the state in which its loop was left. -/
theorem csv_read_record_of_loop (s : Bytes) (e : LoopExit) (F : List Bytes) (B r : Bytes)
    (h : read_loop 6 s [] false [] = ⟨e, F, B, r⟩) :
    csv_read_record s 6 =
      if 0 < B.length ∨ 0 < F.length then
        if F.length < 6 then ⟨((F.length + 1 : Nat) : Int), F ++ [B], r⟩
        else ⟨(F.length : Int), F, r⟩
      else ⟨0, [], r⟩ := by
  unfold csv_read_record
  simp only [show (6 : Nat) ≠ 0 by decide, if_false, h]

/-- C8 on the code, at the stream `a,b,c,d,e,f,g,h\nX`: the call returns the
six fields `a`..`f` but leaves `,h\nX` unread (only `g` is dropped by the
`field >= field_count` break), not `X`; the next call returns the surplus `,h`
as a record of count 3. -/
theorem csv_over_limit_line_not_discarded :
    csv_read_record [97, 44, 98, 44, 99, 44, 100, 44, 101, 44, 102, 44, 103, 44, 104, 10, 88] 6
        = ⟨6, [[97], [98], [99], [100], [101], [102]], [44, 104, 10, 88]⟩
      ∧ (csv_read_record
          [97, 44, 98, 44, 99, 44, 100, 44, 101, 44, 102, 44, 103, 44, 104, 10, 88] 6).rest ≠ [88]
      ∧ csv_read_record [44, 104, 10, 88] 6 = ⟨3, [[], [104], []], [88]⟩ := by
  decide

/-- Where the field limit stops the reader: let `p` be the text of six fields, that is, on `p` followed by
a comma alone the loop reaches end of stream with exactly six fields `F`
stored.  Then on `p`, the comma, one more byte `c` and any bytes `t` the reader
returns count 6 and the fields `F`, and has read no further than `c`: all of
`t`, the rest of the line and its terminator included, is left for the next
call.  When the comma is the last byte of the stream it returns count 6 and
`F` as well. -/
theorem csv_read_over_limit (p : Bytes) (F : List Bytes) (B : Bytes) (c : Byte) (t : Bytes)
    (hp : read_loop 6 (p ++ [44]) [] false [] = ⟨.eof, F, B, []⟩) (hF : F.length = 6) :
    csv_read_record (p ++ 44 :: c :: t) 6 = ⟨6, F, t⟩
      ∧ csv_read_record (p ++ [44]) 6 = ⟨6, F, []⟩ := by
  have h1 := read_loop_limit 6 p.length p [] false [] F B c t le_rfl hp (by omega)
  rw [csv_read_record_of_loop _ _ _ _ _ h1, csv_read_record_of_loop _ _ _ _ _ hp]
  simp [hF]

/-- The field limit at the line `a,b,c,d,e,f,g,h\nX`. -/
theorem csv_read_over_limit_witness :
    (read_loop 6 ([97, 44, 98, 44, 99, 44, 100, 44, 101, 44, 102] ++ [44]) [] false []
          = ⟨.eof, [[97], [98], [99], [100], [101], [102]], [], []⟩
        ∧ [[97], [98], [99], [100], [101], [102]].length = 6)
      ∧ (csv_read_record
            ([97, 44, 98, 44, 99, 44, 100, 44, 101, 44, 102] ++ 44 :: 103 :: [44, 104, 10, 88]) 6
          = ⟨6, [[97], [98], [99], [100], [101], [102]], [44, 104, 10, 88]⟩
        ∧ csv_read_record ([97, 44, 98, 44, 99, 44, 100, 44, 101, 44, 102] ++ [44]) 6
          = ⟨6, [[97], [98], [99], [100], [101], [102]], []⟩) :=
  ⟨⟨by decide, by decide⟩,
    csv_read_over_limit [97, 44, 98, 44, 99, 44, 100, 44, 101, 44, 102]
      [[97], [98], [99], [100], [101], [102]] [] 103 [44, 104, 10, 88] (by decide) (by decide)⟩

/-! ## C9: `\r\n` against `\n` -/

/-- If the loop, run on `p` followed by `\n` alone, ends at that `\n`, then it
has stored a field, and on `p`, the `\n` and any further bytes it ends at the
same `\n` with the same fields. -/
theorem read_loop_lf_local (fc : Nat) :
    ∀ (n : Nat) (p : Bytes) (fields : List Bytes) (q : Bool) (buf : Bytes)
      (F : List Bytes) (B : Bytes) (t : Bytes), p.length ≤ n →
      read_loop fc (p ++ [10]) fields q buf = ⟨.lf, F, B, []⟩ →
      0 < F.length ∧ read_loop fc (p ++ 10 :: t) fields q buf = ⟨.lf, F, B, t⟩ := by
  have base : ∀ (fields : List Bytes) (q : Bool) (buf : Bytes)
      (F : List Bytes) (B : Bytes) (t : Bytes),
      read_loop fc ([] ++ [10]) fields q buf = ⟨.lf, F, B, []⟩ →
      0 < F.length ∧ read_loop fc ([] ++ 10 :: t) fields q buf = ⟨.lf, F, B, t⟩ := by
    intro fields q buf F B t H
    simp only [List.nil_append] at H ⊢
    rw [read_loop_cons] at H ⊢
    by_cases hl : fc ≤ fields.length
    · simp [hl] at H
    · cases q with
      | false =>
        simp only [hl, if_false, true_and, true_or, or_true, if_true, ReadLoop.mk.injEq] at H ⊢
        obtain ⟨hFe, hBe, -⟩ := H
        subst hFe hBe
        simp
      | true => simp [hl, read_loop_nil] at H
  intro n
  induction n with
  | zero =>
    intro p fields q buf F B t hn H
    have : p = [] := List.length_eq_zero.mp (by omega)
    subst this
    exact base _ _ _ _ _ _ H
  | succ n ih =>
    intro p fields q buf F B t hn H
    cases p with
    | nil => exact base _ _ _ _ _ _ H
    | cons x p' =>
      have hp' : p'.length ≤ n := by simpa using hn
      cases p' with
      | nil =>
        simp only [List.cons_append, List.nil_append] at H ⊢
        rw [read_loop_cons] at H ⊢
        try dsimp only at H ⊢
        split_ifs at H ⊢
        all_goals first
          | exact absurd H (by simp)
          | (rename_i h; exact absurd h (by decide))
          | exact ih [] _ _ _ _ _ _ (by simp) H
      | cons y p'' =>
        have hp'' : p''.length ≤ n := by simp at hp'; omega
        simp only [List.cons_append] at H ⊢
        rw [read_loop_cons] at H ⊢
        try dsimp only at H ⊢
        split_ifs at H ⊢
        all_goals first
          | exact absurd H (by simp)
          | exact ih (y :: p'') _ _ _ _ _ _ hp' H
          | exact ih p'' _ _ _ _ _ _ hp'' H

/-- If the loop, run on `p` followed by `\n` alone, ends at that `\n`, then on
`p` followed by `\r\n` and any further bytes it ends at that `\r\n`, which it
consumes whole, with the same fields. -/
theorem read_loop_crlf_local (fc : Nat) :
    ∀ (n : Nat) (p : Bytes) (fields : List Bytes) (q : Bool) (buf : Bytes)
      (F : List Bytes) (B : Bytes) (t : Bytes), p.length ≤ n →
      read_loop fc (p ++ [10]) fields q buf = ⟨.lf, F, B, []⟩ →
      read_loop fc (p ++ 13 :: 10 :: t) fields q buf = ⟨.cr, F, B, t⟩ := by
  have base : ∀ (fields : List Bytes) (q : Bool) (buf : Bytes)
      (F : List Bytes) (B : Bytes) (t : Bytes),
      read_loop fc ([] ++ [10]) fields q buf = ⟨.lf, F, B, []⟩ →
      read_loop fc ([] ++ 13 :: 10 :: t) fields q buf = ⟨.cr, F, B, t⟩ := by
    intro fields q buf F B t H
    simp only [List.nil_append] at H ⊢
    rw [read_loop_cons] at H ⊢
    by_cases hl : fc ≤ fields.length
    · simp [hl] at H
    · cases q with
      | false =>
        simp only [hl, if_false, true_and, true_or, or_true, if_true, ReadLoop.mk.injEq] at H
        obtain ⟨hFe, hBe, -⟩ := H
        subst hFe hBe
        simp [hl]
      | true => simp [hl, read_loop_nil] at H
  intro n
  induction n with
  | zero =>
    intro p fields q buf F B t hn H
    have : p = [] := List.length_eq_zero.mp (by omega)
    subst this
    exact base _ _ _ _ _ _ H
  | succ n ih =>
    intro p fields q buf F B t hn H
    cases p with
    | nil => exact base _ _ _ _ _ _ H
    | cons x p' =>
      have hp' : p'.length ≤ n := by simpa using hn
      cases p' with
      | nil =>
        simp only [List.cons_append, List.nil_append] at H ⊢
        rw [read_loop_cons] at H ⊢
        try dsimp only at H ⊢
        simp only [show ¬ ((10 : Nat) = 34) by decide, show ¬ ((13 : Nat) = 34) by decide,
          if_false] at H ⊢
        split_ifs at H ⊢
        all_goals first
          | exact absurd H (by simp)
          | exact ih [] _ _ _ _ _ _ (by simp) H
      | cons y p'' =>
        have hp'' : p''.length ≤ n := by simp at hp'; omega
        simp only [List.cons_append] at H ⊢
        rw [read_loop_cons] at H ⊢
        try dsimp only at H ⊢
        split_ifs at H ⊢
        all_goals first
          | exact absurd H (by simp)
          | exact ih (y :: p'') _ _ _ _ _ _ hp' H
          | exact ih p'' _ _ _ _ _ _ hp'' H

/-- A call whose loop is left with a field stored returns a record; its count
and fields depend on the stored fields and the accumulator only. -/
theorem csv_read_all_of_loop (s : Bytes) (e : LoopExit) (F : List Bytes) (B r : Bytes)
    (h : read_loop 6 s [] false [] = ⟨e, F, B, r⟩) (hF : 0 < F.length) :
    (csv_read_all s).map record_data
      = (if F.length < 6 then (((F.length + 1 : Nat) : Int), F ++ [B]) else ((F.length : Int), F))
          :: (csv_read_all r).map record_data := by
  have hrec := csv_read_record_of_loop s e F B r h
  simp only [hF, or_true, if_true] at hrec
  by_cases h6 : F.length < 6
  · simp only [h6, if_true] at hrec ⊢
    rw [csv_read_all_unfold, hrec]
    have hne : ¬ (((F.length + 1 : Nat) : Int) = 0) := by omega
    simp only [hne, if_false, List.map_cons, record_data]
  · simp only [h6, if_false] at hrec ⊢
    rw [csv_read_all_unfold, hrec]
    have hne : ¬ ((F.length : Int) = 0) := by omega
    simp only [hne, if_false, List.map_cons, record_data]

/-- C9 on the code, at the stream `a,b,c,d,e,f,\nx\n`: with `\n` it decodes
into two records, with `\r\n` in place of each `\n` into three (the `\r` is
dropped as the byte after the sixth comma and the `\n` left behind is read as
an empty line). -/
theorem csv_crlf_differs :
    (csv_read_all
        (lf_stream [[97, 44, 98, 44, 99, 44, 100, 44, 101, 44, 102, 44], [120]] [])).map
        record_data
        = [(6, [[97], [98], [99], [100], [101], [102]]), (2, [[120], []])]
      ∧ (csv_read_all
        (crlf_stream [[97, 44, 98, 44, 99, 44, 100, 44, 101, 44, 102, 44], [120]] [])).map
        record_data
        = [(6, [[97], [98], [99], [100], [101], [102]]), (2, [[], []]), (2, [[120], []])] := by
  decide

/-- Lines that reach their terminator: for every stream made of lines at whose
`\n` the reader ends a
record (`is_line`: at most six fields, no unquoted `\r` or `\n` before the end
of the line), followed by any last part, the stream with `\r\n` in place of
each of these `\n` is decoded by repeated `csv_read_record` calls into the same
sequence of records: same number, same counts, same fields. -/
theorem csv_crlf_equivalence (lines : List Bytes) (last : Bytes)
    (h : ∀ p ∈ lines, is_line p) :
    (csv_read_all (crlf_stream lines last)).map record_data
      = (csv_read_all (lf_stream lines last)).map record_data := by
  induction lines with
  | nil => simp [lf_stream, crlf_stream]
  | cons p ls ih =>
    have hp : is_line p := h p (List.mem_cons_self _ _)
    have hls : ∀ p ∈ ls, is_line p := fun p' hp' => h p' (List.mem_cons_of_mem _ hp')
    have e1 : lf_stream (p :: ls) last = p ++ 10 :: lf_stream ls last := by
      simp [lf_stream]
    have e2 : crlf_stream (p :: ls) last = p ++ 13 :: 10 :: crlf_stream ls last := by
      simp [crlf_stream]
    cases hrl : read_loop 6 (p ++ [10]) [] false [] with
    | mk e F B r =>
      have hexit : e = LoopExit.lf := by
        have := hp.1; rw [hrl] at this; exact this
      have hrest : r = [] := by
        have := hp.2; rw [hrl] at this; exact this
      subst hexit hrest
      obtain ⟨hF, hlf⟩ := read_loop_lf_local 6 p.length p [] false [] F B
        (lf_stream ls last) le_rfl hrl
      have hcr := read_loop_crlf_local 6 p.length p [] false [] F B
        (crlf_stream ls last) le_rfl hrl
      rw [e1, e2, csv_read_all_of_loop _ _ _ _ _ hlf hF, csv_read_all_of_loop _ _ _ _ _ hcr hF,
        ih hls]

/-- The same at the lines `a,"x\ny"` and `b` followed by an unterminated `c`. -/
theorem csv_crlf_equivalence_witness :
    (∀ p ∈ [[97, 44, 34, 120, 10, 121, 34], [98]], is_line p)
      ∧ (csv_read_all (crlf_stream [[97, 44, 34, 120, 10, 121, 34], [98]] [99])).map record_data
        = (csv_read_all (lf_stream [[97, 44, 34, 120, 10, 121, 34], [98]] [99])).map
            record_data :=
  ⟨by decide, csv_crlf_equivalence [[97, 44, 34, 120, 10, 121, 34], [98]] [99] (by decide)⟩

/-! ## C11: the escaping example -/

/-- C11: `csv_write_field` applied to the 14 bytes `Alice, "Quote"` writes
exactly `"Alice, ""Quote"""`; `csv_read_record` applied to that text alone
returns the single field `Alice, "Quote"`, and applied to the line of
test_csv.c that starts with that text it returns `Alice, "Quote"` as the first
of its six fields. -/
theorem csv_escaping_example :
    [65, 108, 105, 99, 101, 44, 32, 34, 81, 117, 111, 116, 101, 34].length = 14
      ∧ csv_write_field [65, 108, 105, 99, 101, 44, 32, 34, 81, 117, 111, 116, 101, 34]
        = [34, 65, 108, 105, 99, 101, 44, 32, 34, 34, 81, 117, 111, 116, 101, 34, 34, 34]
      ∧ csv_read_record
          [34, 65, 108, 105, 99, 101, 44, 32, 34, 34, 81, 117, 111, 116, 101, 34, 34, 34] 6
        = ⟨1, [[65, 108, 105, 99, 101, 44, 32, 34, 81, 117, 111, 116, 101, 34]], []⟩
      ∧ (csv_read_record
          ([34, 65, 108, 105, 99, 101, 44, 32, 34, 34, 81, 117, 111, 116, 101, 34, 34, 34]
            ++ [44, 49, 50, 51, 44, 34, 76, 105, 110, 101, 49, 10, 76, 105, 110, 101, 50, 34, 44,
                97, 64, 101, 120, 97, 109, 112, 108, 101, 46, 99, 111, 109, 44,
                49, 50, 46, 53, 48, 44, 50, 48, 50, 54, 45, 48, 49, 45, 48, 49, 10]) 6)
        = ⟨6, [[65, 108, 105, 99, 101, 44, 32, 34, 81, 117, 111, 116, 101, 34], [49, 50, 51],
            [76, 105, 110, 101, 49, 10, 76, 105, 110, 101, 50],
            [97, 64, 101, 120, 97, 109, 112, 108, 101, 46, 99, 111, 109], [49, 50, 46, 53, 48],
            [50, 48, 50, 54, 45, 48, 49, 45, 48, 49]], []⟩ := by
  decide

/-! ## C12: the encoding rule -/

theorem need_quote_false_iff (s : Bytes) (h : ∀ b ∈ s, b ≠ 0) :
    need_quote s = false ↔ ∀ b ∈ s, ¬ is_special b := by
  induction s with
  | nil => simp [need_quote]
  | cons c p ih =>
    have hc : c ≠ 0 := h c (List.mem_cons_self _ _)
    have hp : ∀ b ∈ p, b ≠ 0 := fun b hb => h b (List.mem_cons_of_mem _ hb)
    by_cases hs : c = 44 ∨ c = 34 ∨ c = 10 ∨ c = 13
    · have h1 : need_quote (c :: p) = true := by simp [need_quote, hc, hs]
      constructor
      · intro h2; rw [h1] at h2; exact absurd h2 (by decide)
      · intro h2; exact absurd hs (h2 c (List.mem_cons_self _ _))
    · have h1 : need_quote (c :: p) = need_quote p := by simp [need_quote, hc, hs]
      rw [h1, ih hp]
      constructor
      · intro h2 b hb
        rcases List.mem_cons.mp hb with rfl | hb
        · exact hs
        · exact h2 b hb
      · intro h2 b hb
        exact h2 b (List.mem_cons_of_mem _ hb)

theorem write_escaped_eq (s : Bytes) (h : ∀ b ∈ s, b ≠ 0) :
    write_escaped s = double_quotes s := by
  induction s with
  | nil => rfl
  | cons c p ih =>
    have hc : c ≠ 0 := h c (List.mem_cons_self _ _)
    have hp : ∀ b ∈ p, b ≠ 0 := fun b hb => h b (List.mem_cons_of_mem _ hb)
    have ih' := ih hp
    unfold double_quotes at ih' ⊢
    by_cases hq : c = 34
    · simp [write_escaped, hq, ih']
    · simp [write_escaped, hc, hq, ih']

/-- C12: for every text value `s` (a string without NUL), `csv_write_field`
writes what the encoding rule says: `s` itself when `s` holds none of `,`, `"`,
`\n`, `\r`, and otherwise `"`, then `s` with every `"` doubled and every other
byte unchanged, then `"`; the empty string gives the empty output.  The
function is total: it has no error result. -/
theorem csv_write_field_rule (s : Bytes) (h : ∀ b ∈ s, b ≠ 0) :
    csv_write_field s = encoding_rule s ∧ csv_write_field [] = [] := by
  refine ⟨?_, by decide⟩
  unfold csv_write_field encoding_rule
  by_cases hq : need_quote s = false
  · have := (need_quote_false_iff s h).mp hq
    simp only [hq, if_true, cstr_of_nul_free s h, if_pos this]
  · have : ¬ ∀ b ∈ s, ¬ is_special b := fun hall => hq ((need_quote_false_iff s h).mpr hall)
    have hq' : need_quote s = true := by
      cases hn : need_quote s with
      | false => exact absurd hn hq
      | true => rfl
    simp only [hq', Bool.true_eq_false, if_false, if_neg this, write_escaped_eq s h]

/-- C12 at the value `a,"b"\r\n`. -/
theorem csv_write_field_rule_witness :
    (∀ b ∈ [97, 44, 34, 98, 34, 13, 10], b ≠ 0)
      ∧ (csv_write_field [97, 44, 34, 98, 34, 13, 10] = encoding_rule [97, 44, 34, 98, 34, 13, 10]
        ∧ csv_write_field [] = []) :=
  ⟨by decide, csv_write_field_rule [97, 44, 34, 98, 34, 13, 10] (by decide)⟩

/-! ## C18: nothing is stored in the out-parameters when the call returns 0 -/

/-- C18: whenever `csv_import_contacts` returns 0 it stores nothing in
`*out_imported` and `*out_failed` (it returns 0 or 1, and stores both counts
when it returns 1); when `db->handle` is null it returns 0 with the store and
the stream untouched, and when `db_begin` fails in a committing run it returns
0 with no byte of the stream read. -/
theorem csv_import_no_counts_on_abort (L : FloatLib) (db : Db) (s : Bytes)
    (strict dry_run : Bool) :
    ((csv_import_contacts L db s strict dry_run).ret = 0
        → (csv_import_contacts L db s strict dry_run).counts = none)
      ∧ ((csv_import_contacts L db s strict dry_run).ret = 0
        ∨ (csv_import_contacts L db s strict dry_run).ret = 1)
      ∧ ((csv_import_contacts L db s strict dry_run).ret = 1
        → ∃ i f, (csv_import_contacts L db s strict dry_run).counts = some (i, f))
      ∧ (db.handle = false → csv_import_contacts L db s strict dry_run = ⟨0, none, db, s⟩)
      ∧ (dry_run = false → (db_begin db).1 = false
        → (csv_import_contacts L db s strict dry_run).ret = 0
          ∧ (csv_import_contacts L db s strict dry_run).counts = none
          ∧ (csv_import_contacts L db s strict dry_run).in_ = s) := by
  by_cases hh : db.handle = false
  · simp [csv_import_contacts, csv_import_from, hh]
  · by_cases hb : dry_run = false ∧ (db_begin db).1 = false
    · have e : csv_import_contacts L db s strict dry_run = ⟨0, none, (db_begin db).2, s⟩ := by
        simp [csv_import_contacts, csv_import_from, hh, hb]
      rw [e]
      exact ⟨fun _ => rfl, Or.inl rfl, fun h => absurd h (by simp), fun h => absurd h hh,
        fun _ _ => ⟨rfl, rfl, rfl⟩⟩
    · have hb' : dry_run = false → ¬ (db_begin db).1 = false := fun h1 h2 => hb ⟨h1, h2⟩
      cases hl : import_loop L strict dry_run (s.length + 1) s false 0 0
        (if dry_run = false then (db_begin db).2 else db) with
      | none =>
        have e : csv_import_contacts L db s strict dry_run = ⟨0, none, db, s⟩ := by
          simp [csv_import_contacts, csv_import_from, hh, hb, hl]
        rw [e]
        exact ⟨fun _ => rfl, Or.inl rfl, fun h => absurd h (by simp), fun h => absurd h hh,
          fun h1 h2 => absurd h2 (hb' h1)⟩
      | some lo =>
        have e : csv_import_contacts L db s strict dry_run = import_finish dry_run lo := by
          simp [csv_import_contacts, csv_import_from, hh, hb, hl]
        rw [e]
        refine ⟨?_, ?_, ?_, fun h => absurd h hh, fun h1 h2 => absurd h2 (hb' h1)⟩
        · simp only [import_finish]; split_ifs <;> simp
        · simp only [import_finish]; split_ifs <;> simp
        · simp only [import_finish]; split_ifs <;> simp

/-! ## The import loop against the records of the stream, on any store -/

/-- When the loop of the reader is left with no field stored, the stream is
exhausted. -/
theorem read_loop_fields_nil (fc : Nat) (hfc : 0 < fc) :
    ∀ (n : Nat) (s : Bytes) (fields : List Bytes) (q : Bool) (buf : Bytes), s.length ≤ n →
      (read_loop fc s fields q buf).fields = [] → (read_loop fc s fields q buf).rest = [] := by
  intro n
  induction n with
  | zero =>
    intro s fields q buf hn _
    have : s = [] := List.length_eq_zero.mp (by omega)
    subst this
    simp [read_loop_nil]
  | succ n ih =>
    intro s fields q buf hn h
    cases s with
    | nil => simp [read_loop_nil]
    | cons c rest =>
      have hrest : rest.length ≤ n := by simpa using hn
      cases rest with
      | nil =>
        rw [read_loop_cons] at h ⊢
        by_cases hl : fc ≤ fields.length
        · rw [if_pos hl] at h
          simp only [] at h
          subst h
          simp at hl
          omega
        · rw [if_neg hl] at h ⊢
          try dsimp only at h ⊢
          split_ifs at h ⊢
          all_goals rfl
      | cons next rest' =>
        have hrest' : rest'.length ≤ n := by simp at hrest; omega
        rw [read_loop_cons] at h ⊢
        by_cases hl : fc ≤ fields.length
        · rw [if_pos hl] at h
          simp only [] at h
          subst h
          simp at hl
          omega
        · rw [if_neg hl] at h ⊢
          try dsimp only at h ⊢
          split_ifs at h ⊢
          all_goals first
            | exact absurd h (by simp)
            | exact ih _ _ _ _ hrest h
            | exact ih _ _ _ _ hrest' h

/-- When `csv_read_record` returns 0 the stream is exhausted. -/
theorem csv_read_record_zero_rest (s : Bytes) (h : (csv_read_record s 6).count = 0) :
    (csv_read_record s 6).rest = [] := by
  have key := read_loop_fields_nil 6 (by decide) s.length s [] false [] le_rfl
  rw [csv_read_record_rest s 6 (by decide)]
  apply key
  unfold csv_read_record at h
  simp only [show (6 : Nat) ≠ 0 by decide, if_false] at h
  split_ifs at h with h1 h2
  · simp only [] at h; omega
  · simp only [] at h; omega
  · exact List.length_eq_zero.mp (by omega)

/-- One turn of the import loop after the header, on a stream that yields a
record: the record passes and is counted in `imported`, or it does not and
the loop returns (strict) or counts it in `failed` (lenient). -/
theorem import_loop_step (L : FloatLib) (strict dry_run : Bool) (n : Nat) (s : Bytes)
    (i f : Nat) (db : Db) (hc : (csv_read_record s 6).count ≠ 0) :
    import_loop L strict dry_run (n + 1) s true i f db =
      if record_passes L dry_run (csv_read_record s 6) db = true then
        import_loop L strict dry_run n (csv_read_record s 6).rest true (i + 1) f
          (sink_step L dry_run (csv_read_record s 6) db)
      else if strict = true then
        some (strict_abort dry_run i (f + 1) (sink_step L dry_run (csv_read_record s 6) db)
          (csv_read_record s 6).rest)
      else
        import_loop L strict dry_run n (csv_read_record s 6).rest true i (f + 1)
          (sink_step L dry_run (csv_read_record s 6) db) := by
  have hb := (csv_read_record_count_bounds s).1
  have hneg : ¬ (csv_read_record s 6).count < 0 := by omega
  rw [import_loop]
  simp only [hc, hneg, if_false, Bool.true_eq_false, record_passes, sink_step]
  by_cases h6 : (csv_read_record s 6).count < 6
  · simp [h6]
  · by_cases hd : dry_run = true
    · simp [h6, hd]
    · by_cases hok : (contacts_add db (contact_of_fields L (csv_read_record s 6).fields)).1 = true
      · simp [h6, hd, hok]
      · simp [h6, hd, hok]

/-- Every record the reader yields has between 1 and 6 fields. -/
theorem csv_records_count (n : Nat) :
    ∀ (s : Bytes), ∀ r ∈ csv_records n s, 0 < r.count ∧ r.count ≤ 6 := by
  induction n with
  | zero => intro s r hr; simp [csv_records] at hr
  | succ n ih =>
    intro s r hr
    by_cases hc : (csv_read_record s 6).count = 0
    · rw [csv_records_succ_of_eq n s hc] at hr; simp at hr
    · rw [csv_records_succ_of_ne n s hc] at hr
      rcases List.mem_cons.mp hr with rfl | hr
      · have := csv_read_record_count_bounds s
        omega
      · exact ih _ r hr

/-- The loop after the header runs to the end of the stream when it is lenient,
or strict with every record passing: it has counted the records that pass in
`imported`, the others in `failed`, and leaves the store as the records leave
it and the stream exhausted. -/
theorem import_loop_to_end (L : FloatLib) (strict dry_run : Bool) :
    ∀ (n : Nat) (s : Bytes) (i f : Nat) (db : Db), s.length < n →
      (strict = true → ∀ b ∈ record_outcomes L dry_run (csv_records n s) db, b = true) →
      import_loop L strict dry_run n s true i f db
        = some ⟨false, i + (record_outcomes L dry_run (csv_records n s) db).count true,
            f + (record_outcomes L dry_run (csv_records n s) db).count false,
            sink_feed L dry_run (csv_records n s) db, []⟩ := by
  intro n
  induction n with
  | zero => intro s i f db h; omega
  | succ n ih =>
    intro s i f db hn hall
    by_cases hc : (csv_read_record s 6).count = 0
    · rw [csv_records_succ_of_eq n s hc, import_loop_eof L strict dry_run n s true i f db hc,
        csv_read_record_zero_rest s hc]
      simp [record_outcomes, sink_feed]
    · have hp := csv_read_record_progress s hc
      rw [csv_records_succ_of_ne n s hc] at hall ⊢
      rw [import_loop_step L strict dry_run n s i f db hc]
      simp only [record_outcomes, sink_feed] at hall ⊢
      by_cases hpass : record_passes L dry_run (csv_read_record s 6) db = true
      · rw [if_pos hpass, ih _ _ _ _ (by omega)
          (fun hs b hb => hall hs b (List.mem_cons_of_mem _ hb))]
        simp [hpass]
        omega
      · have hns : strict = false := by
          cases strict with
          | false => rfl
          | true => exact absurd (hall rfl _ (List.mem_cons_self _ _)) hpass
        subst hns
        rw [if_neg hpass, if_neg (by decide), ih _ _ _ _ (by omega) (fun hs => by simp at hs)]
        have hfalse : record_passes L dry_run (csv_read_record s 6) db = false := by
          cases hv : record_passes L dry_run (csv_read_record s 6) db with
          | false => rfl
          | true => exact absurd hv hpass
        simp [hfalse]
        omega

theorem csv_records_cons_inv (n : Nat) (s : Bytes) (r : ReadResult) (rs : List ReadResult)
    (h : csv_records n s = r :: rs) :
    ∃ m, n = m + 1 ∧ (csv_read_record s 6).count ≠ 0 ∧ r = csv_read_record s 6
      ∧ csv_records m (csv_read_record s 6).rest = rs := by
  cases n with
  | zero => simp [csv_records] at h
  | succ m =>
    by_cases hc : (csv_read_record s 6).count = 0
    · rw [csv_records_succ_of_eq m s hc] at h; simp at h
    · rw [csv_records_succ_of_ne m s hc] at h
      simp only [List.cons.injEq] at h
      exact ⟨m, rfl, hc, h.1.symm, h.2⟩

theorem sink_feed_append (L : FloatLib) (dry_run : Bool) (xs ys : List ReadResult) (db : Db) :
    sink_feed L dry_run (xs ++ ys) db = sink_feed L dry_run ys (sink_feed L dry_run xs db) := by
  induction xs generalizing db with
  | nil => rfl
  | cons x xs ih =>
    rw [List.cons_append]
    simp only [sink_feed]
    exact ih _

/-- The strict loop after the header stops at the first record that does not
pass: it returns from inside the loop with the stream read up to the end of
that record and no further, `imported` raised by the number of records before
it, and the store rolled back unless this is a dry run. -/
theorem import_loop_strict_stop (L : FloatLib) (dry_run : Bool) :
    ∀ (pre : List ReadResult) (n : Nat) (s : Bytes) (i f : Nat) (db : Db) (r : ReadResult)
      (post : List ReadResult), s.length < n →
      csv_records n s = pre ++ r :: post →
      (∀ b ∈ record_outcomes L dry_run pre db, b = true) →
      record_passes L dry_run r (sink_feed L dry_run pre db) = false →
      import_loop L true dry_run n s true i f db
        = some (strict_abort dry_run (i + pre.length) (f + 1)
            (sink_feed L dry_run (pre ++ [r]) db) r.rest) := by
  intro pre
  induction pre with
  | nil =>
    intro n s i f db r post hn hrec _ hfail
    obtain ⟨m, rfl, hc, hr, -⟩ := csv_records_cons_inv n s r post hrec
    subst hr
    simp only [sink_feed] at hfail
    rw [import_loop_step L true dry_run m s i f db hc]
    simp [hfail, sink_feed]
  | cons p pre ih =>
    intro n s i f db r post hn hrec hall hfail
    obtain ⟨m, rfl, hc, hp, hrest⟩ := csv_records_cons_inv n s p (pre ++ r :: post) hrec
    subst hp
    have hprog := csv_read_record_progress s hc
    simp only [record_outcomes, List.mem_cons, forall_eq_or_imp] at hall
    simp only [sink_feed] at hfail
    rw [import_loop_step L true dry_run m s i f db hc, if_pos hall.1,
      ih m _ (i + 1) f _ r post (by omega) hrest hall.2 hfail]
    simp only [List.cons_append, sink_feed, List.length_cons]
    congr 2
    omega

/-- Among records of which one does not pass there is a first such record. -/
theorem first_failing_record (L : FloatLib) (dry_run : Bool) :
    ∀ (recs : List ReadResult) (db : Db), false ∈ record_outcomes L dry_run recs db →
      ∃ pre r post, recs = pre ++ r :: post
        ∧ (∀ b ∈ record_outcomes L dry_run pre db, b = true)
        ∧ record_passes L dry_run r (sink_feed L dry_run pre db) = false := by
  intro recs
  induction recs with
  | nil => intro db h; simp [record_outcomes] at h
  | cons x xs ih =>
    intro db h
    cases hx : record_passes L dry_run x db with
    | false => exact ⟨[], x, xs, rfl, by simp [record_outcomes], by simpa [sink_feed] using hx⟩
    | true =>
      simp only [record_outcomes, hx, List.mem_cons] at h
      rcases h with h | h
      · exact absurd h (by decide)
      · obtain ⟨pre, r, post, e1, e2, e3⟩ := ih _ h
        refine ⟨x :: pre, r, post, by rw [e1]; rfl, ?_, by simpa [sink_feed] using e3⟩
        intro b hb
        simp only [record_outcomes, hx, List.mem_cons] at hb
        rcases hb with rfl | hb
        · rfl
        · exact e2 b hb

/-- The records after the header of a stream that yields a record. -/
theorem data_records_of_ne (s : Bytes) (h : (csv_read_record s 6).count ≠ 0) :
    data_records s
      = csv_records ((csv_read_record s 6).rest.length + 1) (csv_read_record s 6).rest := by
  unfold data_records
  rw [csv_read_all_tail s h]
  rfl

theorem data_records_of_eq (s : Bytes) (h : (csv_read_record s 6).count = 0) :
    data_records s = [] := by
  unfold data_records
  rw [csv_read_all_of_eq s h]
  rfl

/-- The whole loop of `csv_import_contacts`, header included, when it runs to
the end of the stream. -/
theorem import_loop_whole_to_end (L : FloatLib) (strict dry_run : Bool) (s : Bytes)
    (i f : Nat) (db : Db)
    (hall : strict = true → ∀ b ∈ record_outcomes L dry_run (data_records s) db, b = true) :
    import_loop L strict dry_run (s.length + 1) s false i f db
      = some ⟨false, i + (record_outcomes L dry_run (data_records s) db).count true,
          f + (record_outcomes L dry_run (data_records s) db).count false,
          sink_feed L dry_run (data_records s) db, []⟩ := by
  by_cases hc : (csv_read_record s 6).count = 0
  · rw [import_loop_eof L strict dry_run _ s false i f db hc, data_records_of_eq s hc,
      csv_read_record_zero_rest s hc]
    simp [record_outcomes, sink_feed]
  · rw [data_records_of_ne s hc] at hall ⊢
    rw [import_loop_header L strict dry_run s i f db hc]
    exact import_loop_to_end L strict dry_run _ _ i f db (Nat.lt_succ_self _) hall

/-- The whole strict loop of `csv_import_contacts`, header included, when a
record after the header does not pass. -/
theorem import_loop_whole_strict_stop (L : FloatLib) (dry_run : Bool) (s : Bytes)
    (i f : Nat) (db : Db) (pre : List ReadResult) (r : ReadResult) (post : List ReadResult)
    (hrec : data_records s = pre ++ r :: post)
    (hall : ∀ b ∈ record_outcomes L dry_run pre db, b = true)
    (hfail : record_passes L dry_run r (sink_feed L dry_run pre db) = false) :
    import_loop L true dry_run (s.length + 1) s false i f db
      = some (strict_abort dry_run (i + pre.length) (f + 1)
          (sink_feed L dry_run (pre ++ [r]) db) r.rest) := by
  have hc : (csv_read_record s 6).count ≠ 0 := by
    intro h0
    rw [data_records_of_eq s h0] at hrec
    simp at hrec
  rw [data_records_of_ne s hc] at hrec
  rw [import_loop_header L true dry_run s i f db hc]
  exact import_loop_strict_stop L dry_run pre _ _ i f db r post (Nat.lt_succ_self _) hrec hall
    hfail

/-! ## `csv_import_contacts` against the records of the stream -/

/-- The call on an open store whose `db_begin`, if issued, succeeds: the loop
is run on the store `import_start` gives. -/
theorem csv_import_started (L : FloatLib) (db : Db) (s : Bytes) (strict dry_run : Bool)
    (hh : db.handle = true) (hbegin : dry_run = false → (db_begin db).1 = true) :
    csv_import_contacts L db s strict dry_run =
      match import_loop L strict dry_run (s.length + 1) s false 0 0 (import_start db dry_run) with
      | none => ⟨0, none, db, s⟩
      | some lo => import_finish dry_run lo := by
  have hb : ¬ (dry_run = false ∧ (db_begin db).1 = false) := by
    intro h
    have := hbegin h.1
    rw [h.2] at this
    exact absurd this (by decide)
  simp only [csv_import_contacts, csv_import_from, hh, Bool.true_eq_false, if_false, hb,
    import_start]

/-- The call when its loop runs to the end of the stream. -/
theorem csv_import_to_end (L : FloatLib) (db : Db) (s : Bytes) (strict dry_run : Bool)
    (hh : db.handle = true) (hbegin : dry_run = false → (db_begin db).1 = true)
    (hall : strict = true →
      ∀ b ∈ record_outcomes L dry_run (data_records s) (import_start db dry_run), b = true) :
    csv_import_contacts L db s strict dry_run
      = import_finish dry_run
          ⟨false, (record_outcomes L dry_run (data_records s) (import_start db dry_run)).count true,
            (record_outcomes L dry_run (data_records s) (import_start db dry_run)).count false,
            sink_feed L dry_run (data_records s) (import_start db dry_run), []⟩ := by
  rw [csv_import_started L db s strict dry_run hh hbegin,
    import_loop_whole_to_end L strict dry_run s 0 0 _ hall]
  simp

/-- The strict call when a record after the header does not pass. -/
theorem csv_import_strict_stop (L : FloatLib) (db : Db) (s : Bytes) (dry_run : Bool)
    (hh : db.handle = true) (hbegin : dry_run = false → (db_begin db).1 = true)
    (pre : List ReadResult) (r : ReadResult) (post : List ReadResult)
    (hrec : data_records s = pre ++ r :: post)
    (hall : ∀ b ∈ record_outcomes L dry_run pre (import_start db dry_run), b = true)
    (hfail : record_passes L dry_run r (sink_feed L dry_run pre (import_start db dry_run))
      = false) :
    csv_import_contacts L db s true dry_run
      = ⟨0, none,
          if dry_run = false then
            (db_rollback (sink_feed L dry_run (pre ++ [r]) (import_start db dry_run))).2
          else sink_feed L dry_run (pre ++ [r]) (import_start db dry_run),
          r.rest⟩ := by
  rw [csv_import_started L db s true dry_run hh hbegin,
    import_loop_whole_strict_stop L dry_run s 0 0 _ pre r post hrec hall hfail]
  simp [import_finish, strict_abort]

/-- In a dry run the records leave the store as it is. -/
theorem sink_feed_dry (L : FloatLib) (recs : List ReadResult) (db : Db) :
    sink_feed L true recs db = db := by
  induction recs with
  | nil => rfl
  | cons r rs ih => simp [sink_feed, sink_step, ih]

theorem record_outcomes_append (L : FloatLib) (dry_run : Bool) (xs ys : List ReadResult)
    (db : Db) :
    record_outcomes L dry_run (xs ++ ys) db
      = record_outcomes L dry_run xs db
        ++ record_outcomes L dry_run ys (sink_feed L dry_run xs db) := by
  induction xs generalizing db with
  | nil => rfl
  | cons x xs ih =>
    rw [List.cons_append]
    simp only [record_outcomes, sink_feed, List.cons_append]
    rw [ih]

theorem record_outcomes_length (L : FloatLib) (dry_run : Bool) (recs : List ReadResult)
    (db : Db) : (record_outcomes L dry_run recs db).length = recs.length := by
  induction recs generalizing db with
  | nil => rfl
  | cons x xs ih => simp [record_outcomes, ih]

/-- A record does not pass exactly when the reader reported fewer than 6
fields for it or, in a committing run, `contacts_add` returned 0 for it. -/
theorem record_passes_false_iff (L : FloatLib) (dry_run : Bool) (r : ReadResult) (db : Db) :
    record_passes L dry_run r db = false ↔
      (r.count < 6
        ∨ (dry_run = false ∧ (contacts_add db (contact_of_fields L r.fields)).1 = false)) := by
  unfold record_passes
  by_cases h6 : r.count < 6
  · simp [h6]
  · cases dry_run with
    | true => simp [h6]
    | false => simp [h6]

/-! ## What the store operations do to the log, the rows and the handle -/

theorem sqlite_attempt_fields (db : Db) :
    (sqlite_attempt db).2.log = db.log ∧ (sqlite_attempt db).2.rows = db.rows
      ∧ (sqlite_attempt db).2.handle = db.handle ∧ (sqlite_attempt db).2.txn = db.txn := by
  unfold sqlite_attempt
  cases db.faults <;> simp

theorem db_begin_fields (db : Db) :
    (db_begin db).2.log = db.log ++ [SinkCall.begin_] ∧ (db_begin db).2.rows = db.rows
      ∧ (db_begin db).2.handle = db.handle := by
  obtain ⟨a1, a2, a3, a4⟩ := sqlite_attempt_fields { db with log := db.log ++ [SinkCall.begin_] }
  simp only [db_begin]
  split_ifs
  · exact ⟨rfl, rfl, rfl⟩
  · exact ⟨a1, a2, a3⟩
  · split
    · exact ⟨a1, a2, a3⟩
    · exact ⟨a1, a2, a3⟩

theorem db_commit_fields (db : Db) :
    (db_commit db).2.log = db.log ++ [SinkCall.commit] ∧ (db_commit db).2.rows = db.rows := by
  obtain ⟨a1, a2, a3, a4⟩ := sqlite_attempt_fields { db with log := db.log ++ [SinkCall.commit] }
  simp only [db_commit]
  split_ifs
  · exact ⟨rfl, rfl⟩
  · exact ⟨a1, a2⟩
  · split
    · exact ⟨a1, a2⟩
    · exact ⟨a1, a2⟩

theorem db_rollback_log (db : Db) :
    (db_rollback db).2.log = db.log ++ [SinkCall.rollback] := by
  obtain ⟨a1, a2, a3, a4⟩ :=
    sqlite_attempt_fields { db with log := db.log ++ [SinkCall.rollback] }
  simp only [db_rollback]
  split_ifs
  · rfl
  · exact a1
  · split
    · exact a1
    · exact a1

theorem contacts_add_fields (db : Db) (c : Contact) :
    (contacts_add db c).2.log = db.log ++ [SinkCall.add c]
      ∧ (contacts_add db c).2.rows
        = db.rows ++ (if (contacts_add db c).1 = true then [row_of_contact c] else []) := by
  obtain ⟨a1, a2, a3, a4⟩ := sqlite_attempt_fields { db with log := db.log ++ [SinkCall.add c] }
  simp only [contacts_add]
  split_ifs <;> simp_all

/-- In a committing run the records add to the log one `contacts_add` call
for each record of at least 6 fields, in order. -/
theorem sink_feed_log (L : FloatLib) (recs : List ReadResult) (db : Db) :
    (sink_feed L false recs db).log = db.log ++ add_calls L recs := by
  induction recs generalizing db with
  | nil => simp [sink_feed, add_calls]
  | cons r rs ih =>
    simp only [sink_feed]
    rw [ih]
    by_cases h6 : r.count < 6
    · simp [sink_step, add_calls, h6]
    · have h6' : 6 ≤ r.count := by omega
      simp [sink_step, add_calls, h6, h6', List.filter_cons, (contacts_add_fields db _).1]

/-- In a committing run the records add to the table the rows of the records
that pass, in order. -/
theorem sink_feed_rows (L : FloatLib) (recs : List ReadResult) (db : Db) :
    (sink_feed L false recs db).rows
      = db.rows ++ (accepted_records L false recs db).map
          (fun r => row_of_contact (contact_of_fields L r.fields)) := by
  induction recs generalizing db with
  | nil => simp [sink_feed, accepted_records]
  | cons r rs ih =>
    simp only [sink_feed, accepted_records]
    rw [ih]
    by_cases h6 : r.count < 6
    · simp [sink_step, record_passes, h6]
    · by_cases hok : (contacts_add db (contact_of_fields L r.fields)).1 = true
      · simp [sink_step, record_passes, h6, hok, (contacts_add_fields db _).2]
      · simp [sink_step, record_passes, h6, hok, (contacts_add_fields db _).2]

theorem accepted_records_length (L : FloatLib) (dry_run : Bool) (recs : List ReadResult)
    (db : Db) :
    (accepted_records L dry_run recs db).length
      = (record_outcomes L dry_run recs db).count true := by
  induction recs generalizing db with
  | nil => rfl
  | cons r rs ih =>
    simp only [accepted_records, record_outcomes]
    cases hp : record_passes L dry_run r db with
    | true => simp [ih]
    | false => simp [ih]

theorem accepted_records_sublist (L : FloatLib) (dry_run : Bool) (recs : List ReadResult)
    (db : Db) : (accepted_records L dry_run recs db).Sublist recs := by
  induction recs generalizing db with
  | nil => exact List.Sublist.slnil
  | cons r rs ih =>
    simp only [accepted_records]
    split_ifs
    · exact (ih _).cons₂ r
    · exact (ih _).cons r

theorem count_true_add_count_false (l : List Bool) :
    l.count true + l.count false = l.length := by
  induction l with
  | nil => rfl
  | cons b t ih => cases b <;> simp [List.count_cons] <;> omega

theorem add_calls_append (L : FloatLib) (xs ys : List ReadResult) :
    add_calls L (xs ++ ys) = add_calls L xs ++ add_calls L ys := by
  simp [add_calls]

/-! ## C13: strict mode stops at the first record that does not pass -/

/-- C13: with `strict = 1`, on an open store, with `db_begin` succeeding and
`db_commit` succeeding when it is called (both only arise when `dry_run = 0`):
the call returns 0 if and only if some record after the header has fewer than
6 fields or, when `dry_run = 0`, gets 0 from `contacts_add` on the store the
records before it have left.  At the first such record the call has read the
stream up to the end of that record and no further and stores no counts; in a
dry run the store is untouched, in a committing run the calls on the store are
`db_begin`, the `contacts_add` of the 6-field records up to that record, and
`db_rollback` last. -/
theorem csv_import_strict_first_error (L : FloatLib) (db : Db) (s : Bytes) (dry_run : Bool)
    (hh : db.handle = true) (hbegin : dry_run = false → (db_begin db).1 = true)
    (hcommit : dry_run = false →
      (∀ b ∈ record_outcomes L dry_run (data_records s) (import_start db dry_run), b = true) →
      (db_commit (sink_feed L dry_run (data_records s) (import_start db dry_run))).1 = true) :
    ((csv_import_contacts L db s true dry_run).ret = 0 ↔
        ∃ pre r post, data_records s = pre ++ r :: post
          ∧ (r.count < 6 ∨ (dry_run = false
              ∧ (contacts_add (sink_feed L dry_run pre (import_start db dry_run))
                  (contact_of_fields L r.fields)).1 = false)))
      ∧ ∀ pre r post, data_records s = pre ++ r :: post →
          (∀ b ∈ record_outcomes L dry_run pre (import_start db dry_run), b = true) →
          (r.count < 6 ∨ (dry_run = false
              ∧ (contacts_add (sink_feed L dry_run pre (import_start db dry_run))
                  (contact_of_fields L r.fields)).1 = false)) →
          (csv_import_contacts L db s true dry_run).in_ = r.rest
            ∧ (csv_import_contacts L db s true dry_run).counts = none
            ∧ (dry_run = true → (csv_import_contacts L db s true dry_run).db = db)
            ∧ (dry_run = false →
                (csv_import_contacts L db s true dry_run).db.log
                  = db.log ++ [SinkCall.begin_] ++ add_calls L (pre ++ [r])
                    ++ [SinkCall.rollback]) := by
  constructor
  · constructor
    · intro hret
      by_cases hall : ∀ b ∈ record_outcomes L dry_run (data_records s) (import_start db dry_run),
          b = true
      · exfalso
        rw [csv_import_to_end L db s true dry_run hh hbegin (fun _ => hall)] at hret
        cases dry_run with
        | true => simp [import_finish] at hret
        | false =>
          have hc := hcommit rfl hall
          simp [import_finish, hc] at hret
      · have hmem : false ∈ record_outcomes L dry_run (data_records s)
            (import_start db dry_run) := by
          by_contra hno
          apply hall
          intro b hb
          cases b with
          | true => rfl
          | false => exact absurd hb hno
        obtain ⟨pre, r, post, e1, -, e3⟩ := first_failing_record L dry_run _ _ hmem
        exact ⟨pre, r, post, e1, (record_passes_false_iff L dry_run r _).mp e3⟩
    · rintro ⟨pre, r, post, e1, e2⟩
      have hmem : false ∈ record_outcomes L dry_run (data_records s)
          (import_start db dry_run) := by
        rw [e1, record_outcomes_append]
        simp only [record_outcomes, List.mem_append, List.mem_cons]
        exact Or.inr (Or.inl ((record_passes_false_iff L dry_run r _).mpr e2).symm)
      obtain ⟨pre', r', post', f1, f2, f3⟩ := first_failing_record L dry_run _ _ hmem
      rw [csv_import_strict_stop L db s dry_run hh hbegin pre' r' post' f1 f2 f3]
  · intro pre r post e1 e2 e3
    have hfail := (record_passes_false_iff L dry_run r _).mpr e3
    rw [csv_import_strict_stop L db s dry_run hh hbegin pre r post e1 e2 hfail]
    refine ⟨rfl, rfl, ?_, ?_⟩
    · intro hd
      subst hd
      simp [sink_feed_dry, import_start]
    · intro hd
      subst hd
      simp only [if_true, db_rollback_log, sink_feed_log, import_start, (db_begin_fields db).1]

/-- C13 at `demo_stream` on `demo_db`, committing: the first record after the
header has 3 fields, so the call returns 0 with only `db_begin` and
`db_rollback` issued. -/
theorem csv_import_strict_first_error_witness :
    (demo_db.handle = true ∧ (false = false → (db_begin demo_db).1 = true)
        ∧ (false = false →
            (∀ b ∈ record_outcomes zeroLib false (data_records demo_stream)
                (import_start demo_db false), b = true) →
            (db_commit (sink_feed zeroLib false (data_records demo_stream)
                (import_start demo_db false))).1 = true))
      ∧ (((csv_import_contacts zeroLib demo_db demo_stream true false).ret = 0 ↔
          ∃ pre r post, data_records demo_stream = pre ++ r :: post
            ∧ (r.count < 6 ∨ (false = false
                ∧ (contacts_add (sink_feed zeroLib false pre (import_start demo_db false))
                    (contact_of_fields zeroLib r.fields)).1 = false)))
        ∧ ∀ pre r post, data_records demo_stream = pre ++ r :: post →
            (∀ b ∈ record_outcomes zeroLib false pre (import_start demo_db false), b = true) →
            (r.count < 6 ∨ (false = false
                ∧ (contacts_add (sink_feed zeroLib false pre (import_start demo_db false))
                    (contact_of_fields zeroLib r.fields)).1 = false)) →
            (csv_import_contacts zeroLib demo_db demo_stream true false).in_ = r.rest
              ∧ (csv_import_contacts zeroLib demo_db demo_stream true false).counts = none
              ∧ (false = true →
                  (csv_import_contacts zeroLib demo_db demo_stream true false).db = demo_db)
              ∧ (false = false →
                  (csv_import_contacts zeroLib demo_db demo_stream true false).db.log
                    = demo_db.log ++ [SinkCall.begin_] ++ add_calls zeroLib (pre ++ [r])
                      ++ [SinkCall.rollback])) :=
  ⟨⟨rfl, by decide, by decide⟩,
    csv_import_strict_first_error zeroLib demo_db demo_stream false rfl (by decide)
      (by decide)⟩

/-! ## C14: lenient mode -/

/-- A call that returns 1 was made on an open store and, in a committing run,
its `db_begin` succeeded. -/
theorem csv_import_ret_one (L : FloatLib) (db : Db) (s : Bytes) (strict dry_run : Bool)
    (h : (csv_import_contacts L db s strict dry_run).ret = 1) :
    db.handle = true ∧ (dry_run = false → (db_begin db).1 = true) := by
  by_cases hh : db.handle = false
  · simp [csv_import_contacts, csv_import_from, hh] at h
  · have hh' : db.handle = true := by
      cases hv : db.handle with
      | false => exact absurd hv hh
      | true => rfl
    refine ⟨hh', fun hd => ?_⟩
    cases hb : (db_begin db).1 with
    | true => rfl
    | false => simp [csv_import_contacts, csv_import_from, hh', hd, hb] at h

/-- The committing call when `db_begin` fails. -/
theorem csv_import_begin_failed (L : FloatLib) (db : Db) (s : Bytes) (strict : Bool)
    (hh : db.handle = true) (hb : (db_begin db).1 = false) :
    csv_import_contacts L db s strict false = ⟨0, none, (db_begin db).2, s⟩ := by
  simp [csv_import_contacts, csv_import_from, hh, hb]

/-- C14: with `strict = 0`, on an open store and for every stream, the call
returns 1 if and only if this is a dry run or `db_begin` and `db_commit` both
succeed.  Unless `db_begin` failed, the loop has read the stream to its end,
whatever the records were; when the call returns 1, `imported` is the number
of records after the header that pass and `failed` the number of those that do
not (fewer than 6 fields, or 0 from `contacts_add`). -/
theorem csv_import_lenient_recovers (L : FloatLib) (db : Db) (s : Bytes) (dry_run : Bool)
    (hh : db.handle = true) :
    ((csv_import_contacts L db s false dry_run).ret = 1 ↔
        (dry_run = true ∨ ((db_begin db).1 = true
          ∧ (db_commit (sink_feed L false (data_records s) (db_begin db).2)).1 = true)))
      ∧ ((dry_run = true ∨ (db_begin db).1 = true) →
          (csv_import_contacts L db s false dry_run).in_ = [])
      ∧ ((csv_import_contacts L db s false dry_run).ret = 1 →
          (csv_import_contacts L db s false dry_run).counts
            = some ((record_outcomes L dry_run (data_records s)
                      (import_start db dry_run)).count true,
                (record_outcomes L dry_run (data_records s)
                      (import_start db dry_run)).count false)) := by
  cases dry_run with
  | true =>
    rw [csv_import_to_end L db s false true hh (fun h => absurd h (by decide))
      (fun h => absurd h (by decide))]
    simp [import_finish]
  | false =>
    cases hb : (db_begin db).1 with
    | false =>
      rw [csv_import_begin_failed L db s false hh hb]
      simp
    | true =>
      rw [csv_import_to_end L db s false false hh (fun _ => hb) (fun h => absurd h (by decide))]
      simp only [import_finish, import_start, if_true]
      cases hc : (db_commit (sink_feed L false (data_records s) (db_begin db).2)).1 with
      | false => simp
      | true => simp

/-- C14 at `demo_stream` on `demo_db`, committing. -/
theorem csv_import_lenient_recovers_witness :
    demo_db.handle = true
      ∧ (((csv_import_contacts zeroLib demo_db demo_stream false false).ret = 1 ↔
          (false = true ∨ ((db_begin demo_db).1 = true
            ∧ (db_commit (sink_feed zeroLib false (data_records demo_stream)
                (db_begin demo_db).2)).1 = true)))
        ∧ ((false = true ∨ (db_begin demo_db).1 = true) →
            (csv_import_contacts zeroLib demo_db demo_stream false false).in_ = [])
        ∧ ((csv_import_contacts zeroLib demo_db demo_stream false false).ret = 1 →
            (csv_import_contacts zeroLib demo_db demo_stream false false).counts
              = some ((record_outcomes zeroLib false (data_records demo_stream)
                        (import_start demo_db false)).count true,
                  (record_outcomes zeroLib false (data_records demo_stream)
                        (import_start demo_db false)).count false))) :=
  ⟨rfl, csv_import_lenient_recovers zeroLib demo_db demo_stream false rfl⟩

/-- A strict call that returns 1 met no record that does not pass. -/
theorem csv_import_strict_ret_one (L : FloatLib) (db : Db) (s : Bytes) (strict dry_run : Bool)
    (h : (csv_import_contacts L db s strict dry_run).ret = 1) :
    strict = true →
      ∀ b ∈ record_outcomes L dry_run (data_records s) (import_start db dry_run), b = true := by
  intro hs
  subst hs
  obtain ⟨hh, hbegin⟩ := csv_import_ret_one L db s true dry_run h
  by_contra hno
  have hmem : false ∈ record_outcomes L dry_run (data_records s) (import_start db dry_run) := by
    by_contra hn
    apply hno
    intro b hb
    cases b with
    | true => rfl
    | false => exact absurd hb hn
  obtain ⟨pre, r, post, f1, f2, f3⟩ := first_failing_record L dry_run _ _ hmem
  rw [csv_import_strict_stop L db s dry_run hh hbegin pre r post f1 f2 f3] at h
  simp at h

/-- A call that returns 1, unfolded: its loop ran to the end of the stream and,
in a committing run, `db_commit` succeeded on the store the records left. -/
theorem csv_import_ret_one_eq (L : FloatLib) (db : Db) (s : Bytes) (strict dry_run : Bool)
    (h : (csv_import_contacts L db s strict dry_run).ret = 1) :
    csv_import_contacts L db s strict dry_run
        = ⟨1, some ((record_outcomes L dry_run (data_records s)
                      (import_start db dry_run)).count true,
              (record_outcomes L dry_run (data_records s)
                      (import_start db dry_run)).count false),
            if dry_run = true then sink_feed L dry_run (data_records s) (import_start db dry_run)
            else (db_commit (sink_feed L dry_run (data_records s) (import_start db dry_run))).2,
            []⟩ := by
  obtain ⟨hh, hbegin⟩ := csv_import_ret_one L db s strict dry_run h
  have hall := csv_import_strict_ret_one L db s strict dry_run h
  rw [csv_import_to_end L db s strict dry_run hh hbegin hall] at h ⊢
  simp only [import_finish] at h ⊢
  cases dry_run with
  | true => simp
  | false =>
    cases hc : (db_commit (sink_feed L false (data_records s) (import_start db false))).1 with
    | false => simp [hc] at h
    | true => simp

/-! ## C15: lenient accounting -/

/-- C15: when `csv_import_contacts` returns 1 with `strict = 0`, the counts it
stores satisfy imported + failed = the number of records the reader yields
after the header: `imported` is the number of those records that pass and
`failed` the number of those that do not, so each is counted exactly once. -/
theorem csv_import_lenient_accounting (L : FloatLib) (db : Db) (s : Bytes) (dry_run : Bool)
    (h : (csv_import_contacts L db s false dry_run).ret = 1) :
    ∃ i f, (csv_import_contacts L db s false dry_run).counts = some (i, f)
      ∧ i + f = (data_records s).length
      ∧ i = (record_outcomes L dry_run (data_records s) (import_start db dry_run)).count true
      ∧ f = (record_outcomes L dry_run (data_records s) (import_start db dry_run)).count
          false := by
  rw [csv_import_ret_one_eq L db s false dry_run h]
  refine ⟨_, _, rfl, ?_, rfl, rfl⟩
  rw [count_true_add_count_false, record_outcomes_length]

/-- C15 at `demo_stream` on `demo_db`, committing: imported = 2, failed = 1,
three records after the header. -/
theorem csv_import_lenient_accounting_witness :
    (csv_import_contacts zeroLib demo_db demo_stream false false).ret = 1
      ∧ ∃ i f, (csv_import_contacts zeroLib demo_db demo_stream false false).counts = some (i, f)
        ∧ i + f = (data_records demo_stream).length
        ∧ i = (record_outcomes zeroLib false (data_records demo_stream)
                (import_start demo_db false)).count true
        ∧ f = (record_outcomes zeroLib false (data_records demo_stream)
                (import_start demo_db false)).count false :=
  ⟨by decide, csv_import_lenient_accounting zeroLib demo_db demo_stream false (by decide)⟩

/-! ## C16: the order of the imported rows -/

/-- C16: when a committing call (`dry_run = 0`, either value of `strict`)
returns 1, the table holds the rows it held before followed by the converted
records that passed (6 fields and 1 from `contacts_add`), in the order in which
these records appear in the stream: the passing records are a sublist of the
records after the header, and their number is `imported`. -/
theorem csv_import_order (L : FloatLib) (db : Db) (s : Bytes) (strict : Bool)
    (h : (csv_import_contacts L db s strict false).ret = 1) :
    (csv_import_contacts L db s strict false).db.rows
        = db.rows ++ (accepted_records L false (data_records s) (db_begin db).2).map
            (fun r => row_of_contact (contact_of_fields L r.fields))
      ∧ (accepted_records L false (data_records s) (db_begin db).2).Sublist (data_records s)
      ∧ ∃ f, (csv_import_contacts L db s strict false).counts
          = some ((accepted_records L false (data_records s) (db_begin db).2).length, f) := by
  rw [csv_import_ret_one_eq L db s strict false h]
  refine ⟨?_, accepted_records_sublist L false _ _, ?_⟩
  · simp only [Bool.false_eq_true, if_false, import_start, if_true, (db_commit_fields _).2,
      sink_feed_rows, (db_begin_fields db).2.1]
  · refine ⟨(record_outcomes L false (data_records s) (import_start db false)).count false, ?_⟩
    simp only [import_start, if_true, accepted_records_length]

/-- C16 at `demo_stream` on `demo_db`, lenient. -/
theorem csv_import_order_witness :
    (csv_import_contacts zeroLib demo_db demo_stream false false).ret = 1
      ∧ ((csv_import_contacts zeroLib demo_db demo_stream false false).db.rows
          = demo_db.rows
            ++ (accepted_records zeroLib false (data_records demo_stream)
                  (db_begin demo_db).2).map
                (fun r => row_of_contact (contact_of_fields zeroLib r.fields))
        ∧ (accepted_records zeroLib false (data_records demo_stream)
              (db_begin demo_db).2).Sublist (data_records demo_stream)
        ∧ ∃ f, (csv_import_contacts zeroLib demo_db demo_stream false false).counts
            = some ((accepted_records zeroLib false (data_records demo_stream)
                (db_begin demo_db).2).length, f)) :=
  ⟨by decide, csv_import_order zeroLib demo_db demo_stream false (by decide)⟩

/-! ## C17: the scope of the transaction -/

/-- C17: in a committing run (`dry_run = 0`) on an open store the calls made on
the store are, in this order: one `db_begin`, made first; if it fails nothing
else follows and no byte of the stream has been read.  Otherwise there follow
`contacts_add` calls only, one for each record of 6 fields read, and then
either one `db_commit`, issued when the whole stream has been read and every
record after the header has had its `contacts_add` (the call returns 1), or
that `db_commit` followed by one `db_rollback` when the commit fails (the call
returns 0), or, in strict mode only, one `db_rollback` and no `db_commit`,
right after the first record that does not pass (the call returns 0). -/
theorem csv_import_transaction_scope (L : FloatLib) (db : Db) (s : Bytes) (strict : Bool)
    (hh : db.handle = true) :
    ((db_begin db).1 = false →
        (csv_import_contacts L db s strict false).db.log = db.log ++ [SinkCall.begin_]
          ∧ (csv_import_contacts L db s strict false).in_ = s
          ∧ (csv_import_contacts L db s strict false).ret = 0)
      ∧ ((db_begin db).1 = true →
        ((csv_import_contacts L db s strict false).ret = 1
            ∧ (csv_import_contacts L db s strict false).in_ = []
            ∧ (csv_import_contacts L db s strict false).db.log
              = db.log ++ [SinkCall.begin_] ++ add_calls L (data_records s)
                ++ [SinkCall.commit])
          ∨ ((csv_import_contacts L db s strict false).ret = 0
            ∧ (csv_import_contacts L db s strict false).in_ = []
            ∧ (csv_import_contacts L db s strict false).db.log
              = db.log ++ [SinkCall.begin_] ++ add_calls L (data_records s)
                ++ [SinkCall.commit, SinkCall.rollback])
          ∨ (strict = true ∧ (csv_import_contacts L db s strict false).ret = 0
            ∧ ∃ pre r post, data_records s = pre ++ r :: post
              ∧ (∀ b ∈ record_outcomes L false pre (db_begin db).2, b = true)
              ∧ record_passes L false r (sink_feed L false pre (db_begin db).2) = false
              ∧ (csv_import_contacts L db s strict false).in_ = r.rest
              ∧ (csv_import_contacts L db s strict false).db.log
                = db.log ++ [SinkCall.begin_] ++ add_calls L (pre ++ [r])
                  ++ [SinkCall.rollback]))
      ∧ (∀ recs, ∀ c ∈ add_calls L recs, ∃ x, c = SinkCall.add x) := by
  refine ⟨?_, ?_, ?_⟩
  · intro hb
    rw [csv_import_begin_failed L db s strict hh hb]
    exact ⟨(db_begin_fields db).1, rfl, rfl⟩
  · intro hb
    by_cases hstop : strict = true
        ∧ false ∈ record_outcomes L false (data_records s) (import_start db false)
    · obtain ⟨hs, hmem⟩ := hstop
      subst hs
      obtain ⟨pre, r, post, f1, f2, f3⟩ := first_failing_record L false _ _ hmem
      refine Or.inr (Or.inr ⟨rfl, ?_, pre, r, post, f1, f2, f3, ?_, ?_⟩)
      · rw [csv_import_strict_stop L db s false hh (fun _ => hb) pre r post f1 f2 f3]
      · rw [csv_import_strict_stop L db s false hh (fun _ => hb) pre r post f1 f2 f3]
      · rw [csv_import_strict_stop L db s false hh (fun _ => hb) pre r post f1 f2 f3]
        simp only [if_true, db_rollback_log, sink_feed_log, import_start, (db_begin_fields db).1]
    · have hall : strict = true →
          ∀ b ∈ record_outcomes L false (data_records s) (import_start db false), b = true := by
        intro hs b hb'
        cases b with
        | true => rfl
        | false => exact absurd ⟨hs, hb'⟩ hstop
      rw [csv_import_to_end L db s strict false hh (fun _ => hb) hall]
      simp only [import_finish, Bool.false_eq_true, if_false]
      cases hc : (db_commit (sink_feed L false (data_records s) (import_start db false))).1 with
      | true =>
        refine Or.inl ⟨by simp, by simp, ?_⟩
        simp only [Bool.true_eq_false, if_false, (db_commit_fields _).1, sink_feed_log,
          import_start, if_true, (db_begin_fields db).1]
      | false =>
        refine Or.inr (Or.inl ⟨by simp, by simp, ?_⟩)
        simp only [if_true, db_rollback_log, (db_commit_fields _).1, sink_feed_log,
          import_start, (db_begin_fields db).1, List.append_assoc, List.singleton_append]
  · intro recs c hc
    simp only [add_calls, List.mem_map] at hc
    obtain ⟨r, -, hr⟩ := hc
    exact ⟨_, hr.symm⟩

/-- C17 at `demo_stream` on `demo_db`, lenient. -/
theorem csv_import_transaction_scope_witness :
    demo_db.handle = true
      ∧ (((db_begin demo_db).1 = false →
          (csv_import_contacts zeroLib demo_db demo_stream false false).db.log
              = demo_db.log ++ [SinkCall.begin_]
            ∧ (csv_import_contacts zeroLib demo_db demo_stream false false).in_ = demo_stream
            ∧ (csv_import_contacts zeroLib demo_db demo_stream false false).ret = 0)
        ∧ ((db_begin demo_db).1 = true →
          ((csv_import_contacts zeroLib demo_db demo_stream false false).ret = 1
              ∧ (csv_import_contacts zeroLib demo_db demo_stream false false).in_ = []
              ∧ (csv_import_contacts zeroLib demo_db demo_stream false false).db.log
                = demo_db.log ++ [SinkCall.begin_] ++ add_calls zeroLib (data_records demo_stream)
                  ++ [SinkCall.commit])
            ∨ ((csv_import_contacts zeroLib demo_db demo_stream false false).ret = 0
              ∧ (csv_import_contacts zeroLib demo_db demo_stream false false).in_ = []
              ∧ (csv_import_contacts zeroLib demo_db demo_stream false false).db.log
                = demo_db.log ++ [SinkCall.begin_] ++ add_calls zeroLib (data_records demo_stream)
                  ++ [SinkCall.commit, SinkCall.rollback])
            ∨ (false = true
              ∧ (csv_import_contacts zeroLib demo_db demo_stream false false).ret = 0
              ∧ ∃ pre r post, data_records demo_stream = pre ++ r :: post
                ∧ (∀ b ∈ record_outcomes zeroLib false pre (db_begin demo_db).2, b = true)
                ∧ record_passes zeroLib false r (sink_feed zeroLib false pre (db_begin demo_db).2)
                    = false
                ∧ (csv_import_contacts zeroLib demo_db demo_stream false false).in_ = r.rest
                ∧ (csv_import_contacts zeroLib demo_db demo_stream false false).db.log
                  = demo_db.log ++ [SinkCall.begin_] ++ add_calls zeroLib (pre ++ [r])
                    ++ [SinkCall.rollback]))
        ∧ (∀ recs, ∀ c ∈ add_calls zeroLib recs, ∃ x, c = SinkCall.add x)) :=
  ⟨rfl, csv_import_transaction_scope zeroLib demo_db demo_stream false rfl⟩

/-! ## Records of six fields with a name, on a store that meets no fault -/

/-- On an open store that meets no fault, records of 6 fields with a non-empty
name all pass, and leave the store with their rows and their `contacts_add`
calls appended. -/
theorem sink_feed_good (L : FloatLib) :
    ∀ (recs : List ReadResult) (db : Db), db.handle = true → db.faults = [] →
      (∀ r ∈ recs, r.count = 6 ∧ cstr (r.fields.getD 0 []) ≠ []) →
      (∀ b ∈ record_outcomes L false recs db, b = true)
        ∧ sink_feed L false recs db
          = { db with
              rows := db.rows ++ recs.map (fun r => row_of_contact (contact_of_fields L r.fields)),
              log := db.log ++ recs.map (fun r => SinkCall.add (contact_of_fields L r.fields)) } := by
  intro recs
  induction recs with
  | nil =>
    intro db _ _ _
    refine ⟨by simp [record_outcomes], ?_⟩
    cases db
    simp [sink_feed]
  | cons r rs ih =>
    intro db hh hf hgood
    obtain ⟨h6, hname⟩ := hgood r (List.mem_cons_self _ _)
    have hadd := contacts_add_ok db (contact_of_fields L r.fields) hh hf
      (contact_name_ne_nil L _ hname)
    have hlt : ¬ r.count < 6 := by omega
    have hstep : sink_step L false r db
        = { db with rows := db.rows ++ [row_of_contact (contact_of_fields L r.fields)],
                    log := db.log ++ [SinkCall.add (contact_of_fields L r.fields)] } := by
      simp [sink_step, hlt, hadd]
    have hpass : record_passes L false r db = true := by
      simp [record_passes, hlt, hadd]
    obtain ⟨i1, i2⟩ := ih (sink_step L false r db) (by rw [hstep]; exact hh)
      (by rw [hstep]; exact hf) (fun x hx => hgood x (List.mem_cons_of_mem _ hx))
    constructor
    · intro b hb
      simp only [record_outcomes, List.mem_cons] at hb
      rcases hb with rfl | hb
      · exact hpass
      · exact i1 b hb
    · simp only [sink_feed]
      rw [i2, hstep]
      simp

/-- A committing call on an open store outside any transaction that meets no
fault, for a stream whose records after the header all have 6 fields and a
non-empty name: in strict and in lenient mode it returns 1 with every record
imported, none failed, and the converted records appended to the table. -/
theorem csv_import_all_good (L : FloatLib) (db : Db) (s : Bytes) (strict : Bool)
    (hh : db.handle = true) (ht : db.txn = none) (hf : db.faults = [])
    (hgood : ∀ r ∈ data_records s, r.count = 6 ∧ cstr (r.fields.getD 0 []) ≠ []) :
    (csv_import_contacts L db s strict false).ret = 1
      ∧ (csv_import_contacts L db s strict false).counts = some ((data_records s).length, 0)
      ∧ (csv_import_contacts L db s strict false).db.rows
        = db.rows ++ (data_records s).map
            (fun r => row_of_contact (contact_of_fields L r.fields)) := by
  have hbegin := db_begin_ok db hh ht hf
  have hb1 : (db_begin db).1 = true := by rw [hbegin]
  have hstart : import_start db false = (db_begin db).2 := rfl
  obtain ⟨g1, g2⟩ := sink_feed_good L (data_records s) (db_begin db).2
    (by rw [hbegin]; exact hh) (by rw [hbegin]; exact hf) hgood
  rw [csv_import_to_end L db s strict false hh (fun _ => hb1) (fun _ => by rw [hstart]; exact g1)]
  rw [hstart]
  have hcount : (record_outcomes L false (data_records s) (db_begin db).2).count true
      = (data_records s).length := by
    rw [← record_outcomes_length L false (data_records s) (db_begin db).2]
    exact List.count_eq_length.mpr (fun b hb => (g1 b hb).symm)
  have hcount0 : (record_outcomes L false (data_records s) (db_begin db).2).count false = 0 := by
    rw [List.count_eq_zero]
    intro hmem
    exact absurd (g1 false hmem) (by decide)
  have hcommit := db_commit_ok (sink_feed L false (data_records s) (db_begin db).2) db.rows
    (by rw [g2, hbegin]; exact hh) (by rw [g2, hbegin]) (by rw [g2, hbegin]; exact hf)
  have hc1 : (db_commit (sink_feed L false (data_records s) (db_begin db).2)).1 = true := by
    rw [hcommit]
  simp only [import_finish, Bool.false_eq_true, if_false, hc1, Bool.true_eq_false, hcount,
    hcount0, true_and, (db_commit_fields _).2]
  rw [g2, hbegin]

/-! ## C19: overlength fields are truncated, never rejected -/

theorem cstr_take (f : Bytes) (n : Nat) : cstr ((cstr f).take n) = (cstr f).take n :=
  cstr_of_nul_free _ (fun b hb => cstr_nul_free f b (List.mem_of_mem_take hb))

/-- The row stored for a record: each text field cut to the capacity of its
`Contact` member less one. -/
theorem row_of_fields (L : FloatLib) (fields : List Bytes) :
    row_of_contact (contact_of_fields L fields)
      = ⟨some ((cstr (fields.getD 0 [])).take 199), some ((cstr (fields.getD 1 [])).take 49),
          some ((cstr (fields.getD 2 [])).take 199), some ((cstr (fields.getD 3 [])).take 199),
          (contact_of_fields L fields).due_amount, some ((cstr (fields.getD 5 [])).take 49)⟩ := by
  simp only [row_of_contact, contact_of_fields, snprintf_s, cstr_take]

/-- C19: on an open store outside any transaction that meets no fault, for a
stream whose records after the header all have 6 fields and a non-empty name,
whatever the lengths of the fields: the committing call, strict or lenient,
returns 1 with every record imported and none failed, and the row stored for
each record holds its name, address and e-mail cut to their first 199 bytes
and its phone and due date cut to their first 49 bytes; a field shorter than
the capacity of its member is copied whole. -/
theorem csv_import_truncates (L : FloatLib) (db : Db) (s : Bytes) (strict : Bool)
    (hh : db.handle = true) (ht : db.txn = none) (hf : db.faults = [])
    (hgood : ∀ r ∈ data_records s, r.count = 6 ∧ cstr (r.fields.getD 0 []) ≠ []) :
    (csv_import_contacts L db s strict false).ret = 1
      ∧ (csv_import_contacts L db s strict false).counts = some ((data_records s).length, 0)
      ∧ (csv_import_contacts L db s strict false).db.rows
        = db.rows ++ (data_records s).map (fun r =>
            (⟨some ((cstr (r.fields.getD 0 [])).take 199),
              some ((cstr (r.fields.getD 1 [])).take 49),
              some ((cstr (r.fields.getD 2 [])).take 199),
              some ((cstr (r.fields.getD 3 [])).take 199),
              (contact_of_fields L r.fields).due_amount,
              some ((cstr (r.fields.getD 5 [])).take 49)⟩ : Row))
      ∧ (∀ (f : Bytes) (size : Nat), (cstr f).length < size → snprintf_s size f = cstr f) := by
  obtain ⟨a1, a2, a3⟩ := csv_import_all_good L db s strict hh ht hf hgood
  refine ⟨a1, a2, ?_, ?_⟩
  · rw [a3]
    congr 1
    exact List.map_congr_left (fun r _ => row_of_fields L r.fields)
  · intro f size hlen
    unfold snprintf_s
    exact List.take_of_length_le (by omega)

/-- C19 at `demo_long_stream`, strict, into an empty store: the 55-byte phone
field is stored cut to 49 bytes. -/
theorem csv_import_truncates_witness :
    ((healthy_db []).handle = true ∧ (healthy_db []).txn = none ∧ (healthy_db []).faults = []
        ∧ ∀ r ∈ data_records demo_long_stream, r.count = 6 ∧ cstr (r.fields.getD 0 []) ≠ [])
      ∧ ((csv_import_contacts zeroLib (healthy_db []) demo_long_stream true false).ret = 1
        ∧ (csv_import_contacts zeroLib (healthy_db []) demo_long_stream true false).counts
          = some ((data_records demo_long_stream).length, 0)
        ∧ (csv_import_contacts zeroLib (healthy_db []) demo_long_stream true false).db.rows
          = (healthy_db []).rows ++ (data_records demo_long_stream).map (fun r =>
              (⟨some ((cstr (r.fields.getD 0 [])).take 199),
                some ((cstr (r.fields.getD 1 [])).take 49),
                some ((cstr (r.fields.getD 2 [])).take 199),
                some ((cstr (r.fields.getD 3 [])).take 199),
                (contact_of_fields zeroLib r.fields).due_amount,
                some ((cstr (r.fields.getD 5 [])).take 49)⟩ : Row))
        ∧ (∀ (f : Bytes) (size : Nat), (cstr f).length < size → snprintf_s size f = cstr f)) :=
  ⟨⟨rfl, rfl, rfl, by decide⟩,
    csv_import_truncates zeroLib (healthy_db []) demo_long_stream true rfl rfl rfl (by decide)⟩

/-! ## C20: an amount that does not parse -/

theorem sqlite_attempt_log_irrelevant (db : Db) (l : List SinkCall) :
    (sqlite_attempt { db with log := l }).1 = (sqlite_attempt db).1 := by
  unfold sqlite_attempt
  cases db.faults <;> rfl

/-- What `contacts_add` answers depends on the contact through its name only. -/
theorem contacts_add_answer (db : Db) (c c' : Contact) (h : c'.name = c.name) :
    (contacts_add db c').1 = (contacts_add db c).1 := by
  simp only [contacts_add, h]
  rw [sqlite_attempt_log_irrelevant db (db.log ++ [SinkCall.add c']),
    sqlite_attempt_log_irrelevant db (db.log ++ [SinkCall.add c])]
  split_ifs <;> rfl

/-- C20: a record whose amount text `util_parse_double` rejects over
`[-1e12, 1e12]` (no conversion as for an empty or non-numeric text, bytes left
after the number, `errno` set, or a value outside the range) is converted with
`due_amount = 0`; two records that differ in their amount text only get the
same answer in the loop, on any store and in any mode, and their contacts
differ in `due_amount` only.  So, on an open store outside any transaction
that meets no fault, for a stream whose records after the header all have 6
fields and a non-empty name, whatever their amount texts, the committing call,
strict or lenient, returns 1 with every record imported and none failed. -/
theorem csv_import_amount_default (L : FloatLib) (db : Db) (s : Bytes) (strict : Bool)
    (hh : db.handle = true) (ht : db.txn = none) (hf : db.faults = [])
    (hgood : ∀ r ∈ data_records s, r.count = 6 ∧ cstr (r.fields.getD 0 []) ≠ []) :
    ((csv_import_contacts L db s strict false).ret = 1
        ∧ (csv_import_contacts L db s strict false).counts = some ((data_records s).length, 0)
        ∧ (csv_import_contacts L db s strict false).db.rows
          = db.rows ++ (data_records s).map
              (fun r => row_of_contact (contact_of_fields L r.fields)))
      ∧ (∀ fields : List Bytes,
          util_parse_double L (fields.getD 4 [48]) DBL_NEG_1E12 DBL_1E12 = none →
          (contact_of_fields L fields).due_amount = DBL_ZERO
            ∧ (row_of_contact (contact_of_fields L fields)).due_amount = DBL_ZERO)
      ∧ (∀ (dry_run : Bool) (r r' : ReadResult) (db' : Db), r'.count = r.count →
          (∀ k, k ≠ 4 → r'.fields.getD k [] = r.fields.getD k []) →
          record_passes L dry_run r' db' = record_passes L dry_run r db'
            ∧ contact_of_fields L r'.fields
              = { contact_of_fields L r.fields with
                  due_amount := (contact_of_fields L r'.fields).due_amount })
      ∧ (∀ (t : Bytes) (min max : Double),
          ((L.strtod (cstr t)).2.1 = 0 ∨ (cstr t).getD (L.strtod (cstr t)).2.1 0 ≠ 0
            ∨ (L.strtod (cstr t)).2.2 = true ∨ L.lt (L.strtod (cstr t)).1 min = true
            ∨ L.lt max (L.strtod (cstr t)).1 = true) →
          util_parse_double L t min max = none) := by
  refine ⟨csv_import_all_good L db s strict hh ht hf hgood, ?_, ?_, ?_⟩
  · intro fields hrej
    have : (contact_of_fields L fields).due_amount = DBL_ZERO := by
      simp only [contact_of_fields, hrej]
    exact ⟨this, this⟩
  · intro dry_run r r' db' hcount hsame
    have hc : contact_of_fields L r'.fields
        = { contact_of_fields L r.fields with
            due_amount := (contact_of_fields L r'.fields).due_amount } := by
      simp only [contact_of_fields, hsame 0 (by decide), hsame 1 (by decide),
        hsame 2 (by decide), hsame 3 (by decide), hsame 5 (by decide)]
    refine ⟨?_, hc⟩
    have hname : (contact_of_fields L r'.fields).name = (contact_of_fields L r.fields).name := by
      rw [hc]
    simp only [record_passes, hcount, contacts_add_answer db' _ _ hname]
  · intro t min max hcond
    unfold util_parse_double
    rcases hcond with h | h | h | h | h
    · rw [if_pos (Or.inr (Or.inl h))]
    · rw [if_pos (Or.inr (Or.inr h))]
    · rw [if_pos (Or.inl h)]
    · by_cases h1 : (L.strtod (cstr t)).2.2 = true ∨ (L.strtod (cstr t)).2.1 = 0
          ∨ (cstr t).getD (L.strtod (cstr t)).2.1 0 ≠ 0
      · rw [if_pos h1]
      · rw [if_neg h1, if_pos (Or.inl h)]
    · by_cases h1 : (L.strtod (cstr t)).2.2 = true ∨ (L.strtod (cstr t)).2.1 = 0
          ∨ (cstr t).getD (L.strtod (cstr t)).2.1 0 ≠ 0
      · rw [if_pos h1]
      · rw [if_neg h1, if_pos (Or.inr h)]

/-- C20 at `demo_good_stream` on `demo_db`, strict: the amount texts `x` and
the empty text are both rejected, and both records are imported. -/
theorem csv_import_amount_default_witness :
    (demo_db.handle = true ∧ demo_db.txn = none ∧ demo_db.faults = []
        ∧ ∀ r ∈ data_records demo_good_stream, r.count = 6 ∧ cstr (r.fields.getD 0 []) ≠ [])
      ∧ (((csv_import_contacts zeroLib demo_db demo_good_stream true false).ret = 1
          ∧ (csv_import_contacts zeroLib demo_db demo_good_stream true false).counts
            = some ((data_records demo_good_stream).length, 0)
          ∧ (csv_import_contacts zeroLib demo_db demo_good_stream true false).db.rows
            = demo_db.rows ++ (data_records demo_good_stream).map
                (fun r => row_of_contact (contact_of_fields zeroLib r.fields)))
        ∧ (∀ fields : List Bytes,
            util_parse_double zeroLib (fields.getD 4 [48]) DBL_NEG_1E12 DBL_1E12 = none →
            (contact_of_fields zeroLib fields).due_amount = DBL_ZERO
              ∧ (row_of_contact (contact_of_fields zeroLib fields)).due_amount = DBL_ZERO)
        ∧ (∀ (dry_run : Bool) (r r' : ReadResult) (db' : Db), r'.count = r.count →
            (∀ k, k ≠ 4 → r'.fields.getD k [] = r.fields.getD k []) →
            record_passes zeroLib dry_run r' db' = record_passes zeroLib dry_run r db'
              ∧ contact_of_fields zeroLib r'.fields
                = { contact_of_fields zeroLib r.fields with
                    due_amount := (contact_of_fields zeroLib r'.fields).due_amount })
        ∧ (∀ (t : Bytes) (min max : Double),
            ((zeroLib.strtod (cstr t)).2.1 = 0
              ∨ (cstr t).getD (zeroLib.strtod (cstr t)).2.1 0 ≠ 0
              ∨ (zeroLib.strtod (cstr t)).2.2 = true
              ∨ zeroLib.lt (zeroLib.strtod (cstr t)).1 min = true
              ∨ zeroLib.lt max (zeroLib.strtod (cstr t)).1 = true) →
            util_parse_double zeroLib t min max = none)) :=
  ⟨⟨rfl, rfl, rfl, by decide⟩,
    csv_import_amount_default zeroLib demo_db demo_good_stream true rfl rfl rfl (by decide)⟩

/-! ## Termination and progress of the reader when no allocation fails -/

/-- What the loop leaves unread is a tail of the stream it was given. -/
theorem read_loop_rest_suffix (fc : Nat) :
    ∀ (n : Nat) (s : Bytes) (fields : List Bytes) (q : Bool) (buf : Bytes), s.length ≤ n →
      (read_loop fc s fields q buf).rest <:+ s := by
  intro n
  induction n with
  | zero =>
    intro s fields q buf hn
    have : s = [] := List.length_eq_zero.mp (by omega)
    subst this
    simp [read_loop_nil]
  | succ n ih =>
    intro s fields q buf hn
    cases s with
    | nil => simp [read_loop_nil]
    | cons c rest =>
      have hrest : rest.length ≤ n := by simpa using hn
      have h1 := fun fields q buf =>
        (ih rest fields q buf hrest).trans (List.suffix_cons c rest)
      rw [read_loop_cons]
      split_ifs
      · exact List.suffix_cons c rest
      · exact List.suffix_cons c rest
      · cases rest with
        | nil => exact List.suffix_cons c []
        | cons next rest' =>
          simp only []
          split_ifs
          · exact List.suffix_cons c _
          · exact (List.suffix_cons next rest').trans (List.suffix_cons c _)
      · exact h1 _ _ _
      · cases rest with
        | nil => simp [read_loop_nil]
        | cons next rest' =>
          simp only []
          have hrest' : rest'.length ≤ n := by simp at hrest; omega
          split_ifs
          · exact (ih rest' _ _ _ hrest').trans
              ((List.suffix_cons next rest').trans (List.suffix_cons c _))
          · exact h1 _ _ _
      · exact h1 _ _ _
      · exact h1 _ _ _

/-- A stream yields at most as many records as it has bytes. -/
theorem csv_read_all_length_le : ∀ (n : Nat) (s : Bytes), s.length ≤ n →
    (csv_read_all s).length ≤ s.length := by
  intro n
  induction n with
  | zero =>
    intro s hs
    have : s = [] := List.length_eq_zero.mp (by omega)
    subst this
    decide
  | succ n ih =>
    intro s hs
    rw [csv_read_all_unfold]
    by_cases hc : (csv_read_record s 6).count = 0
    · simp [hc]
    · have hp := csv_read_record_progress s hc
      have := ih (csv_read_record s 6).rest (by omega)
      simp only [hc, if_false, List.length_cons]
      omega

/-- The reader when no allocation fails: `csv_read_record` is a total function
of the stream (its loop takes
one step per byte read), and for every stream: what a call leaves unread is a
tail of what it found; a call that returns a non-zero count leaves strictly
less than it found (at least one byte consumed, the pushed-back byte counted
as unread); a call that returns 0 leaves the stream exhausted; so the loop of
`csv_import_contacts` reaches its end, from any values of its locals, with one
turn per byte of the stream and one more (and more fuel changes nothing), and
the records read are a list of at most as many records as the stream has
bytes. -/
theorem csv_reader_terminates (L : FloatLib) (strict dry_run : Bool) (s : Bytes) :
    (csv_read_record s 6).rest <:+ s
      ∧ ((csv_read_record s 6).count ≠ 0 → (csv_read_record s 6).rest.length < s.length)
      ∧ ((csv_read_record s 6).count = 0 → (csv_read_record s 6).rest = [])
      ∧ (∀ (header_read : Bool) (imported failed : Nat) (db : Db),
          ∃ lo, import_loop L strict dry_run (s.length + 1) s header_read imported failed db
              = some lo
            ∧ ∀ n, s.length < n →
                import_loop L strict dry_run n s header_read imported failed db = some lo)
      ∧ (csv_read_all s).length ≤ s.length
      ∧ (∀ n, s.length < n → csv_records n s = csv_read_all s) := by
  refine ⟨?_, csv_read_record_progress s, csv_read_record_zero_rest s, ?_,
    csv_read_all_length_le s.length s le_rfl, ?_⟩
  · rw [csv_read_record_rest s 6 (by decide)]
    exact read_loop_rest_suffix 6 s.length s [] false [] le_rfl
  · intro hr i f db
    obtain ⟨lo, hlo⟩ := import_loop_total L strict dry_run (s.length + 1) s hr i f db
      (Nat.lt_succ_self _)
    refine ⟨lo, hlo, fun n hn => ?_⟩
    rw [import_loop_fuel L strict dry_run n (s.length + 1) s hr i f db hn (Nat.lt_succ_self _)]
    exact hlo
  · intro n hn
    exact csv_records_fuel n (s.length + 1) s hn (Nat.lt_succ_self _)

/-! ## C27: a strict success means a clean file -/

/-- Records that all pass have at least 6 fields each. -/
theorem record_outcomes_all_true (L : FloatLib) (dry_run : Bool) :
    ∀ (recs : List ReadResult) (db : Db),
      (∀ b ∈ record_outcomes L dry_run recs db, b = true) → ∀ r ∈ recs, ¬ r.count < 6 := by
  intro recs
  induction recs with
  | nil => intro db _ r hr; simp at hr
  | cons x xs ih =>
    intro db h r hr
    simp only [record_outcomes, List.mem_cons, forall_eq_or_imp] at h
    rcases List.mem_cons.mp hr with rfl | hr
    · intro hlt
      have := h.1
      simp [record_passes, hlt] at this
    · exact ih _ h.2 r hr

/-- Every record after the header has between 1 and 6 fields. -/
theorem data_records_count (s : Bytes) : ∀ r ∈ data_records s, 0 < r.count ∧ r.count ≤ 6 := by
  intro r hr
  exact csv_records_count _ s r (List.mem_of_mem_tail hr)

/-- C27: when `csv_import_contacts` returns 1 with `strict = 1`, in a dry run or
a committing run, the counts it stores are failed = 0 and imported = the number
of records the reader yields after the header; each of these records has 6
fields. -/
theorem csv_import_strict_clean (L : FloatLib) (db : Db) (s : Bytes) (dry_run : Bool)
    (h : (csv_import_contacts L db s true dry_run).ret = 1) :
    (csv_import_contacts L db s true dry_run).counts = some ((data_records s).length, 0)
      ∧ ∀ r ∈ data_records s, r.count = 6 := by
  have hall := csv_import_strict_ret_one L db s true dry_run h rfl
  have h6 := record_outcomes_all_true L dry_run _ _ hall
  refine ⟨?_, fun r hr => ?_⟩
  · rw [csv_import_ret_one_eq L db s true dry_run h]
    have h1 : (record_outcomes L dry_run (data_records s) (import_start db dry_run)).count true
        = (data_records s).length := by
      rw [← record_outcomes_length L dry_run (data_records s) (import_start db dry_run)]
      exact List.count_eq_length.mpr (fun b hb => (hall b hb).symm)
    have h2 : (record_outcomes L dry_run (data_records s) (import_start db dry_run)).count false
        = 0 := by
      apply List.count_eq_zero.mpr
      intro hb
      exact absurd (hall false hb) (by decide)
    rw [h1, h2]
  · have := h6 r hr
    have := (data_records_count s r hr).2
    omega

/-- C27 at `demo_good_stream` on `demo_db`, committing: imported = 2, failed = 0. -/
theorem csv_import_strict_clean_witness :
    (csv_import_contacts zeroLib demo_db demo_good_stream true false).ret = 1
      ∧ ((csv_import_contacts zeroLib demo_db demo_good_stream true false).counts
          = some ((data_records demo_good_stream).length, 0)
        ∧ ∀ r ∈ data_records demo_good_stream, r.count = 6) :=
  ⟨by decide, csv_import_strict_clean zeroLib demo_db demo_good_stream true (by decide)⟩

/-! ## C28: blank lines -/

/-- The records of a stream are what the reader returns at the starts. -/
theorem csv_records_starts (n : Nat) :
    ∀ (s : Bytes), csv_records n s = (csv_starts n s).map (fun t => csv_read_record t 6) := by
  induction n with
  | zero => intro s; rfl
  | succ n ih =>
    intro s
    by_cases hc : (csv_read_record s 6).count = 0
    · simp [csv_records, csv_starts, hc]
    · simp [csv_records, csv_starts, hc, ih]

/-- Any fuel above the length of the stream lists the same starts. -/
theorem csv_starts_fuel :
    ∀ (n m : Nat) (s : Bytes), s.length < n → s.length < m →
      csv_starts n s = csv_starts m s := by
  intro n
  induction n with
  | zero => intro m s h; omega
  | succ n ih =>
    intro m s hn hm
    cases m with
    | zero => omega
    | succ m =>
      by_cases hc : (csv_read_record s 6).count = 0
      · simp only [csv_starts, hc, if_true]
      · have hp := csv_read_record_progress s hc
        simp only [csv_starts, hc, if_false]
        rw [ih m _ (by omega) (by omega)]

/-- An empty line ended by `\n` is a record of two empty fields. -/
theorem csv_read_blank_lf (t : Bytes) :
    csv_read_record (10 :: t) 6 = ⟨2, [[], []], t⟩ := by
  rw [csv_read_record_of_loop _ _ _ _ _ (read_loop_lf 6 t [] [] (by simp))]
  simp

/-- An empty line ended by `\r\n` is a record of two empty fields. -/
theorem csv_read_blank_crlf (t : Bytes) :
    csv_read_record (13 :: 10 :: t) 6 = ⟨2, [[], []], t⟩ := by
  have h : read_loop 6 (13 :: 10 :: t) [] false [] = ⟨.cr, [[]], [], t⟩ := by
    rw [read_loop_cons]; simp
  rw [csv_read_record_of_loop _ _ _ _ _ h]
  simp

/-- The record read at a stream that begins with an empty line. -/
theorem csv_read_starts_blank (s : Bytes) (h : starts_blank s = true) :
    (csv_read_record s 6).count = 2 ∧ (csv_read_record s 6).fields = [[], []] := by
  match s, h with
  | 10 :: t, _ => rw [csv_read_blank_lf]; exact ⟨rfl, rfl⟩
  | 13 :: 10 :: t, _ => rw [csv_read_blank_crlf]; exact ⟨rfl, rfl⟩

/-- Each blank start among the starts of a run of records is a record that
does not pass. -/
theorem blank_starts_fail (L : FloatLib) (dry_run : Bool) :
    ∀ (starts : List Bytes) (db : Db),
      starts.countP starts_blank
        ≤ (record_outcomes L dry_run (starts.map (fun t => csv_read_record t 6)) db).count
            false := by
  intro starts
  induction starts with
  | nil => intro db; simp
  | cons t ts ih =>
    intro db
    simp only [List.map_cons, record_outcomes]
    by_cases hb : starts_blank t = true
    · have h2 := (csv_read_starts_blank t hb).1
      have hp : record_passes L dry_run (csv_read_record t 6) db = false := by
        simp [record_passes, h2]
      rw [List.countP_cons_of_pos _ _ hb, hp, List.count_cons_self]
      exact Nat.succ_le_succ (ih _)
    · rw [List.countP_cons_of_neg _ _ hb]
      exact le_trans (ih _) (List.count_le_count_cons _ _ _)

/-- The records after the header are what the reader returns at the starts
after the first. -/
theorem data_records_starts (s : Bytes) :
    data_records s
      = ((csv_starts (s.length + 1) s).tail).map (fun t => csv_read_record t 6) := by
  unfold data_records csv_read_all
  rw [csv_records_starts, List.map_tail]

/-- Each empty line after the header is a record that does not pass. -/
theorem blank_lines_le_failed (L : FloatLib) (dry_run : Bool) (s : Bytes) (db : Db) :
    blank_lines s ≤ (record_outcomes L dry_run (data_records s) db).count false := by
  rw [data_records_starts]
  exact blank_starts_fail L dry_run _ db


/-- The starts of a stream: none when the reader returns 0, else the stream
itself followed by the starts of what the first call left unread. -/
theorem csv_starts_unfold (s : Bytes) :
    csv_starts (s.length + 1) s =
      if (csv_read_record s 6).count = 0 then []
      else s :: csv_starts ((csv_read_record s 6).rest.length + 1) (csv_read_record s 6).rest := by
  by_cases hc : (csv_read_record s 6).count = 0
  · simp only [csv_starts, hc, if_true]
  · have hp := csv_read_record_progress s hc
    have h1 : csv_starts (s.length + 1) s
        = s :: csv_starts s.length (csv_read_record s 6).rest := by
      simp only [csv_starts, hc, if_false]
    rw [h1, if_neg hc,
      csv_starts_fuel s.length ((csv_read_record s 6).rest.length + 1) _ hp (by omega)]

/-- A line at whose `\n` the reader ends a record begins with an empty line
only when it is empty. -/
theorem is_line_starts_blank (p t : Bytes) (hp : is_line p) :
    starts_blank (p ++ 10 :: t) = decide (p = [])
      ∧ starts_blank (p ++ 13 :: 10 :: t) = decide (p = []) := by
  cases p with
  | nil => simp [starts_blank]
  | cons c p' =>
    have hne : decide (c :: p' = []) = false := by simp
    rw [hne]
    by_cases h10 : c = 10
    · subst h10
      have := hp.2
      rw [List.cons_append, read_loop_lf 6 _ [] [] (by simp)] at this
      simp at this
    · by_cases h13 : c = 13
      · subst h13
        cases p' with
        | nil =>
          have := hp.1
          simp [read_loop_cons] at this
        | cons d p'' =>
          by_cases hd : d = 10
          · subst hd
            have := hp.1
            simp [read_loop_cons] at this
          · constructor
            · simp only [List.cons_append]
              unfold starts_blank
              split <;> simp_all
            · simp only [List.cons_append]
              unfold starts_blank
              split <;> simp_all
      · constructor
        · simp only [List.cons_append]
          unfold starts_blank
          split <;> simp_all
        · simp only [List.cons_append]
          unfold starts_blank
          split <;> simp_all

/-- The starts of a stream whose first line ends a record at its `\n`. -/
theorem csv_starts_lf_line (p t : Bytes) (hp : is_line p) :
    csv_starts ((p ++ 10 :: t).length + 1) (p ++ 10 :: t)
      = (p ++ 10 :: t) :: csv_starts (t.length + 1) t := by
  cases hrl : read_loop 6 (p ++ [10]) [] false [] with
  | mk e F B r =>
    have hexit : e = LoopExit.lf := by
      have := hp.1; rw [hrl] at this; exact this
    have hrest : r = [] := by
      have := hp.2; rw [hrl] at this; exact this
    subst hexit hrest
    obtain ⟨hF, hlf⟩ := read_loop_lf_local 6 p.length p [] false [] F B t le_rfl hrl
    have hrec := csv_read_record_of_loop _ _ _ _ _ hlf
    simp only [hF, or_true, if_true] at hrec
    rw [csv_starts_unfold, hrec]
    split_ifs with h1 h2 h3
    · simp only [] at h2; omega
    · rfl
    · simp only [] at h3; omega
    · rfl

/-- The starts of a stream whose first line ends a record at its `\r\n`. -/
theorem csv_starts_crlf_line (p t : Bytes) (hp : is_line p) :
    csv_starts ((p ++ 13 :: 10 :: t).length + 1) (p ++ 13 :: 10 :: t)
      = (p ++ 13 :: 10 :: t) :: csv_starts (t.length + 1) t := by
  cases hrl : read_loop 6 (p ++ [10]) [] false [] with
  | mk e F B r =>
    have hexit : e = LoopExit.lf := by
      have := hp.1; rw [hrl] at this; exact this
    have hrest : r = [] := by
      have := hp.2; rw [hrl] at this; exact this
    subst hexit hrest
    obtain ⟨hF, _⟩ := read_loop_lf_local 6 p.length p [] false [] F B t le_rfl hrl
    have hcr := read_loop_crlf_local 6 p.length p [] false [] F B t le_rfl hrl
    have hrec := csv_read_record_of_loop _ _ _ _ _ hcr
    simp only [hF, or_true, if_true] at hrec
    rw [csv_starts_unfold, hrec]
    split_ifs with h1 h2 h3
    · simp only [] at h2; omega
    · rfl
    · simp only [] at h3; omega
    · rfl

/-- In a stream of lines the blank starts are the empty lines. -/
theorem blank_starts_lf (lines : List Bytes) (last : Bytes) (h : ∀ p ∈ lines, is_line p) :
    (csv_starts ((lf_stream lines last).length + 1) (lf_stream lines last)).countP starts_blank
      = lines.count [] + (csv_starts (last.length + 1) last).countP starts_blank := by
  induction lines with
  | nil => simp [lf_stream]
  | cons p ls ih =>
    have hp : is_line p := h p (List.mem_cons_self _ _)
    have hls : ∀ p ∈ ls, is_line p := fun p' hp' => h p' (List.mem_cons_of_mem _ hp')
    have e1 : lf_stream (p :: ls) last = p ++ 10 :: lf_stream ls last := by
      simp [lf_stream]
    rw [e1, csv_starts_lf_line p _ hp, List.countP_cons, ih hls,
      (is_line_starts_blank p _ hp).1, List.count_cons]
    by_cases hnil : p = []
    · subst hnil; simp; omega
    · have : ¬ ([] : Bytes) = p := fun h => hnil h.symm
      simp [hnil, this]

/-- The same for lines ended by `\r\n`. -/
theorem blank_starts_crlf (lines : List Bytes) (last : Bytes) (h : ∀ p ∈ lines, is_line p) :
    (csv_starts ((crlf_stream lines last).length + 1) (crlf_stream lines last)).countP
        starts_blank
      = lines.count [] + (csv_starts (last.length + 1) last).countP starts_blank := by
  induction lines with
  | nil => simp [crlf_stream]
  | cons p ls ih =>
    have hp : is_line p := h p (List.mem_cons_self _ _)
    have hls : ∀ p ∈ ls, is_line p := fun p' hp' => h p' (List.mem_cons_of_mem _ hp')
    have e1 : crlf_stream (p :: ls) last = p ++ 13 :: 10 :: crlf_stream ls last := by
      simp [crlf_stream]
    rw [e1, csv_starts_crlf_line p _ hp, List.countP_cons, ih hls,
      (is_line_starts_blank p _ hp).2, List.count_cons]
    by_cases hnil : p = []
    · subst hnil; simp; omega
    · have : ¬ ([] : Bytes) = p := fun h => hnil h.symm
      simp [hnil, this]

/-- The blank lines of a stream of lines, the first being the header. -/
theorem blank_lines_lf (hdr : Bytes) (lines : List Bytes) (last : Bytes)
    (h : ∀ p ∈ hdr :: lines, is_line p) :
    blank_lines (lf_stream (hdr :: lines) last)
      = lines.count [] + (csv_starts (last.length + 1) last).countP starts_blank := by
  have hp : is_line hdr := h hdr (List.mem_cons_self _ _)
  have hls : ∀ p ∈ lines, is_line p := fun p' hp' => h p' (List.mem_cons_of_mem _ hp')
  have e1 : lf_stream (hdr :: lines) last = hdr ++ 10 :: lf_stream lines last := by
    simp [lf_stream]
  unfold blank_lines
  rw [e1, csv_starts_lf_line hdr _ hp, List.tail_cons, blank_starts_lf lines last hls]

/-- The same for lines ended by `\r\n`. -/
theorem blank_lines_crlf (hdr : Bytes) (lines : List Bytes) (last : Bytes)
    (h : ∀ p ∈ hdr :: lines, is_line p) :
    blank_lines (crlf_stream (hdr :: lines) last)
      = lines.count [] + (csv_starts (last.length + 1) last).countP starts_blank := by
  have hp : is_line hdr := h hdr (List.mem_cons_self _ _)
  have hls : ∀ p ∈ lines, is_line p := fun p' hp' => h p' (List.mem_cons_of_mem _ hp')
  have e1 : crlf_stream (hdr :: lines) last = hdr ++ 13 :: 10 :: crlf_stream lines last := by
    simp [crlf_stream]
  unfold blank_lines
  rw [e1, csv_starts_crlf_line hdr _ hp, List.tail_cons, blank_starts_crlf lines last hls]

/-- A strict call on a stream one of whose records after the header does not
pass returns 0 and stores no counts. -/
theorem csv_import_strict_fails (L : FloatLib) (db : Db) (s : Bytes) (dry_run : Bool)
    (h : false ∈ record_outcomes L dry_run (data_records s) (import_start db dry_run)) :
    (csv_import_contacts L db s true dry_run).ret = 0
      ∧ (csv_import_contacts L db s true dry_run).counts = none := by
  cases hh : db.handle with
  | false => simp [csv_import_contacts, csv_import_from, hh]
  | true =>
    by_cases hb : dry_run = false ∧ (db_begin db).1 = false
    · simp [csv_import_contacts, csv_import_from, hh, hb]
    · have hbegin : dry_run = false → (db_begin db).1 = true := by
        intro hd
        cases hv : (db_begin db).1 with
        | true => rfl
        | false => exact absurd ⟨hd, hv⟩ hb
      obtain ⟨pre, r, post, f1, f2, f3⟩ := first_failing_record L dry_run _ _ h
      rw [csv_import_strict_stop L db s dry_run hh hbegin pre r post f1 f2 f3]
      exact ⟨rfl, rfl⟩

/-- C28: an empty line, `\n` or `\r\n`, is returned by `csv_read_record` as a
record of count 2 with two empty fields, whatever follows it.  So, for every
stream, store and value of `dry_run`: a lenient call that returns 1 reports a
`failed` count of at least the number of empty lines at which the reader is
called after the header; a strict call on a stream with at least one such line
returns 0 and stores no counts.  In a stream of lines that each end a record
(header first), ended by `\n` or by `\r\n`, these are the empty lines after
the header, an empty last line included: `h\nA,1,2,3,x,5\nB,,,,,\n` is imported
clean, and with one more `\n` at its end it gives failed = 1 in lenient mode
and 0 from a strict call. -/
theorem csv_blank_line_is_record :
    (∀ t : Bytes, csv_read_record (10 :: t) 6 = ⟨2, [[], []], t⟩
        ∧ csv_read_record (13 :: 10 :: t) 6 = ⟨2, [[], []], t⟩)
      ∧ (∀ (L : FloatLib) (db : Db) (s : Bytes) (dry_run : Bool),
          (csv_import_contacts L db s false dry_run).ret = 1 →
          ∃ i f, (csv_import_contacts L db s false dry_run).counts = some (i, f)
            ∧ blank_lines s ≤ f)
      ∧ (∀ (L : FloatLib) (db : Db) (s : Bytes) (dry_run : Bool), 0 < blank_lines s →
          (csv_import_contacts L db s true dry_run).ret = 0
            ∧ (csv_import_contacts L db s true dry_run).counts = none)
      ∧ (∀ (hdr : Bytes) (lines : List Bytes), (∀ p ∈ hdr :: lines, is_line p) →
          blank_lines (lf_stream (hdr :: lines) []) = lines.count []
            ∧ blank_lines (crlf_stream (hdr :: lines) []) = lines.count [])
      ∧ ((csv_import_contacts zeroLib demo_db demo_good_stream false false).counts = some (2, 0)
          ∧ (csv_import_contacts zeroLib demo_db demo_good_stream true false).ret = 1
          ∧ blank_lines (demo_good_stream ++ [10]) = 1
          ∧ (csv_import_contacts zeroLib demo_db (demo_good_stream ++ [10]) false false).counts
              = some (2, 1)
          ∧ (csv_import_contacts zeroLib demo_db (demo_good_stream ++ [10]) true false).ret
              = 0) := by
  refine ⟨fun t => ⟨csv_read_blank_lf t, csv_read_blank_crlf t⟩, ?_, ?_, ?_, by decide⟩
  · intro L db s dry_run h
    rw [csv_import_ret_one_eq L db s false dry_run h]
    exact ⟨_, _, rfl, blank_lines_le_failed L dry_run s _⟩
  · intro L db s dry_run hpos
    apply csv_import_strict_fails
    have hle := blank_lines_le_failed L dry_run s (import_start db dry_run)
    exact List.count_pos_iff.mp (by omega)
  · intro hdr lines h
    have h0 : (csv_starts (([] : Bytes).length + 1) []).countP starts_blank = 0 := by decide
    rw [blank_lines_lf hdr lines [] h, blank_lines_crlf hdr lines [] h, h0]
    simp

/-! ## C29: a quote that is never closed -/

/-- Inside quotes, a text whose every `"` is doubled is read into the
accumulator with single `"`, whatever its other bytes are. -/
theorem read_loop_doubled (fc : Nat) (u rest : Bytes) (fields : List Bytes) (buf : Bytes)
    (hf : fields.length < fc) :
    read_loop fc (double_quotes u ++ rest) fields true buf
      = read_loop fc rest fields true (buf ++ u) := by
  induction u generalizing buf with
  | nil => simp [double_quotes]
  | cons c p ih =>
    have hf' : ¬ fc ≤ fields.length := by omega
    have hcons : double_quotes (c :: p)
        = (if c = 34 then [34, 34] else [c]) ++ double_quotes p := by
      simp [double_quotes]
    rw [hcons]
    by_cases hq : c = 34
    · subst hq
      simp only [if_true, List.cons_append, List.nil_append]
      rw [read_loop_cons]
      simp only [hf', Bool.true_eq_false, false_and, if_false, and_self, if_true]
      rw [ih]
      simp
    · simp only [hq, if_false, List.cons_append, List.nil_append]
      rw [read_loop_cons]
      simp only [hf', hq, Bool.true_eq_false, false_and, if_false]
      rw [ih]
      simp

/-- A quote that opens a field and is never closed: the loop runs to the end of
the stream with everything behind the quote in the accumulator. -/
theorem read_loop_unterminated (fc : Nat) (u : Bytes) (fields : List Bytes)
    (hf : fields.length < fc) :
    read_loop fc (34 :: double_quotes u) fields false [] = ⟨.eof, fields, u, []⟩ := by
  rw [read_loop_open fc _ _ hf]
  have := read_loop_doubled fc u [] fields [] hf
  simp only [List.append_nil, List.nil_append] at this
  rw [this, read_loop_nil]

/-- Written fields, each followed by a comma, are stored one after the other. -/
theorem read_loop_written_fields (fc : Nat) (rest : Bytes) :
    ∀ (fs : List Bytes) (fields : List Bytes), fields.length + fs.length ≤ fc →
      read_loop fc ((fs.map (fun f => csv_write_field f ++ [44])).flatten ++ rest) fields false []
        = read_loop fc rest (fields ++ fs.map cstr) false [] := by
  intro fs
  induction fs with
  | nil => intro fields _; simp
  | cons f fs ih =>
    intro fields h
    simp only [List.length_cons] at h
    have e : ((f :: fs).map (fun f => csv_write_field f ++ [44])).flatten ++ rest
        = csv_write_field f ++ 44 :: ((fs.map (fun f => csv_write_field f ++ [44])).flatten
            ++ rest) := by
      simp
    rw [e, read_loop_field_comma fc f _ fields (by omega), ih (fields ++ [cstr f])
      (by simp; omega)]
    simp

/-- C29 as stated fails at the stream `"`: a field opens with a quote that is
never closed, and the call returns 0, no record; after a header line, the
stream `h\n"` yields the header record alone. -/
theorem csv_lone_quote_no_record :
    csv_read_record [34] 6 = ⟨0, [], []⟩
      ∧ csv_read_all [104, 10, 34] = [⟨2, [[104], []], [34]⟩] := by
  decide

/-- C29, amended: if a field opens with `"` while fewer than 6 fields are
stored (the loop is outside quotes with an empty accumulator) and no closing
quote follows, that is every `"` behind it is doubled, then the loop of
`csv_read_record` runs to the end of the stream with every byte behind the
quote in the accumulator, commas, `\r` and `\n` included, a doubled `"` as one
`"`.  When the quote is not the first byte of its record or at least one byte
follows it, the call returns one record whose last field is that text, its
count being the number of fields before it plus one, and leaves the stream
exhausted, so the next call returns 0; the fields before it are taken here as
written by `csv_write_field`, each followed by a comma. -/
theorem csv_read_unterminated_quote (fs : List Bytes) (u : Bytes)
    (hfs : fs.length < 6) (hne : fs ≠ [] ∨ u ≠ []) :
    (∀ (fc : Nat) (fields : List Bytes), fields.length < fc →
        read_loop fc (34 :: double_quotes u) fields false [] = ⟨.eof, fields, u, []⟩)
      ∧ csv_read_record
          ((fs.map (fun f => csv_write_field f ++ [44])).flatten ++ 34 :: double_quotes u) 6
        = ⟨((fs.length + 1 : Nat) : Int), fs.map cstr ++ [u], []⟩
      ∧ (csv_read_record (csv_read_record
          ((fs.map (fun f => csv_write_field f ++ [44])).flatten ++ 34 :: double_quotes u) 6).rest
          6).count = 0 := by
  have hloop : read_loop 6
      ((fs.map (fun f => csv_write_field f ++ [44])).flatten ++ 34 :: double_quotes u)
      [] false [] = ⟨.eof, fs.map cstr, u, []⟩ := by
    rw [read_loop_written_fields 6 _ fs [] (by simp; omega),
      read_loop_unterminated 6 u _ (by simpa using hfs)]
    simp
  have hrec := csv_read_record_of_loop _ _ _ _ _ hloop
  have hpos : 0 < u.length ∨ 0 < fs.length := by
    rcases hne with h | h
    · right; exact List.length_pos.mpr h
    · left; exact List.length_pos.mpr h
  simp only [List.length_map] at hrec
  rw [if_pos hpos, if_pos hfs] at hrec
  refine ⟨fun fc fields hf => read_loop_unterminated fc u fields hf, hrec, ?_⟩
  rw [hrec]
  rfl

/-- C29, amended, at the stream `a,"x,""y\r\nz`: the record `a`, `x,"y\r\nz`. -/
theorem csv_read_unterminated_quote_witness :
    ([[97]] : List Bytes).length < 6
      ∧ (([[97]] : List Bytes) ≠ [] ∨ ([120, 44, 34, 121, 13, 10, 122] : Bytes) ≠ [])
      ∧ ((∀ (fc : Nat) (fields : List Bytes), fields.length < fc →
          read_loop fc (34 :: double_quotes [120, 44, 34, 121, 13, 10, 122]) fields false []
            = ⟨.eof, fields, [120, 44, 34, 121, 13, 10, 122], []⟩)
        ∧ csv_read_record
            (([[97]].map (fun f => csv_write_field f ++ [44])).flatten
              ++ 34 :: double_quotes [120, 44, 34, 121, 13, 10, 122]) 6
          = ⟨((([[97]] : List Bytes).length + 1 : Nat) : Int),
              [[97]].map cstr ++ [[120, 44, 34, 121, 13, 10, 122]], []⟩
        ∧ (csv_read_record (csv_read_record
            (([[97]].map (fun f => csv_write_field f ++ [44])).flatten
              ++ 34 :: double_quotes [120, 44, 34, 121, 13, 10, 122]) 6).rest 6).count = 0) :=
  ⟨by decide, Or.inl (by decide),
    csv_read_unterminated_quote [[97]] [120, 44, 34, 121, 13, 10, 122] (by decide)
      (Or.inl (by decide))⟩

/-! ## C21: what the writer emits -/

/-- The line written for a row is the line the specification describes. -/
theorem csv_write_line_eq (L : FloatLib) (r : Row) :
    csv_write_line L r = spec_line (row_texts L r) := by
  simp [csv_write_line, csv_write_row, spec_line, row_texts, List.intercalate]

/-- The header line, as text. -/
theorem csv_header_text :
    CSV_HEADER = "Name,Phone,Address,Email,DueAmount,DueDate".toList.map Char.toNat ++ [10] := by
  decide

/-- A text shorter than the buffer is left whole by `snprintf`. -/
theorem snprintf_s_whole (size : Nat) (t : Bytes) (h : (cstr t).length < size) :
    snprintf_s size t = cstr t := by
  unfold snprintf_s
  exact List.take_of_length_le (by omega)

/-- C21: on an open store whose query is prepared, `csv_write_contacts` returns
1 and writes exactly: the header line `Name,Phone,Address,Email,DueAmount,DueDate`
and `\n`; then, for each row the query yields, in the order it yields them (the
stored rows, each once), one line made of the row's six texts, each through
`csv_write_field`, joined by `,` and ended by `\n`.  The six texts are name,
phone, address, email, the `"%.2f"` text of the amount as held by the 64-byte
buffer `due_buf` (the whole text whenever it is shorter than 64 bytes), and due
date; a NULL text column is written as the empty string. -/
theorem csv_write_contacts_output (L : FloatLib) (db : Db) (hh : db.handle = true)
    (hq : (sqlite_attempt db).1 = true) :
    (csv_write_contacts L db).1 = 1
      ∧ (csv_write_contacts L db).2.1
        = ("Name,Phone,Address,Email,DueAmount,DueDate".toList.map Char.toNat ++ [10])
          ++ ((select_contacts db).map (fun r => spec_line (row_texts L r))).flatten
      ∧ (select_contacts db).Perm db.rows
      ∧ (∀ r : Row, (cstr (L.fmt2f r.due_amount)).length < 64 →
          (row_texts L r).getD 4 [] = cstr (L.fmt2f r.due_amount))
      ∧ (∀ r : Row, (row_texts L r).length = 6
          ∧ (r.name = none → (row_texts L r).getD 0 [0] = [])
          ∧ (r.phone = none → (row_texts L r).getD 1 [0] = [])
          ∧ (r.address = none → (row_texts L r).getD 2 [0] = [])
          ∧ (r.email = none → (row_texts L r).getD 3 [0] = [])
          ∧ (r.due_date = none → (row_texts L r).getD 5 [0] = [])) := by
  refine ⟨?_, ?_, List.perm_insertionSort _ _, ?_, ?_⟩
  · simp [csv_write_contacts, hh, hq]
  · simp only [csv_write_contacts, hh, Bool.true_eq_false, if_false, hq]
    rw [csv_header_text]
    congr 2
    exact List.map_congr_left (fun r _ => csv_write_line_eq L r)
  · intro r h
    simp [row_texts, snprintf_s_whole 64 _ h]
  · intro r
    refine ⟨rfl, ?_, ?_, ?_, ?_, ?_⟩ <;> intro h <;> simp [row_texts, h]

/-- C21 at `demo_export_db`. -/
theorem csv_write_contacts_output_witness :
    demo_export_db.handle = true ∧ (sqlite_attempt demo_export_db).1 = true
      ∧ ((csv_write_contacts zeroLib demo_export_db).1 = 1
      ∧ (csv_write_contacts zeroLib demo_export_db).2.1
        = ("Name,Phone,Address,Email,DueAmount,DueDate".toList.map Char.toNat ++ [10])
          ++ ((select_contacts demo_export_db).map
              (fun r => spec_line (row_texts zeroLib r))).flatten
      ∧ (select_contacts demo_export_db).Perm demo_export_db.rows
      ∧ (∀ r : Row, (cstr (zeroLib.fmt2f r.due_amount)).length < 64 →
          (row_texts zeroLib r).getD 4 [] = cstr (zeroLib.fmt2f r.due_amount))
      ∧ (∀ r : Row, (row_texts zeroLib r).length = 6
          ∧ (r.name = none → (row_texts zeroLib r).getD 0 [0] = [])
          ∧ (r.phone = none → (row_texts zeroLib r).getD 1 [0] = [])
          ∧ (r.address = none → (row_texts zeroLib r).getD 2 [0] = [])
          ∧ (r.email = none → (row_texts zeroLib r).getD 3 [0] = [])
          ∧ (r.due_date = none → (row_texts zeroLib r).getD 5 [0] = []))) :=
  ⟨rfl, rfl, csv_write_contacts_output zeroLib demo_export_db rfl rfl⟩

/-! ## C26: the bounds of the field array -/

/-- The loop on the array at end of stream. -/
theorem read_loop_mem_nil (fc : Nat) (arr : List (Option Bytes)) (field : Nat) (q : Bool)
    (buf : Bytes) (oob : Bool) :
    read_loop_mem fc [] arr field q buf oob = ⟨.eof, arr, field, buf, [], oob⟩ := rfl

/-- One step of the loop on the array, on a non-empty stream. -/
theorem read_loop_mem_cons (fc : Nat) (c : Byte) (rest : Bytes) (arr : List (Option Bytes))
    (field : Nat) (q : Bool) (buf : Bytes) (oob : Bool) :
    read_loop_mem fc (c :: rest) arr field q buf oob =
      if fc ≤ field then ⟨.limit, arr, field, buf, rest, oob⟩
      else if q = false ∧ (c = 44 ∨ c = 10 ∨ c = 13) then
        if c = 10 then
          ⟨.lf, (store_field arr oob field buf).1, field + 1, [], rest,
            (store_field arr oob field buf).2⟩
        else if c = 13 then
          match rest with
          | [] =>
            ⟨.cr, (store_field arr oob field buf).1, field + 1, [], [],
              (store_field arr oob field buf).2⟩
          | next :: rest' =>
            if next ≠ 10 then
              ⟨.cr, (store_field arr oob field buf).1, field + 1, [], next :: rest',
                (store_field arr oob field buf).2⟩
            else
              ⟨.cr, (store_field arr oob field buf).1, field + 1, [], rest',
                (store_field arr oob field buf).2⟩
        else
          read_loop_mem fc rest (store_field arr oob field buf).1 (field + 1) q []
            (store_field arr oob field buf).2
      else if c = 34 ∧ q = true then
        match rest with
        | [] => read_loop_mem fc [] arr field false buf oob
        | next :: rest' =>
          if next = 34 then read_loop_mem fc rest' arr field q (buf ++ [34]) oob
          else read_loop_mem fc (next :: rest') arr field false buf oob
      else if c = 34 ∧ buf.length = 0 then read_loop_mem fc rest arr field true buf oob
      else read_loop_mem fc rest arr field q (buf ++ [c]) oob := by
  cases rest <;> rfl

/-- The array has `field_count` entries. -/
theorem field_array_length (fc : Nat) (fields : List Bytes) (h : fields.length ≤ fc) :
    (field_array fc fields).length = fc := by
  simp [field_array]; omega

/-- A store at the index `field` of an array that holds `field` fields and
has room for more is inside the array and adds the field. -/
theorem store_field_next (fc : Nat) (fields : List Bytes) (oob : Bool) (buf : Bytes)
    (h : fields.length < fc) :
    store_field (field_array fc fields) oob fields.length buf
      = (field_array fc (fields ++ [buf]), oob) := by
  have hlen : fields.length < (field_array fc fields).length := by
    rw [field_array_length fc fields (by omega)]; exact h
  unfold store_field
  rw [if_pos hlen]
  congr 1
  unfold field_array
  obtain ⟨k, hk⟩ : ∃ k, fc - fields.length = k + 1 := ⟨fc - fields.length - 1, by omega⟩
  have hk' : fc - (fields ++ [buf]).length = k := by simp; omega
  rw [hk, hk', List.replicate_succ]
  have hl : fields.length = (fields.map some).length := by simp
  rw [hl, List.set_append_right _ _ (le_refl _)]
  simp

/-- The loop on the array does what the loop on the list of stored fields
does: the array holds the stored fields in its first entries, NULL behind
them, and no store falls outside it. -/
theorem read_loop_mem_eq (fc : Nat) :
    ∀ (n : Nat) (s : Bytes) (fields : List Bytes) (q : Bool) (buf : Bytes) (oob : Bool),
      s.length ≤ n → fields.length ≤ fc →
      read_loop_mem fc s (field_array fc fields) fields.length q buf oob
        = ⟨(read_loop fc s fields q buf).exit,
            field_array fc (read_loop fc s fields q buf).fields,
            (read_loop fc s fields q buf).fields.length,
            (read_loop fc s fields q buf).buf,
            (read_loop fc s fields q buf).rest, oob⟩ := by
  intro n
  induction n with
  | zero =>
    intro s fields q buf oob hn hf
    have : s = [] := List.length_eq_zero.mp (by omega)
    subst this
    simp [read_loop_nil, read_loop_mem_nil]
  | succ n ih =>
    intro s fields q buf oob hn hf
    cases s with
    | nil => simp [read_loop_nil, read_loop_mem_nil]
    | cons c rest =>
      have hrest : rest.length ≤ n := by simpa using hn
      rw [read_loop_cons, read_loop_mem_cons]
      by_cases hlim : fc ≤ fields.length
      · simp only [hlim, if_true]
      · have hlt : fields.length < fc := by omega
        have hst := store_field_next fc fields oob buf hlt
        have hl : fields.length + 1 = (fields ++ [buf]).length := by simp
        have hf' : (fields ++ [buf]).length ≤ fc := by simp; omega
        simp only [hlim, if_false, hst, hl]
        split_ifs with h2 h3 h4 h5 h6
        · rfl
        · cases rest with
          | nil => rfl
          | cons next rest' => simp only []; split_ifs <;> rfl
        · exact ih rest _ _ _ _ hrest hf'
        · cases rest with
          | nil => simp [read_loop_nil, read_loop_mem_nil]
          | cons next rest' =>
            simp only []
            have hrest' : rest'.length ≤ n := by simp at hrest; omega
            split_ifs
            · exact ih rest' _ _ _ _ hrest' hf
            · exact ih _ _ _ _ _ hrest hf
        · exact ih rest _ _ _ _ hrest hf
        · exact ih rest _ _ _ _ hrest hf

/-- The call on the array against the call on the list of fields: same count,
same unread stream, the array holds the returned fields followed by NULL, and
no store fell outside the array. -/
theorem csv_read_record_mem_eq (s : Bytes) (fc : Nat) (hfc : fc ≠ 0) :
    csv_read_record_mem s fc
      = ⟨(csv_read_record s fc).count, field_array fc (csv_read_record s fc).fields,
          (csv_read_record s fc).rest, false⟩ := by
  have h0 : List.replicate fc (none : Option Bytes) = field_array fc [] := by
    simp [field_array]
  have hsim := read_loop_mem_eq fc s.length s [] false [] false le_rfl (by simp)
  have hle := read_loop_fields_le fc s.length s [] false [] le_rfl (by simp)
  simp only [List.length_nil] at hsim
  unfold csv_read_record_mem csv_read_record
  simp only [hfc, if_false, h0, hsim]
  split_ifs with h1 h2
  · rw [store_field_next fc _ false _ h2]
  · rfl
  · have hnil : (read_loop fc s [] false []).fields = [] :=
      List.length_eq_zero.mp (by omega)
    rw [hnil]

/-- An entry of the array below the number of fields: the field. -/
theorem field_array_lt (fc : Nat) (fields : List Bytes) (i : Nat) (hi : i < fields.length)
    (d : Bytes) : (field_array fc fields)[i]? = some (some (fields.getD i d)) := by
  unfold field_array
  rw [List.getElem?_append_left (by simpa using hi)]
  simp [List.getD_eq_getElem?_getD, List.getElem?_eq_getElem hi]

/-- An entry of the array from the number of fields on: NULL. -/
theorem field_array_ge (fc : Nat) (fields : List Bytes) (i : Nat) (hi : fields.length ≤ i)
    (hfc : i < fc) : (field_array fc fields)[i]? = some none := by
  unfold field_array
  rw [List.getElem?_append_right (by simpa using hi)]
  simp only [List.length_map]
  rw [List.getElem?_replicate]
  have : i - fields.length < fc - fields.length := by omega
  simp [this]

/-- C26: for every stream, `csv_read_record(in, fields, 6)` (allocation
succeeding) makes no store `fields[i]` with `i` outside the array of 6
entries, returns a count `c` with `0 <= c <= 6`, and leaves `fields[0..c-1]`
non-null and `fields[c..5]` NULL; count, unread stream and non-null entries are
those of the reader as the import loop sees it.  So when `c = 6`, the only case
in which `csv_import_contacts` builds a contact (a record of fewer than 6
fields does not pass and leaves the store alone, whatever its fields), each of
`fields[0..5]` it reads is inside the array and non-null. -/
theorem csv_read_record_field_bounds (s : Bytes) :
    (csv_read_record_mem s 6).oob = false
      ∧ 0 ≤ (csv_read_record_mem s 6).count ∧ (csv_read_record_mem s 6).count ≤ 6
      ∧ (csv_read_record_mem s 6).arr.length = 6
      ∧ (∀ i : Nat, i < 6 →
          (((i : Int) < (csv_read_record_mem s 6).count →
              ∃ f, (csv_read_record_mem s 6).arr[i]? = some (some f))
            ∧ ((csv_read_record_mem s 6).count ≤ (i : Int) →
              (csv_read_record_mem s 6).arr[i]? = some none)))
      ∧ (csv_read_record_mem s 6).count = (csv_read_record s 6).count
      ∧ (csv_read_record_mem s 6).rest = (csv_read_record s 6).rest
      ∧ ((csv_read_record s 6).count = 6 → ∀ i : Nat, i < 6 → ∀ d : Bytes,
          (csv_read_record_mem s 6).arr[i]? = some (some ((csv_read_record s 6).fields.getD i d)))
      ∧ (∀ (L : FloatLib) (dry_run : Bool) (db : Db) (r : ReadResult), r.count < 6 →
          record_passes L dry_run r db = false ∧ sink_step L dry_run r db = db) := by
  have hb := csv_read_record_count_bounds s
  have hl := csv_read_record_fields_length s
  have hlen : (csv_read_record s 6).fields.length ≤ 6 := by omega
  rw [csv_read_record_mem_eq s 6 (by decide)]
  refine ⟨rfl, hb.1, hb.2, field_array_length 6 _ hlen, ?_, rfl, rfl, ?_, ?_⟩
  · intro i hi
    constructor
    · intro hlt
      exact ⟨_, field_array_lt 6 _ i (by simp only [] at hlt; omega) []⟩
    · intro hge
      exact field_array_ge 6 _ i (by simp only [] at hge; omega) hi
  · intro h6 i hi d
    exact field_array_lt 6 _ i (by omega) d
  · intro L dry_run db r hr
    simp [record_passes, sink_step, hr]

/-! ## C23: `util_parse_long` -/

/-- The sign is the head of the text it was found in. -/
theorem strtol_sign_prefix (s : Bytes) :
    s = strtol_sign s ++ s.drop (strtol_sign s).length := by
  unfold strtol_sign
  split <;> simp

/-- The sign is `+`, `-` or absent. -/
theorem strtol_sign_cases (s : Bytes) :
    strtol_sign s = [] ∨ strtol_sign s = [43] ∨ strtol_sign s = [45] := by
  unfold strtol_sign
  split <;> simp

/-- A text is its white space, sign, digits, and what `strtol` leaves. -/
theorem strtol_scan_split (s : Bytes) :
    s = (strtol_scan s).1 ++ (strtol_scan s).2.1 ++ (strtol_scan s).2.2
      ++ (((s.dropWhile c_isspace).drop (strtol_sign (s.dropWhile c_isspace)).length).dropWhile
          c_isdigit) := by
  unfold strtol_scan
  simp only []
  rw [List.append_assoc, List.append_assoc, List.takeWhile_append_dropWhile,
    ← strtol_sign_prefix, List.takeWhile_append_dropWhile]

/-- In a text without NUL, reading NUL at an offset means the offset is at or
behind the end. -/
theorem getD_zero_iff (t : Bytes) (h : ∀ b ∈ t, b ≠ 0) (i : Nat) :
    t.getD i 0 = 0 ↔ t.length ≤ i := by
  constructor
  · intro h0
    by_contra hlt
    have hi : i < t.length := by omega
    rw [List.getD_eq_getElem _ _ hi] at h0
    exact h _ (List.getElem_mem hi) h0
  · intro hle
    exact List.getD_eq_default _ _ hle

/-- The subject sequence of a text made of white space, a sign and digits. -/
theorem strtol_scan_of_parts (ws sg ds : List Nat) (hws : ∀ b ∈ ws, c_isspace b = true)
    (hsg : sg = [] ∨ sg = [43] ∨ sg = [45]) (hds : ds ≠ [])
    (hd : ∀ b ∈ ds, c_isdigit b = true) :
    strtol_scan (ws ++ sg ++ ds) = (ws, sg, ds) := by
  obtain ⟨d0, ds', rfl⟩ := List.exists_cons_of_ne_nil hds
  have hd0 : c_isdigit d0 = true := hd d0 (List.mem_cons_self _ _)
  have hd0' : 48 ≤ d0 ∧ d0 ≤ 57 := by simpa [c_isdigit] using hd0
  have hnsp : c_isspace d0 = false := by
    simp only [c_isspace, decide_eq_false_iff_not]; omega
  have htw : ((d0 :: ds').takeWhile c_isdigit) = d0 :: ds' := by
    rw [List.takeWhile_eq_self_iff]; exact hd
  have h43 : c_isspace 43 = false := by decide
  have h45 : c_isspace 45 = false := by decide
  have hsgn : strtol_sign (d0 :: ds') = [] := by
    unfold strtol_sign
    split
    · rename_i h
      obtain ⟨rfl, -⟩ := List.cons.inj h
      exact absurd hd0 (by decide)
    · rename_i h
      obtain ⟨rfl, -⟩ := List.cons.inj h
      exact absurd hd0 (by decide)
    · rfl
  have hT : (ws ++ sg ++ d0 :: ds').takeWhile c_isspace = ws := by
    rw [List.append_assoc, List.takeWhile_append_of_pos hws]
    rcases hsg with rfl | rfl | rfl
    · simp [List.takeWhile_cons, hnsp]
    · simp [List.takeWhile_cons, h43]
    · simp [List.takeWhile_cons, h45]
  have hD : (ws ++ sg ++ d0 :: ds').dropWhile c_isspace = sg ++ d0 :: ds' := by
    rw [List.append_assoc, List.dropWhile_append_of_pos hws]
    rcases hsg with rfl | rfl | rfl
    · simp [List.dropWhile_cons, hnsp]
    · simp [List.dropWhile_cons, h43]
    · simp [List.dropWhile_cons, h45]
  unfold strtol_scan
  rw [hT, hD]
  rcases hsg with rfl | rfl | rfl
  · simp only [List.nil_append, hsgn, List.length_nil, List.drop_zero, htw]
  · simp only [List.singleton_append, strtol_sign, List.length_singleton, List.drop_succ_cons,
      List.drop_zero, htw]
  · simp only [List.singleton_append, strtol_sign, List.length_singleton, List.drop_succ_cons,
      List.drop_zero, htw]

/-- The result of `strtol` on a text with digits whose value fits a `long`. -/
theorem c_strtol_fits (long_bits : Nat) (t : Bytes) (hds : (strtol_scan t).2.2 ≠ [])
    (hlo : -(2 ^ (long_bits - 1)) ≤ strtol_value t)
    (hhi : strtol_value t ≤ 2 ^ (long_bits - 1) - 1) :
    c_strtol long_bits t
      = (strtol_value t,
          (strtol_scan t).1.length + (strtol_scan t).2.1.length + (strtol_scan t).2.2.length,
          false) := by
  unfold c_strtol
  rw [if_neg hds, if_neg (by omega), if_neg (by omega)]

/-- The result of `strtol` has `errno` clear and `end` behind `s` only when
the text has digits whose value fits a `long`. -/
theorem c_strtol_ok (long_bits : Nat) (t : Bytes) (he : (c_strtol long_bits t).2.2 = false)
    (hn : (c_strtol long_bits t).2.1 ≠ 0) :
    (strtol_scan t).2.2 ≠ [] ∧ -(2 ^ (long_bits - 1)) ≤ strtol_value t
      ∧ strtol_value t ≤ 2 ^ (long_bits - 1) - 1 := by
  unfold c_strtol at he hn
  by_cases h1 : (strtol_scan t).2.2 = []
  · rw [if_pos h1] at hn
    exact absurd rfl hn
  · by_cases h2 : 2 ^ (long_bits - 1) - 1 < strtol_value t
    · rw [if_neg h1, if_pos h2] at he
      exact absurd he (by simp)
    · by_cases h3 : strtol_value t < -(2 ^ (long_bits - 1))
      · rw [if_neg h1, if_neg h2, if_pos h3] at he
        exact absurd he (by simp)
      · exact ⟨h1, by omega, by omega⟩

/-- What `util_parse_long` accepts, with the C library's `strtol`. -/
theorem util_parse_long_c (long_bits : Nat) (s : Bytes) (min max v : Int) :
    util_parse_long (c_strtol long_bits) s min max = some v ↔
      ∃ ws sg ds : Bytes, cstr s = ws ++ sg ++ ds ∧ (∀ b ∈ ws, c_isspace b = true)
        ∧ (sg = [] ∨ sg = [43] ∨ sg = [45]) ∧ ds ≠ [] ∧ (∀ b ∈ ds, c_isdigit b = true)
        ∧ v = (if sg = [45] then -((digits_value ds : Nat) : Int)
            else ((digits_value ds : Nat) : Int))
        ∧ -(2 ^ (long_bits - 1)) ≤ v ∧ v ≤ 2 ^ (long_bits - 1) - 1 ∧ min ≤ v ∧ v ≤ max := by
  constructor
  · intro h
    unfold util_parse_long at h
    split_ifs at h with h1 h2
    simp only [not_or, not_not, Bool.not_eq_true] at h1
    obtain ⟨he, hn, hz⟩ := h1
    obtain ⟨hds, hlo, hhi⟩ := c_strtol_ok long_bits (cstr s) he hn
    have hfit := c_strtol_fits long_bits (cstr s) hds hlo hhi
    rw [hfit] at hz h h2
    simp only [Option.some.injEq] at h
    simp only [not_or, not_lt] at h2
    simp only [] at hz
    subst h
    have hlen := (getD_zero_iff (cstr s) (cstr_nul_free s) _).mp hz
    have hsplit := strtol_scan_split (cstr s)
    have hrem : (((cstr s).dropWhile c_isspace).drop
        (strtol_sign ((cstr s).dropWhile c_isspace)).length).dropWhile c_isdigit = [] := by
      apply List.length_eq_zero.mp
      have := congrArg List.length hsplit
      simp only [List.length_append] at this
      omega
    rw [hrem, List.append_nil] at hsplit
    refine ⟨_, _, _, hsplit, ?_, strtol_sign_cases _, hds, ?_, ?_, ?_, ?_, h2.1, h2.2⟩
    · intro b hb
      exact (List.mem_takeWhile_imp hb)
    · intro b hb
      exact (List.mem_takeWhile_imp hb)
    · rfl
    · exact hlo
    · exact hhi
  · rintro ⟨ws, sg, ds, ht, hws, hsg, hds, hd, hv, hlo, hhi, hmin, hmax⟩
    have hscan := strtol_scan_of_parts ws sg ds hws hsg hds hd
    rw [← ht] at hscan
    have hval : strtol_value (cstr s) = v := by
      unfold strtol_value
      rw [hscan, hv]
    have hfit := c_strtol_fits long_bits (cstr s) (by rw [hscan]; exact hds)
      (by rw [hval]; exact hlo) (by rw [hval]; exact hhi)
    have hpos : 0 < ds.length := List.length_pos.mpr hds
    have hlen : (cstr s).length = ws.length + sg.length + ds.length := by
      rw [ht]; simp only [List.length_append]
    unfold util_parse_long
    rw [hfit, hscan, hval]
    simp only []
    rw [← hlen, List.getD_eq_default _ _ (le_refl _)]
    have h1 : ¬ (false = true ∨ (cstr s).length = 0 ∨ (0 : Nat) ≠ 0) := by
      intro h
      rcases h with h | h | h
      · exact absurd h (by decide)
      · omega
      · exact h rfl
    rw [if_neg h1, if_neg (by omega)]

/-- C23: `util_parse_long(s, out, min, max)` returns 1 and stores `v` exactly
when `strtol(s, &end, 10)` leaves `errno` clear, converts at least one byte,
stops at the terminating NUL and returns a `v` with `min <= v <= max`; in every
other case it returns 0 and stores nothing.  With the `strtol` of the C
library (for a `long` of any width) this is exactly when the whole string is
white space (possibly none), an optional sign and at least one decimal digit,
of a value `v` that fits a `long` and satisfies `min <= v <= max`; the value of
the digits is their decimal value.  For `"123"` with bounds 0 and 200 the
result is 1 with 123 stored, for `"abc"` it is 0. -/
theorem util_parse_long_spec :
    (∀ (strtol : Bytes → Int × Nat × Bool) (s : Bytes) (min max v : Int),
        util_parse_long strtol s min max = some v ↔
          ((strtol (cstr s)).2.2 = false ∧ (strtol (cstr s)).2.1 ≠ 0
            ∧ (cstr s).getD (strtol (cstr s)).2.1 0 = 0
            ∧ (strtol (cstr s)).1 = v ∧ min ≤ v ∧ v ≤ max))
      ∧ (∀ (long_bits : Nat) (s : Bytes) (min max v : Int),
        util_parse_long (c_strtol long_bits) s min max = some v ↔
          ∃ ws sg ds : Bytes, cstr s = ws ++ sg ++ ds ∧ (∀ b ∈ ws, c_isspace b = true)
            ∧ (sg = [] ∨ sg = [43] ∨ sg = [45]) ∧ ds ≠ [] ∧ (∀ b ∈ ds, c_isdigit b = true)
            ∧ v = (if sg = [45] then -((digits_value ds : Nat) : Int)
                else ((digits_value ds : Nat) : Int))
            ∧ -(2 ^ (long_bits - 1)) ≤ v ∧ v ≤ 2 ^ (long_bits - 1) - 1 ∧ min ≤ v ∧ v ≤ max)
      ∧ (digits_value [] = 0
          ∧ ∀ (ds : Bytes) (d : Byte), digits_value (ds ++ [d]) = digits_value ds * 10 + (d - 48))
      ∧ util_parse_long (c_strtol 64) [49, 50, 51] 0 200 = some 123
      ∧ util_parse_long (c_strtol 64) [97, 98, 99] 0 200 = none
      ∧ util_parse_long (c_strtol 32) [49, 50, 51] 0 200 = some 123
      ∧ util_parse_long (c_strtol 32) [97, 98, 99] 0 200 = none := by
  refine ⟨?_, util_parse_long_c, ⟨rfl, ?_⟩, by decide, by decide, by decide, by decide⟩
  · intro strtol s min max v
    unfold util_parse_long
    constructor
    · intro h
      split_ifs at h with h1 h2
      simp only [not_or, not_not, Bool.not_eq_true] at h1
      simp only [not_or, not_lt] at h2
      simp only [Option.some.injEq] at h
      subst h
      exact ⟨h1.1, h1.2.1, h1.2.2, rfl, h2.1, h2.2⟩
    · rintro ⟨he, hn, hz, rfl, hmin, hmax⟩
      have h1 : ¬ ((strtol (cstr s)).2.2 = true ∨ (strtol (cstr s)).2.1 = 0
          ∨ (cstr s).getD (strtol (cstr s)).2.1 0 ≠ 0) := by
        rw [he, hz]
        intro h
        rcases h with h | h | h
        · exact absurd h (by decide)
        · exact hn h
        · exact h rfl
      rw [if_neg h1, if_neg (by omega)]
  · intro ds d
    simp [digits_value, List.foldl_append]

/-! ## C24: `util_parse_double` -/

/-- A NaN is neither below nor above any double. -/
theorem ieee_lt_nan (a b : Double) (h : dbl_is_nan a = true) :
    ieee_lt a b = false ∧ ieee_lt b a = false := by
  simp [ieee_lt, h]

/-- Away from NaN, "not below `min` and not above `max`" is "between". -/
theorem ieee_between (v min max : Double) (hv : dbl_is_nan v = false)
    (hmin : dbl_is_nan min = false) (hmax : dbl_is_nan max = false) :
    (ieee_lt v min = false ∧ ieee_lt max v = false)
      ↔ (ieee_le min v = true ∧ ieee_le v max = true) := by
  simp only [ieee_lt, ieee_le, hv, hmin, hmax, Bool.not_false, Bool.true_and,
    decide_eq_false_iff_not, decide_eq_true_eq, not_lt]

/-- What `util_parse_double` checks. -/
theorem util_parse_double_iff (L : FloatLib) (s : Bytes) (min max v : Double) :
    util_parse_double L s min max = some v ↔
      ((L.strtod (cstr s)).2.2 = false ∧ (L.strtod (cstr s)).2.1 ≠ 0
        ∧ (cstr s).getD (L.strtod (cstr s)).2.1 0 = 0 ∧ (L.strtod (cstr s)).1 = v
        ∧ L.lt v min = false ∧ L.lt max v = false) := by
  unfold util_parse_double
  constructor
  · intro h
    split_ifs at h with h1 h2
    simp only [not_or, not_not, Bool.not_eq_true] at h1 h2
    simp only [Option.some.injEq] at h
    subst h
    exact ⟨h1.1, h1.2.1, h1.2.2, rfl, h2.1, h2.2⟩
  · rintro ⟨he, hn, hz, rfl, hmin, hmax⟩
    have h1 : ¬ ((L.strtod (cstr s)).2.2 = true ∨ (L.strtod (cstr s)).2.1 = 0
        ∨ (cstr s).getD (L.strtod (cstr s)).2.1 0 ≠ 0) := by
      rw [he, hz]
      intro h
      rcases h with h | h | h
      · exact absurd h (by decide)
      · exact hn h
      · exact h rfl
    have h2 : ¬ (L.lt (L.strtod (cstr s)).1 min = true
        ∨ L.lt max (L.strtod (cstr s)).1 = true) := by
      rw [hmin, hmax]
      simp
    rw [if_neg h1, if_neg h2]

/-- C24 on the code: `util_parse_double(s, out, min, max)` returns 1 and stores
`v` exactly when `strtod` leaves `errno` clear, converts at least one byte,
stops at the terminating NUL and returns a `v` for which neither `v < min` nor
`v > max` holds.  For a `v` that is not a NaN (bounds not NaN) this is
`min <= v <= max`, as the claim says; but for the text `nan`, which `strtod`
converts whole to a NaN, both comparisons are false and the function returns 1
and stores the NaN, for any bounds, although `min <= v <= max` does not hold.
With bounds 0 and 100: `nan` is accepted, `12.50` gives 1 with 12.5 stored,
`bad` and the empty string give 0. -/
theorem util_parse_double_accepts_nan :
    (∀ (L : FloatLib) (s : Bytes) (min max v : Double),
        util_parse_double L s min max = some v ↔
          ((L.strtod (cstr s)).2.2 = false ∧ (L.strtod (cstr s)).2.1 ≠ 0
            ∧ (cstr s).getD (L.strtod (cstr s)).2.1 0 = 0 ∧ (L.strtod (cstr s)).1 = v
            ∧ L.lt v min = false ∧ L.lt max v = false))
      ∧ (∀ (v min max : Double), dbl_is_nan v = false → dbl_is_nan min = false →
          dbl_is_nan max = false →
          ((ieee_lt v min = false ∧ ieee_lt max v = false)
            ↔ (ieee_le min v = true ∧ ieee_le v max = true)))
      ∧ (∀ (L : FloatLib) (d min max : Double), L.lt = ieee_lt → dbl_is_nan d = true →
          L.strtod [110, 97, 110] = (d, 3, false) →
          util_parse_double L [110, 97, 110] min max = some d
            ∧ ieee_le min d = false ∧ ieee_le d max = false)
      ∧ (util_parse_double sampleLib [110, 97, 110] DBL_ZERO DBL_100 = some DBL_NAN
          ∧ dbl_is_nan DBL_NAN = true
          ∧ ieee_le DBL_ZERO DBL_NAN = false ∧ ieee_le DBL_NAN DBL_100 = false)
      ∧ (util_parse_double sampleLib [49, 50, 46, 53, 48] DBL_ZERO DBL_100 = some DBL_12_5
          ∧ util_parse_double sampleLib [98, 97, 100] DBL_ZERO DBL_100 = none
          ∧ util_parse_double sampleLib [] DBL_ZERO DBL_100 = none) := by
  refine ⟨util_parse_double_iff, ieee_between, ?_, by decide, by decide⟩
  intro L d min max hlt hnan hstr
  refine ⟨?_, by simp [ieee_le, hnan], by simp [ieee_le, hnan]⟩
  rw [util_parse_double_iff]
  have hc : cstr [110, 97, 110] = [110, 97, 110] := by decide
  rw [hc, hstr, hlt]
  exact ⟨rfl, by simp, by simp, rfl, (ieee_lt_nan d min hnan).1, (ieee_lt_nan d max hnan).2⟩

/-! ## C30: the day difference is a floor -/

/-- A number inside the range of a signed type is unchanged by the conversion. -/
theorem to_signed_of_range (bits : Nat) (x : Int) (hb : 0 < bits)
    (h1 : -(2 ^ (bits - 1)) ≤ x) (h2 : x < 2 ^ (bits - 1)) : to_signed bits x = x := by
  unfold to_signed
  have hp : (2 : Int) ^ bits = 2 * 2 ^ (bits - 1) := by
    obtain ⟨k, rfl⟩ : ∃ k, bits = k + 1 := ⟨bits - 1, by omega⟩
    simp [pow_succ, mul_comm]
  rw [hp, Int.emod_eq_of_lt (by omega) (by omega)]
  omega

/-- The quotient of C, lowered by one for a negative dividend that is not a
multiple of 86400, is the quotient rounded toward minus infinity. -/
theorem c_div_floor (s : Int) :
    (if s < 0 ∧ s.tmod 86400 ≠ 0 then s.tdiv 86400 - 1 else s.tdiv 86400) = s / 86400 := by
  by_cases hs : 0 ≤ s
  · have h1 : ¬ (s < 0 ∧ s.tmod 86400 ≠ 0) := fun h => absurd h.1 (by omega)
    rw [if_neg h1, Int.tdiv_eq_ediv hs (by decide)]
  · have hq : s.tdiv 86400 = -((-s) / 86400) := by
      have := Int.neg_tdiv (-s) 86400
      rw [neg_neg] at this
      rw [this, Int.tdiv_eq_ediv (by omega) (by decide)]
    have hm : s.tmod 86400 = s - 86400 * s.tdiv 86400 := Int.tmod_def s 86400
    rw [hm, hq]
    split_ifs with h <;> omega

/-- The day count of C from two times whose day difference fits an `int`. -/
theorem due_days_between_eq (long_bits : Nat) (d now : Int) (hl : 32 ≤ long_bits)
    (h1 : -(2 ^ 31) ≤ (d - now) / 86400) (h2 : (d - now) / 86400 < 2 ^ 31) :
    due_days_between long_bits d now = (d - now) / 86400 := by
  have hpow : (2 : Int) ^ 31 ≤ 2 ^ (long_bits - 1) :=
    pow_le_pow_right₀ (by decide) (by omega)
  have hs : to_signed 64 (d - now) = d - now :=
    to_signed_of_range 64 _ (by decide) (by norm_num at h1 h2 ⊢; omega)
      (by norm_num at h1 h2 ⊢; omega)
  have hfl := c_div_floor (d - now)
  have h31 : ((2 : Int) ^ (32 - 1)) = 2 ^ 31 := by norm_num
  unfold due_days_between
  rw [hs]
  by_cases hc : d - now < 0 ∧ (d - now).tmod 86400 ≠ 0
  · rw [if_pos hc] at hfl ⊢
    have e1 : to_signed long_bits ((d - now).tdiv 86400) = (d - now).tdiv 86400 :=
      to_signed_of_range long_bits _ (by omega) (by omega) (by omega)
    rw [e1]
    have e2 : to_signed long_bits ((d - now).tdiv 86400 - 1) = (d - now).tdiv 86400 - 1 :=
      to_signed_of_range long_bits _ (by omega) (by omega) (by omega)
    rw [e2, to_signed_of_range 32 _ (by decide) (by rw [h31]; omega) (by rw [h31]; omega)]
    exact hfl
  · rw [if_neg hc] at hfl ⊢
    have e1 : to_signed long_bits ((d - now).tdiv 86400) = (d - now).tdiv 86400 :=
      to_signed_of_range long_bits _ (by omega) (by omega) (by omega)
    rw [e1, to_signed_of_range 32 _ (by decide) (by rw [h31]; omega) (by rw [h31]; omega)]
    exact hfl

/-- C30: for a due date that `util_parse_iso_date` accepts, with local-midnight
time `d` (not `-1`), and a current time `now` whose day difference fits an
`int`, `util_due_days` returns 1 and stores `floor((d - now) / 86400)`: the
quotient rounded toward minus infinity, equal to the exact quotient when the
difference is a multiple of 86400.  So a midnight between 1 and 86400 seconds
in the past gives -1 and one between 0 and 86399 seconds in the future gives 0. -/
theorem util_due_days_floor (T : TimeLib) (long_bits : Nat) (now : Int) (due_date : Bytes)
    (tm : Tm) (hl : 32 ≤ long_bits) (hne : cstr due_date ≠ [])
    (hdate : util_parse_iso_date T due_date = some tm) (hd : (T.mktime tm).1 ≠ -1)
    (h1 : -(2 ^ 31) ≤ ((T.mktime tm).1 - now) / 86400)
    (h2 : ((T.mktime tm).1 - now) / 86400 < 2 ^ 31) :
    util_due_days T long_bits now due_date = some (((T.mktime tm).1 - now) / 86400)
      ∧ ((T.mktime tm).1 - now) / 86400 = ⌊((((T.mktime tm).1 - now : Int) : ℚ) / 86400)⌋
      ∧ (86400 ∣ (T.mktime tm).1 - now →
          86400 * (((T.mktime tm).1 - now) / 86400) = (T.mktime tm).1 - now)
      ∧ (-86400 ≤ (T.mktime tm).1 - now → (T.mktime tm).1 - now ≤ -1 →
          util_due_days T long_bits now due_date = some (-1))
      ∧ (0 ≤ (T.mktime tm).1 - now → (T.mktime tm).1 - now ≤ 86399 →
          util_due_days T long_bits now due_date = some 0) := by
  have hmain : util_due_days T long_bits now due_date
      = some (((T.mktime tm).1 - now) / 86400) := by
    unfold util_due_days
    rw [if_neg hne, hdate]
    simp only []
    rw [if_neg hd, due_days_between_eq long_bits _ now hl h1 h2]
  refine ⟨hmain, ?_, ?_, ?_, ?_⟩
  · have := Rat.floor_intCast_div_natCast ((T.mktime tm).1 - now) 86400
    simp only [Nat.cast_ofNat] at this
    exact this.symm
  · intro hdvd
    exact Int.mul_ediv_cancel' hdvd
  · intro ha hb
    rw [hmain]
    congr 1
    omega
  · intro ha hb
    rw [hmain]
    congr 1
    omega

/-- C30 at the date `2025-01-02`, one hour after its midnight: -1. -/
theorem util_due_days_floor_witness :
    32 ≤ 64 ∧ cstr [50, 48, 50, 53, 45, 48, 49, 45, 48, 50] ≠ []
      ∧ util_parse_iso_date sampleTime [50, 48, 50, 53, 45, 48, 49, 45, 48, 50]
          = some ⟨125, 0, 2, 0, 0, 0, -1⟩
      ∧ (sampleTime.mktime ⟨125, 0, 2, 0, 0, 0, -1⟩).1 ≠ -1
      ∧ util_due_days sampleTime 64 (1735776000 + 3600) [50, 48, 50, 53, 45, 48, 49, 45, 48, 50]
          = some (((sampleTime.mktime ⟨125, 0, 2, 0, 0, 0, -1⟩).1 - (1735776000 + 3600)) / 86400)
      ∧ util_due_days sampleTime 64 (1735776000 + 3600) [50, 48, 50, 53, 45, 48, 49, 45, 48, 50]
          = some (-1) :=
  ⟨by decide, by decide, by decide, by decide,
    (util_due_days_floor sampleTime 64 (1735776000 + 3600)
      [50, 48, 50, 53, 45, 48, 49, 45, 48, 50] ⟨125, 0, 2, 0, 0, 0, -1⟩ (by decide) (by decide)
      (by decide) (by decide) (by decide) (by decide)).1,
    by decide⟩

/-! ## C22: the statistics partition the contacts -/

/-- What one turn of the row loop adds to the counters. -/
theorem stats_step (L : FloatLib) (T : TimeLib) (long_bits : Nat) (now : Int)
    (st : ContactStats) (r : Row) :
    (stats_date T long_bits now (stats_fields L st r) r).total_contacts = st.total_contacts + 1
      ∧ (stats_date T long_bits now (stats_fields L st r) r).due_contacts
          + (stats_date T long_bits now (stats_fields L st r) r).no_due_contacts
          = st.due_contacts + st.no_due_contacts + 1
      ∧ (stats_date T long_bits now (stats_fields L st r) r).due_date_present
          + (stats_date T long_bits now (stats_fields L st r) r).due_date_missing
          = st.due_date_present + st.due_date_missing + 1
      ∧ (stats_date T long_bits now (stats_fields L st r) r).overdue_contacts
          + (stats_date T long_bits now (stats_fields L st r) r).due_soon_contacts
          + (stats_date T long_bits now (stats_fields L st r) r).due_later_contacts
          + (stats_date T long_bits now (stats_fields L st r) r).due_date_invalid
          + st.due_date_present
          = st.overdue_contacts + st.due_soon_contacts + st.due_later_contacts
            + st.due_date_invalid
            + (stats_date T long_bits now (stats_fields L st r) r).due_date_present
      ∧ (stats_date T long_bits now (stats_fields L st r) r).due_today_contacts
          + st.due_soon_contacts
          ≤ st.due_today_contacts
            + (stats_date T long_bits now (stats_fields L st r) r).due_soon_contacts
      ∧ (stats_date T long_bits now (stats_fields L st r) r).missing_phone
          = st.missing_phone + (if cstr (r.phone.getD []) = [] then 1 else 0)
      ∧ (stats_date T long_bits now (stats_fields L st r) r).missing_email
          = st.missing_email + (if cstr (r.email.getD []) = [] then 1 else 0)
      ∧ (stats_date T long_bits now (stats_fields L st r) r).missing_address
          = st.missing_address + (if cstr (r.address.getD []) = [] then 1 else 0) := by
  unfold stats_date
  by_cases hd : cstr (r.due_date.getD []) = []
  · rw [if_pos hd]
    refine ⟨?_, ?_, ?_, ?_, ?_, ?_, ?_, ?_⟩ <;> simp only [stats_fields] <;>
      (try split_ifs) <;> omega
  · rw [if_neg hd]
    cases util_due_days T long_bits now (r.due_date.getD []) with
    | none =>
      refine ⟨?_, ?_, ?_, ?_, ?_, ?_, ?_, ?_⟩ <;> simp only [stats_fields] <;>
        (try split_ifs) <;> omega
    | some days =>
      simp only []
      by_cases h1 : days < 0
      · rw [if_pos h1]
        refine ⟨?_, ?_, ?_, ?_, ?_, ?_, ?_, ?_⟩ <;> simp only [stats_fields] <;>
          (try split_ifs) <;> omega
      · rw [if_neg h1]
        by_cases h2 : days = 0
        · rw [if_pos h2]
          refine ⟨?_, ?_, ?_, ?_, ?_, ?_, ?_, ?_⟩ <;> simp only [stats_fields] <;>
            (try split_ifs) <;> omega
        · rw [if_neg h2]
          by_cases h3 : days ≤ 7
          · rw [if_pos h3]
            refine ⟨?_, ?_, ?_, ?_, ?_, ?_, ?_, ?_⟩ <;> simp only [stats_fields] <;>
              (try split_ifs) <;> omega
          · rw [if_neg h3]
            refine ⟨?_, ?_, ?_, ?_, ?_, ?_, ?_, ?_⟩ <;> simp only [stats_fields] <;>
              (try split_ifs) <;> omega

/-- What the row loop adds to the counters over a list of rows. -/
theorem stats_loop_counts (L : FloatLib) (T : TimeLib) (long_bits : Nat) (clock : Nat → Int) :
    ∀ (rows : List Row) (k : Nat) (st : ContactStats),
      (stats_loop L T long_bits clock k rows st).total_contacts = st.total_contacts + rows.length
      ∧ (stats_loop L T long_bits clock k rows st).due_contacts
          + (stats_loop L T long_bits clock k rows st).no_due_contacts
          = st.due_contacts + st.no_due_contacts + rows.length
      ∧ (stats_loop L T long_bits clock k rows st).due_date_present
          + (stats_loop L T long_bits clock k rows st).due_date_missing
          = st.due_date_present + st.due_date_missing + rows.length
      ∧ (stats_loop L T long_bits clock k rows st).overdue_contacts
          + (stats_loop L T long_bits clock k rows st).due_soon_contacts
          + (stats_loop L T long_bits clock k rows st).due_later_contacts
          + (stats_loop L T long_bits clock k rows st).due_date_invalid
          + st.due_date_present
          = st.overdue_contacts + st.due_soon_contacts + st.due_later_contacts
            + st.due_date_invalid
            + (stats_loop L T long_bits clock k rows st).due_date_present
      ∧ (stats_loop L T long_bits clock k rows st).due_today_contacts + st.due_soon_contacts
          ≤ st.due_today_contacts + (stats_loop L T long_bits clock k rows st).due_soon_contacts
      ∧ (stats_loop L T long_bits clock k rows st).missing_phone
          = st.missing_phone + rows.countP (fun r => decide (cstr (r.phone.getD []) = []))
      ∧ (stats_loop L T long_bits clock k rows st).missing_email
          = st.missing_email + rows.countP (fun r => decide (cstr (r.email.getD []) = []))
      ∧ (stats_loop L T long_bits clock k rows st).missing_address
          = st.missing_address
            + rows.countP (fun r => decide (cstr (r.address.getD []) = [])) := by
  intro rows
  induction rows with
  | nil => intro k st; simp [stats_loop]
  | cons r rs ih =>
    intro k st
    obtain ⟨a1, a2, a3, a4, a5, a6, a7, a8⟩ := stats_step L T long_bits (clock k) st r
    obtain ⟨b1, b2, b3, b4, b5, b6, b7, b8⟩ :=
      ih (k + 1) (stats_date T long_bits (clock k) (stats_fields L st r) r)
    simp only [stats_loop, List.length_cons, List.countP_cons, decide_eq_true_eq]
    refine ⟨?_, ?_, ?_, ?_, ?_, ?_, ?_, ?_⟩
    · omega
    · omega
    · omega
    · omega
    · omega
    · rw [b6, a6]; omega
    · rw [b7, a7]; omega
    · rw [b8, a8]; omega

/-- C22: on an open store whose query is prepared, `contacts_stats` returns 1
and the counters it leaves satisfy, for every table, library and clock:
`total_contacts` is the number of rows and equals `due_contacts +
no_due_contacts` and `due_date_present + due_date_missing`;
`due_date_present = overdue_contacts + due_soon_contacts + due_later_contacts +
due_date_invalid`; `due_today_contacts <= due_soon_contacts`; `missing_phone`,
`missing_email`, `missing_address` are the numbers of rows whose field is NULL
or the empty string. -/
theorem contacts_stats_partition (L : FloatLib) (T : TimeLib) (long_bits : Nat)
    (clock : Nat → Int) (db : Db) (hh : db.handle = true)
    (hq : (sqlite_attempt db).1 = true) :
    ∃ st, contacts_stats L T long_bits clock db = (1, some st, (sqlite_attempt db).2)
      ∧ st.total_contacts = db.rows.length
      ∧ st.total_contacts = st.due_contacts + st.no_due_contacts
      ∧ st.total_contacts = st.due_date_present + st.due_date_missing
      ∧ st.due_date_present
          = st.overdue_contacts + st.due_soon_contacts + st.due_later_contacts
            + st.due_date_invalid
      ∧ st.due_today_contacts ≤ st.due_soon_contacts
      ∧ st.missing_phone = db.rows.countP (fun r => decide (cstr (r.phone.getD []) = []))
      ∧ st.missing_email = db.rows.countP (fun r => decide (cstr (r.email.getD []) = []))
      ∧ st.missing_address
          = db.rows.countP (fun r => decide (cstr (r.address.getD []) = [])) := by
  obtain ⟨b1, b2, b3, b4, b5, b6, b7, b8⟩ :=
    stats_loop_counts L T long_bits clock db.rows 0 stats_zero
  have z1 : stats_zero.total_contacts = 0 := rfl
  have z2 : stats_zero.due_contacts = 0 := rfl
  have z3 : stats_zero.no_due_contacts = 0 := rfl
  have z4 : stats_zero.overdue_contacts = 0 := rfl
  have z5 : stats_zero.due_today_contacts = 0 := rfl
  have z6 : stats_zero.due_soon_contacts = 0 := rfl
  have z7 : stats_zero.due_later_contacts = 0 := rfl
  have z8 : stats_zero.due_date_present = 0 := rfl
  have z9 : stats_zero.due_date_missing = 0 := rfl
  have z10 : stats_zero.due_date_invalid = 0 := rfl
  have z11 : stats_zero.missing_phone = 0 := rfl
  have z12 : stats_zero.missing_email = 0 := rfl
  have z13 : stats_zero.missing_address = 0 := rfl
  refine ⟨stats_loop L T long_bits clock 0 db.rows stats_zero, ?_, ?_, ?_, ?_, ?_, ?_, ?_, ?_, ?_⟩
  · simp [contacts_stats, hh, hq]
  all_goals omega

/-- C22 at `demo_export_db`: two contacts, none with an amount due or a due
date, one without phone, two without email, one without address. -/
theorem contacts_stats_partition_witness :
    demo_export_db.handle = true ∧ (sqlite_attempt demo_export_db).1 = true
      ∧ (contacts_stats zeroLib sampleTime 64 (fun _ => 1735776000) demo_export_db).2.1
          = some ⟨2, 0, 2, 0, 0, 0, 0, 0, 2, 0, 1, 2, 1⟩
      ∧ ∃ st, contacts_stats zeroLib sampleTime 64 (fun _ => 1735776000) demo_export_db
            = (1, some st, (sqlite_attempt demo_export_db).2)
          ∧ st.total_contacts = demo_export_db.rows.length
          ∧ st.total_contacts = st.due_contacts + st.no_due_contacts
          ∧ st.total_contacts = st.due_date_present + st.due_date_missing
          ∧ st.due_date_present
              = st.overdue_contacts + st.due_soon_contacts + st.due_later_contacts
                + st.due_date_invalid
          ∧ st.due_today_contacts ≤ st.due_soon_contacts
          ∧ st.missing_phone
              = demo_export_db.rows.countP (fun r => decide (cstr (r.phone.getD []) = []))
          ∧ st.missing_email
              = demo_export_db.rows.countP (fun r => decide (cstr (r.email.getD []) = []))
          ∧ st.missing_address
              = demo_export_db.rows.countP (fun r => decide (cstr (r.address.getD []) = [])) :=
  ⟨rfl, rfl, by decide,
    contacts_stats_partition zeroLib sampleTime 64 (fun _ => 1735776000) demo_export_db rfl rfl⟩

/-! ## C3: a second record of 5 fields -/

/-- C3 on the code, at the stream `h\na,b,c,d,e\nA,1,2,3,4,5\n` whose second
record has 5 fields: the reader returns that record with count 6, an empty
sixth field added, so on an empty open store that meets no fault, with any C
library, the strict committing call returns 1 with imported = 2, failed = 0 and
two rows stored, the first named `a`, and the lenient committing call reports
the same counts. -/
theorem csv_import_short_second_record :
    (csv_read_all demo_short_stream).map record_data
        = [(2, [[104], []]), (6, [[97], [98], [99], [100], [101], []]),
            (6, [[65], [49], [50], [51], [52], [53]])]
      ∧ ∀ L : FloatLib,
          ((csv_import_contacts L (healthy_db []) demo_short_stream true false).ret = 1
            ∧ (csv_import_contacts L (healthy_db []) demo_short_stream true false).counts
                = some (2, 0)
            ∧ (csv_import_contacts L (healthy_db []) demo_short_stream true false).db.rows.map
                (fun r => r.name) = [some [97], some [65]])
          ∧ ((csv_import_contacts L (healthy_db []) demo_short_stream false false).ret = 1
            ∧ (csv_import_contacts L (healthy_db []) demo_short_stream false false).counts
                = some (2, 0)) := by
  refine ⟨by decide, fun L => ?_⟩
  have hgood : ∀ r ∈ data_records demo_short_stream,
      r.count = 6 ∧ cstr (r.fields.getD 0 []) ≠ [] := by decide
  have hlen : (data_records demo_short_stream).length = 2 := by decide
  have hnames : (data_records demo_short_stream).map
      (fun r => some (cstr (snprintf_s 200 (r.fields.getD 0 [])))) = [some [97], some [65]] := by
    decide
  obtain ⟨s1, s2, s3⟩ := csv_import_all_good L (healthy_db []) demo_short_stream true rfl rfl rfl
    hgood
  obtain ⟨l1, l2, -⟩ := csv_import_all_good L (healthy_db []) demo_short_stream false rfl rfl rfl
    hgood
  rw [hlen] at s2 l2
  refine ⟨⟨s1, s2, ?_⟩, l1, l2⟩
  rw [s3, ← hnames]
  simp [healthy_db, row_of_contact, contact_of_fields]

/-! ## C5, on any store: what the dry run counts and the committing run does not -/

/-- In a dry run a record passes exactly when it has at least 6 fields. -/
theorem record_outcomes_dry (L : FloatLib) :
    ∀ (recs : List ReadResult) (db : Db),
      (record_outcomes L true recs db).count true
          = recs.countP (fun r => decide (¬ r.count < 6))
        ∧ (record_outcomes L true recs db).count false
          = recs.countP (fun r => decide (r.count < 6)) := by
  intro recs
  induction recs with
  | nil => intro db; exact ⟨rfl, rfl⟩
  | cons r rs ih =>
    intro db
    obtain ⟨i1, i2⟩ := ih (sink_step L true r db)
    rw [record_outcomes, List.count_cons, List.count_cons, List.countP_cons, List.countP_cons,
      i1, i2]
    by_cases h6 : r.count < 6
    · have hp : record_passes L true r db = false := by simp [record_passes, h6]
      rw [hp]
      simp only [h6, not_true_eq_false, decide_False, decide_True, Bool.false_eq_true, if_false,
        if_true, beq_self_eq_true, show (false == true) = false from rfl]
      exact ⟨trivial, trivial⟩
    · have hp : record_passes L true r db = true := by simp [record_passes, h6]
      rw [hp]
      simp only [h6, not_false_eq_true, decide_False, decide_True, Bool.false_eq_true, if_false,
        if_true, beq_self_eq_true, show (true == false) = false from rfl]
      exact ⟨trivial, trivial⟩

/-- In a committing run the records that pass are those of at least 6 fields
that `contacts_add` does not reject. -/
theorem record_outcomes_commit (L : FloatLib) :
    ∀ (recs : List ReadResult) (db : Db),
      (record_outcomes L false recs db).count true + sink_rejected L recs db
          = recs.countP (fun r => decide (¬ r.count < 6))
        ∧ (record_outcomes L false recs db).count false
          = recs.countP (fun r => decide (r.count < 6)) + sink_rejected L recs db := by
  intro recs
  induction recs with
  | nil => intro db; exact ⟨rfl, rfl⟩
  | cons r rs ih =>
    intro db
    obtain ⟨i1, i2⟩ := ih (sink_step L false r db)
    rw [record_outcomes, sink_rejected, List.count_cons, List.count_cons, List.countP_cons,
      List.countP_cons]
    by_cases h6 : r.count < 6
    · have hp : record_passes L false r db = false := by simp [record_passes, h6]
      rw [hp]
      simp only [h6, not_true_eq_false, decide_False, decide_True, Bool.false_eq_true, if_false,
        if_true, beq_self_eq_true, show (false == true) = false from rfl, false_and]
      exact ⟨by omega, by omega⟩
    · cases ha : (contacts_add db (contact_of_fields L r.fields)).1 with
      | true =>
        have hp : record_passes L false r db = true := by simp [record_passes, h6, ha]
        rw [hp]
        simp only [h6, not_false_eq_true, decide_False, decide_True, Bool.false_eq_true,
          if_false, if_true, beq_self_eq_true, show (true == false) = false from rfl,
          Bool.true_eq_false, and_false]
        exact ⟨by omega, by omega⟩
      | false =>
        have hp : record_passes L false r db = false := by simp [record_passes, h6, ha]
        rw [hp]
        simp only [h6, not_false_eq_true, decide_False, decide_True, Bool.false_eq_true,
          if_false, if_true, beq_self_eq_true, show (false == true) = false from rfl, and_self]
        exact ⟨by omega, by omega⟩

/-- On an open store that meets no fault, `contacts_add` rejects no record of
at least 6 fields whose name is not empty. -/
theorem sink_rejected_good (L : FloatLib) :
    ∀ (recs : List ReadResult) (db : Db), db.handle = true → db.faults = [] →
      (∀ r ∈ recs, ¬ r.count < 6 → cstr (r.fields.getD 0 []) ≠ []) →
      sink_rejected L recs db = 0 := by
  intro recs
  induction recs with
  | nil => intro db _ _ _; rfl
  | cons r rs ih =>
    intro db hh hf hname
    have hrs := fun x hx => hname x (List.mem_cons_of_mem _ hx)
    rw [sink_rejected]
    by_cases h6 : r.count < 6
    · have hstep : sink_step L false r db = db := by simp [sink_step, h6]
      rw [hstep, ih db hh hf hrs]
      simp [h6]
    · have hadd := contacts_add_ok db (contact_of_fields L r.fields) hh hf
        (contact_name_ne_nil L _ (hname r (List.mem_cons_self _ _) h6))
      have hstep : sink_step L false r db
          = { db with rows := db.rows ++ [row_of_contact (contact_of_fields L r.fields)],
                      log := db.log ++ [SinkCall.add (contact_of_fields L r.fields)] } := by
        simp [sink_step, h6, hadd]
      rw [ih (sink_step L false r db) (by rw [hstep]; exact hh) (by rw [hstep]; exact hf) hrs,
        hadd]
      simp

/-- `db_begin` on a store that meets no fault leaves a store that meets none. -/
theorem db_begin_no_fault (db : Db) (hf : db.faults = []) : (db_begin db).2.faults = [] := by
  cases db with
  | mk handle rows txn faults log =>
    simp only at hf
    subst hf
    cases handle <;> cases txn <;> simp [db_begin, sqlite_attempt]

/-- C5, amended: whenever the committing lenient run returns 1 (on any store,
whatever SQLite statements fail), the lenient dry run on the same stream and
store returns 1, and its `imported` is the committing run's `imported` plus
the number of records of at least 6 fields to which `contacts_add` answered 0,
its `failed` smaller by the same number.  So the two runs report the same
counts exactly when `contacts_add` rejects no such record; it rejects none on
a store that meets no fault when every such record has a non-empty name. -/
theorem csv_import_dry_vs_commit (L : FloatLib) (db : Db) (s : Bytes)
    (h : (csv_import_contacts L db s false false).ret = 1) :
    (csv_import_contacts L db s false true).ret = 1
      ∧ (∃ i f di df, (csv_import_contacts L db s false false).counts = some (i, f)
          ∧ (csv_import_contacts L db s false true).counts = some (di, df)
          ∧ di = i + sink_rejected L (data_records s) (db_begin db).2
          ∧ f = df + sink_rejected L (data_records s) (db_begin db).2
          ∧ di = (data_records s).countP (fun r => decide (¬ r.count < 6))
          ∧ (di = i ↔ sink_rejected L (data_records s) (db_begin db).2 = 0))
      ∧ ((csv_import_contacts L db s false true).counts
            = (csv_import_contacts L db s false false).counts
          ↔ sink_rejected L (data_records s) (db_begin db).2 = 0)
      ∧ (db.faults = [] →
          (∀ r ∈ data_records s, ¬ r.count < 6 → cstr (r.fields.getD 0 []) ≠ []) →
          sink_rejected L (data_records s) (db_begin db).2 = 0) := by
  obtain ⟨hh, -⟩ := csv_import_ret_one L db s false false h
  have hc := csv_import_ret_one_eq L db s false false h
  have hd : csv_import_contacts L db s false true
      = ⟨1, some ((record_outcomes L true (data_records s) (import_start db true)).count true,
            (record_outcomes L true (data_records s) (import_start db true)).count false),
          sink_feed L true (data_records s) (import_start db true), []⟩ := by
    rw [csv_import_to_end L db s false true hh (fun h => absurd h (by decide))
      (fun h => absurd h (by decide))]
    simp [import_finish]
  have hstart : import_start db false = (db_begin db).2 := rfl
  obtain ⟨d1, d2⟩ := record_outcomes_dry L (data_records s) (import_start db true)
  obtain ⟨c1, c2⟩ := record_outcomes_commit L (data_records s) (db_begin db).2
  rw [hstart] at hc
  rw [hc, hd]
  refine ⟨rfl, ⟨_, _, _, _, rfl, rfl, by omega, by omega, d1, by omega⟩, ?_, ?_⟩
  · simp only [Option.some.injEq, Prod.mk.injEq]
    constructor
    · intro he; omega
    · intro he; omega
  · intro hf hname
    exact sink_rejected_good L (data_records s) (db_begin db).2
      (by rw [(db_begin_fields db).2.2]; exact hh) (db_begin_no_fault db hf) hname

/-- C5, amended, at `demo_good_stream` on `demo_faulty_db`, where the insert of
the first record fails: the committing run reports imported = 1, failed = 1,
the dry run imported = 2, failed = 0. -/
theorem csv_import_dry_vs_commit_witness :
    (csv_import_contacts zeroLib demo_faulty_db demo_good_stream false false).ret = 1
      ∧ (csv_import_contacts zeroLib demo_faulty_db demo_good_stream false false).counts
          = some (1, 1)
      ∧ (csv_import_contacts zeroLib demo_faulty_db demo_good_stream false true).counts
          = some (2, 0)
      ∧ sink_rejected zeroLib (data_records demo_good_stream) (db_begin demo_faulty_db).2 = 1
      ∧ (csv_import_contacts zeroLib demo_faulty_db demo_good_stream false true).ret = 1 :=
  ⟨by decide, by decide, by decide, by decide,
    (csv_import_dry_vs_commit zeroLib demo_faulty_db demo_good_stream (by decide)).1⟩

/-! ## C25: termination and progress of the reader, allocations included -/

end ContactCsv
